import Mathlib

/-!
# Likelihood: `WcsMap2` images and the diffuse response of an `Event`

A shallow embedding of `src/src/WcsMap2.cxx` (file constructor, sampling,
energy interpolation, map integrals, rebinning, the exposure-weighted image of
`convolve`, the boundary walk of `minMaxDistPixels`), of `src/src/Event.cxx`
(true-energy grid, diffuse-response table and lookup), of
`src/src/LogGaussian.cxx` (value and parameter derivatives) and of the
time-cut comparison of `src/src/AppHelpers.cxx`.

Modelling conventions.

* A C++ `double` is an element of a linearly ordered field `K` with a floor
  function (exact arithmetic; rounding error, infinities and NaN are not
  modelled).  Definitions are generic in `K`, so they run on `ℚ` and are
  reasoned about on `ℝ` when `log`, `pow` or `exp` are involved.
* `<cmath>` functions (`log`, `pow`, `exp`) and the `astro` package
  (`SkyProj`, `SkyDir`) are not part of the repository; they enter as
  function arguments or as fields of `SkyProj`.  Classes of the repository
  whose implementation is not among the embedded files (`BinnedExposure`,
  `MeanPsf`, `Convolve`, `DiffuseSource`, `TrapQuad`, `ResponseFunctions`,
  `RoiCuts`, `FitsImage::EquinoxRotation`) enter the same way, as fields of
  `ConvolveEnv` and `EventEnv`; the global setting
  `ResponseFunctions::useEdisp()` is a `Bool` argument.
* A `std::string` is a `String` of ASCII characters and `std::tolower` is
  `Char.toLower`; a `std::map` from names to vectors is an association list
  with unique keys, in order of insertion.
* A C++ exception and an out-of-bounds access are values of `Failure`;
  functions that can throw return `Except Failure _`.
* `int` values are `Int` and `std::vector` is `List`; sizes and indices stay
  far below `2^31`, so no machine integer wraps.
* Statements are evaluated on small example maps (`demoMap` and its
  instances) in a plate-carrée stand-in for the external projection.
-/

namespace Likelihood

/-- The ways in which the embedded member functions can fail. -/
inductive Failure where
  /-- Thrown as `std::runtime_error("WcsMap2: Requested energy index is out-of-range.")` -/
  | energyIndexOutOfRange
  /-- Thrown as `std::runtime_error("WcsMap2: Requested energy is out-of-range.")` -/
  | energyOutOfRange
  /-- Thrown as `std::runtime_error` by `interpolatePowerLaw` -/
  | powerLawNonPositive
  /-- Thrown as `std::out_of_range` by `std::vector::at` -/
  | vectorAt
  /-- Out-of-bounds `operator[]`, or `front()`/`back()` of an empty vector:
  undefined behaviour in C++ -/
  | undefinedBehaviour
  /-- Thrown as `std::length_error` by `std::vector::resize` with a negative
  `int` count (which converts to a huge `size_t`) -/
  | lengthError
  /-- Thrown as `Likelihood::Exception` by `Event::diffuseResponse` for a
  component without an associated diffuse response -/
  | noDiffuseResponse
  /-- Thrown as `std::runtime_error("NAXIS3 does not match the number of rows
  in the ENERGIES extension.")` by the file constructor of `WcsMap2` -/
  | naxis3Mismatch
  /-- Thrown as `optimizers::ParameterNotFound` by
  `LogGaussian::derivByParamImp` -/
  | parameterNotFound
  /-- Thrown as `std::runtime_error` ("Time range cuts ... do not agree.") by
  the file-level `AppHelpers::checkTimeCuts` -/
  | timeCutsDisagree
  deriving DecidableEq, Repr

section Scalars

variable {K : Type} [LinearOrderedField K] [FloorRing K]

/-- The conversion `static_cast<int>(x)`: truncation toward zero. -/
def castInt (x : K) : Int :=
  if 0 ≤ x then ⌊x⌋ else ⌈x⌉

/-- The function `std::fmod(x, y)`: `x - n*y` with `n` the quotient `x/y`
truncated toward zero (the result has the sign of `x`). -/
def fmod (x y : K) : K :=
  x - (castInt (x / y) : K) * y

/-- The function `my_round` of the unnamed namespace (WcsMap2.cxx, lines 71-77). -/
def my_round (x : K) : K :=
  let xint : Int := castInt x
  if x - (xint : K) ≥ 1 / 2 then (xint : K) + 1 else (xint : K)

/-- The function `interpolatePowerLaw` of the unnamed namespace (WcsMap2.cxx,
lines 51-69).  `log` and `pow` are `std::log` and `std::pow`. -/
def interpolatePowerLaw (log : K → K) (pow : K → K → K)
    (x x1 x2 y1 y2 : K) : Except Failure K :=
  if y1 = 0 ∧ y2 = 0 then
    .ok 0
  else if x1 ≤ 0 ∨ x2 ≤ 0 ∨ y1 ≤ 0 ∨ y2 ≤ 0 then
    .error .powerLawNonPositive
  else
    let gamma := log (y2 / y1) / log (x2 / x1)
    let n0 := y1 / pow x1 gamma
    .ok (n0 * pow x gamma)

end Scalars

section Vectors

variable {α : Type}

/-- The access `v.at(i)`: bounds-checked access, throws `std::out_of_range`.  The index
is converted to `size_t`, so a negative `int` is out of range as well. -/
def vecAt (v : List α) (i : Int) : Except Failure α :=
  if 0 ≤ i then
    match v.get? i.toNat with
    | some a => .ok a
    | none => .error .vectorAt
  else .error .vectorAt

/-- The access `v[i]`: unchecked access; out of bounds is undefined behaviour. -/
def vecIdx (v : List α) (i : Int) : Except Failure α :=
  if 0 ≤ i then
    match v.get? i.toNat with
    | some a => .ok a
    | none => .error .undefinedBehaviour
  else .error .undefinedBehaviour

/-- The access `v.back()`. -/
def vecBack (v : List α) : Except Failure α :=
  match v.getLast? with
  | some a => .ok a
  | none => .error .undefinedBehaviour

/-- The access `v.front()`. -/
def vecFront (v : List α) : Except Failure α :=
  match v.head? with
  | some a => .ok a
  | none => .error .undefinedBehaviour

end Vectors

/-- The accessors of `astro::SkyDir` (an external class) that the code
reads: equatorial and galactic coordinates of a direction, in degrees. -/
structure SkyDir (K : Type) where
  ra : K
  dec : K
  l : K
  b : K

/-- The services of `astro::SkyProj` (an external class) that the code
calls. -/
structure SkyProj (K : Type) where
  /-- The call `dir.project(proj)`: the pixel coordinates `(x, y)` of a direction -/
  project : SkyDir K → K × K
  /-- The call `proj.pix2sph(x, y)`: the sky coordinates of a pixel position -/
  pix2sph : K → K → K × K
  /-- The call `proj.testpix2sph(x, y)`: `0` when the pixel position is valid -/
  testpix2sph : K → K → Int
  /-- The call `proj.isGalactic()` -/
  isGalactic : Bool
  /-- The call `proj.projType()` -/
  projType : String

/-- The sphere geometry that `WcsMap2::solidAngle` takes from `<cmath>` and
`astro::SkyDir`. -/
structure SphereGeom (K : Type) where
  /-- The constant `M_PI` -/
  pi : K
  /-- The angle `std::acos(astro::SkyDir(a.first, a.second)().dot(
  astro::SkyDir(b.first, b.second)()))` -/
  acosDot : K × K → K × K → K

/-- The enumeration `astro::SkyDir::CoordSystem`. -/
inductive CoordSystem where
  | GALACTIC
  | EQUATORIAL
  deriving DecidableEq, Repr

/-- The data members of class `WcsMap2`, under their source names. -/
structure WcsMap2 (K : Type) where
  m_refDir : SkyDir K
  /-- The element `m_image[k][j][i]`: plane `k`, row `j`, column `i` -/
  m_image : List (List (List K))
  /-- The lazily filled cache behind `solidAngles()`, indexed `[i][j]` -/
  m_solidAngles : List (List K)
  m_proj : SkyProj K
  m_naxes : Int
  m_naxis1 : Int
  m_naxis2 : Int
  m_naxis3 : Int
  m_crpix1 : K
  m_crpix2 : K
  m_crval1 : K
  m_crval2 : K
  m_cdelt1 : K
  m_cdelt2 : K
  m_crota2 : K
  m_energies : List K
  m_interpolate : Bool
  m_isPeriodic : Bool
  m_coordSys : CoordSystem
  m_mapIntegral : K
  m_mapIntegrals : List K

/-- The collaborators of `WcsMap2::convolve` whose code is not part of the
embedded source. -/
structure ConvolveEnv (K : Type) where
  /-- The call `exposure(energy, ra, dec)` of `BinnedExposure` -/
  exposure : K → K → K → K
  /-- The call `psf(energy, theta, phi)` of `MeanPsf` -/
  psf : K → K → K → K
  /-- The constructor `astro::SkyDir(lon, lat, coordSys)` -/
  mkSkyDir : K → K → CoordSystem → SkyDir K
  /-- The call `a.difference(b)` of `astro::SkyDir`, in radians -/
  difference : SkyDir K → SkyDir K → K
  /-- The constant `M_PI` -/
  pi : K
  /-- The constructor `astro::SkyProj(projType, crpix, crval, cdelt)` -/
  mkSkyProj : String → K × K → K × K → K × K → SkyProj K
  /-- The call `Convolve::convolve2d(counts, psf_image)` -/
  convolve2d : List (List K) → List (List K) → List (List K)

/-- What the file constructor of `WcsMap2` obtains from the file through the
external packages `tip` and `astro` and through `ExposureMap`. -/
structure ImageFile (K : Type) where
  /-- The projection `astro::SkyProj(filename, extension)` -/
  proj : SkyProj K
  /-- The pixel values `image->get(my_image)`, in file order -/
  pixels : List K
  /-- The header keyword `NAXIS` -/
  NAXIS : Int
  /-- The header keyword `NAXIS1` -/
  NAXIS1 : Int
  /-- The header keyword `NAXIS2` -/
  NAXIS2 : Int
  /-- The header keyword `NAXIS3`, read when `NAXIS` is `3` -/
  NAXIS3 : Int
  /-- The header keyword `CDELT1` -/
  CDELT1 : K
  /-- The header keyword `CDELT2` -/
  CDELT2 : K
  /-- The header keyword `CRPIX1` -/
  CRPIX1 : K
  /-- The header keyword `CRPIX2` -/
  CRPIX2 : K
  /-- The header keyword `CRVAL1` -/
  CRVAL1 : K
  /-- The header keyword `CRVAL2` -/
  CRVAL2 : K
  /-- The rows that `ExposureMap::readEnergyExtension` reads -/
  energies : List K

namespace WcsMap2

section Sampling

variable {K : Type} [LinearOrderedField K] [FloorRing K]

/-- The member `WcsMap2::check_energy_index` (lines 792-797). -/
def check_energy_index (m : WcsMap2 K) (k : Int) : Except Failure Unit :=
  if m.m_naxes = 3 ∧ (k < 0 ∨ k > m.m_naxis3) then
    .error .energyIndexOutOfRange
  else .ok ()

/-- The member `WcsMap2::pixelValue` (lines 550-565). -/
def pixelValue (m : WcsMap2 K) (ilon ilat : K) (k : Int) : Except Failure K := do
  m.check_energy_index k
  let ix : Int := castInt (my_round ilon) - 1
  let iy : Int := castInt (my_round ilat) - 1
  if (m.m_isPeriodic = false ∧ (ix < 0 ∨ ix ≥ m.m_naxis1))
      ∨ iy < 0 ∨ iy ≥ m.m_naxis2 then
    .ok 0
  else
    let ix : Int := if ix < 0 ∧ ix ≥ -1 then 0 else ix
    let plane ← vecIdx m.m_image k
    let row ← vecAt plane iy
    vecAt row ix

/-- The member `WcsMap2::operator()(const astro::SkyDir &, int)` (lines 349-412):
the spec's `sample(direction, planeIndex)`. -/
def sample (m : WcsMap2 K) (dir : SkyDir K) (k : Int) : Except Failure K := do
  m.check_energy_index k
  let pixel := m.m_proj.project dir
  let x : K := pixel.1
  let y : K := pixel.2
  let x : K := if m.m_isPeriodic then fmod x (m.m_naxis1 : K) else x
  if (m.m_isPeriodic = false ∧ (x < 1 / 2 ∨ x > (m.m_naxis1 : K) + 1 / 2))
      ∨ y < 1 / 2 ∨ y > (m.m_naxis2 : K) + 1 / 2 then
    .ok 0
  else if m.m_interpolate = false then
    m.pixelValue x y k
  else
    let ix : Int := castInt x
    let iy : Int := castInt y
    let ix : Int :=
      if m.m_isPeriodic = false then
        let ix := if ix < 1 then 1 else ix
        if ix ≥ m.m_naxis1 then m.m_naxis1 - 1 else ix
      else ix
    let iy : Int := if iy < 1 then 1 else iy
    let iy : Int := if iy ≥ m.m_naxis2 then m.m_naxis2 - 1 else iy
    let tt : K := x - (ix : K)
    let uu : K := y - (iy : K)
    let plane ← vecIdx m.m_image k
    let y14 ←
      if m.m_isPeriodic = true ∧ ix = 0 then do
        let y1 ← vecBack (← vecAt plane (iy - 1))
        let y4 ← vecBack (← vecAt plane iy)
        pure (y1, y4)
      else do
        let y1 ← vecAt (← vecAt plane (iy - 1)) (ix - 1)
        let y4 ← vecAt (← vecAt plane iy) (ix - 1)
        pure (y1, y4)
    let y1 := y14.1
    let y4 := y14.2
    let y2 ← vecAt (← vecAt plane (iy - 1)) ix
    let y3 ← vecAt (← vecAt plane iy) ix
    .ok ((1 - tt) * (1 - uu) * y1 + tt * (1 - uu) * y2
          + tt * uu * y3 + (1 - tt) * uu * y4)

/-- The index `std::upper_bound(v.begin(), v.end(), x) - v.begin()` on an ascending
vector: the index of the first element greater than `x` (the size when there
is none). -/
def upper_bound (v : List K) (x : K) : Int :=
  (v.findIdx (fun e => decide (x < e)) : Nat)

/-- The member `WcsMap2::operator()(const astro::SkyDir &, double)` (lines 414-436):
the spec's `sample(direction, energy)`. -/
def sampleEnergy (log : K → K) (pow : K → K → K) (m : WcsMap2 K)
    (dir : SkyDir K) (energy : K) : Except Failure K := do
  let energy ← if energy < 0 then vecFront m.m_energies else pure energy
  let front ← vecFront m.m_energies
  let back ← vecBack m.m_energies
  if energy < front ∨ energy > back then
    .error .energyOutOfRange
  else
    let k : Int := if m.m_naxes = 3 then upper_bound m.m_energies energy - 1 else 0
    let y1 ← m.sample dir k
    let ek ← vecIdx m.m_energies k
    if energy = ek then
      .ok y1
    else
      let y2 ← m.sample dir (k + 1)
      let ek1 ← vecIdx m.m_energies (k + 1)
      interpolatePowerLaw log pow energy ek ek1 y1 y2

end Sampling

section Integrals

variable {K : Type} [LinearOrderedField K] [FloorRing K]

/-- The static `WcsMap2::solidAngle(const astro::SkyProj &, double, double)`
(lines 514-531). -/
def solidAngleOf (G : SphereGeom K) (proj : SkyProj K) (ilon ilat : K) : K :=
  let left := proj.pix2sph (ilon - 1 / 2) ilat
  let right := proj.pix2sph (ilon + 1 / 2) ilat
  let bottom := proj.pix2sph ilon (ilat - 1 / 2)
  let top := proj.pix2sph ilon (ilat + 1 / 2)
  let delta_lon := G.acosDot left right
  let delta_lat := (top.2 - bottom.2) * G.pi / 180
  |delta_lon * delta_lat|

/-- The member `WcsMap2::solidAngle(double, double) const` (lines 533-535). -/
def solidAngle (G : SphereGeom K) (m : WcsMap2 K) (ilon ilat : K) : K :=
  solidAngleOf G m.m_proj ilon ilat

/-- The member `WcsMap2::solidAngles()` (lines 537-548): the table `[i][j]` of
`solidAngle(i, j)` for `i < m_naxis1`, `j < m_naxis2`, computed when the cache
is empty and read from the cache otherwise. -/
def solidAngles (G : SphereGeom K) (m : WcsMap2 K) : List (List K) :=
  if m.m_solidAngles.isEmpty then
    (List.range m.m_naxis1.toNat).map fun (i : Nat) =>
      (List.range m.m_naxis2.toNat).map fun (j : Nat) =>
        m.solidAngle G (i : K) (j : K)
  else m.m_solidAngles

/-- The body of the two inner loops of `computeMapIntegrals` (lines 687-693)
for plane `k`, acting on the pair (`m_mapIntegral`, `m_mapIntegrals.back()`). -/
def integratePlane (G : SphereGeom K) (m : WcsMap2 K) (k : Nat) (st : K × K) :
    Except Failure (K × K) :=
  (List.range m.m_naxis2.toNat).foldlM (fun st (j : Nat) =>
    (List.range m.m_naxis1.toNat).foldlM (fun (st : K × K) (i : Nat) => do
      let s ← vecIdx (← vecIdx (m.solidAngles G) i) j
      let v ← vecIdx (← vecIdx (← vecIdx m.m_image k) j) i
      pure (st.1 + s * v, st.2 + s * v)) st) st

/-- The member `WcsMap2::computeMapIntegrals` (lines 682-695).  The result is the object
after the call: both integrals are reset and refilled, and the solid-angle
cache is filled as soon as one loop body has run. -/
def computeMapIntegrals (G : SphereGeom K) (m : WcsMap2 K) :
    Except Failure (WcsMap2 K) := do
  let st ← (List.range m.m_naxis3.toNat).foldlM (fun (st : K × List K) (k : Nat) => do
      let r ← m.integratePlane G k (st.1, 0)
      pure (r.1, st.2 ++ [r.2])) ((0 : K), ([] : List K))
  let cache :=
    if 0 < m.m_naxis3 ∧ 0 < m.m_naxis2 ∧ 0 < m.m_naxis1 then m.solidAngles G
    else m.m_solidAngles
  pure { m with m_solidAngles := cache, m_mapIntegral := st.1, m_mapIntegrals := st.2 }

/-- The member `WcsMap2::mapIntegral(double energy) const` (lines 660-680).  `log` and
`exp` are `std::log` and `std::exp`. -/
def mapIntegral (log : K → K) (exp : K → K) (m : WcsMap2 K) (energy : K) :
    Except Failure K := do
  let front ← vecFront m.m_energies
  let back ← vecBack m.m_energies
  if energy < front ∨ energy > back then
    .error .energyOutOfRange
  else
    let k : Int := if m.m_naxes = 3 then upper_bound m.m_energies energy - 1 else 0
    let ek ← vecAt m.m_energies k
    if energy = ek then
      vecAt m.m_mapIntegrals k
    else
      let i0 ← vecIdx m.m_mapIntegrals (k - 1)
      let e0 ← vecIdx m.m_energies (k - 1)
      let ek ← vecIdx m.m_energies k
      let ik ← vecIdx m.m_mapIntegrals k
      .ok (i0 * exp (log (energy / e0) / log (ek / e0) * log (ik / i0)))

end Integrals

section Rebinning

variable {K : Type} [LinearOrderedField K] [FloorRing K]

/-- The copy constructor `WcsMap2::WcsMap2(const WcsMap2 &)` (lines 290-316):
every member is copied except `m_mapIntegrals`, which is absent from the
initialiser list and therefore starts empty. -/
def copy (m : WcsMap2 K) : WcsMap2 K :=
  { m with m_mapIntegrals := [] }

/-- The call `std::vector::resize(n, fill)`. -/
def vecResize {α : Type} (v : List α) (n : Nat) (fill : α) : List α :=
  v.take n ++ List.replicate (n - v.length) fill

/-- The update `a[r][c] = f(a[r][c])` with unchecked `operator[]` on both levels. -/
def modifyAt2 (a : List (List K)) (r c : Int) (f : K → K) :
    Except Failure (List (List K)) := do
  let row ← vecIdx a r
  let v ← vecIdx row c
  pure (a.set r.toNat (row.set c.toNat (f v)))

/-- The resizing of plane `k` of the copy in `rebin` (lines 765-768): the
plane keeps its first `n2` rows (new rows are empty) and every row keeps its
first `n1` entries (new entries are `0`). -/
def rebinResize (plane : List (List K)) (n1 n2 : Int) : List (List K) :=
  (vecResize plane n2.toNat []).map fun row => vecResize row n1.toNat 0

/-- The accumulation loops of `rebin` (lines 770-776) for plane `k`, started
on the destination plane `dest`. -/
def rebinAccumulate (G : SphereGeom K) (m : WcsMap2 K) (factor : Nat) (k : Nat)
    (dest : List (List K)) : Except Failure (List (List K)) :=
  (List.range m.m_naxis1.toNat).foldlM (fun dest (i : Nat) =>
    (List.range m.m_naxis2.toNat).foldlM (fun dest (j : Nat) => do
      let v ← vecIdx (← vecIdx (← vecIdx m.m_image k) j) i
      let s ← vecIdx (← vecIdx (m.solidAngles G) i) j
      modifyAt2 dest ((j / factor : Nat) : Int) ((i / factor : Nat) : Int)
        (fun d => d + v * s)) dest) dest

/-- The filling of `my_solidAngles` in `rebin` (lines 749-762). -/
def rebinSolidAngles (G : SphereGeom K) (m : WcsMap2 K) (factor : Nat)
    (n1 n2 : Int) (average : Bool) : Except Failure (List (List K)) :=
  if average then
    (List.range m.m_naxis1.toNat).foldlM (fun acc (i : Nat) =>
      (List.range m.m_naxis2.toNat).foldlM (fun acc (j : Nat) => do
        let s ← vecIdx (← vecIdx (m.solidAngles G) i) j
        modifyAt2 acc ((j / factor : Nat) : Int) ((i / factor : Nat) : Int)
          (fun d => d + s)) acc)
      (List.replicate n2.toNat (List.replicate n1.toNat 0))
  else pure []

/-- The averaging loops of `rebin` (lines 777-783): `ii` runs below the new
`m_naxis2`, `jj` below the new `m_naxis1`, and the element `[jj][ii]` is
divided. -/
def rebinAverage (my_solidAngles : List (List K)) (n1 n2 : Int)
    (dest : List (List K)) : Except Failure (List (List K)) :=
  (List.range n2.toNat).foldlM (fun dest (ii : Nat) =>
    (List.range n1.toNat).foldlM (fun dest (jj : Nat) => do
      let s ← vecIdx (← vecIdx my_solidAngles (jj : Int)) (ii : Int)
      modifyAt2 dest (jj : Int) (ii : Int) (fun d => d / s)) dest) dest

/-- The size of one axis of the rebinned map (lines 699-708): with
`dn = factor - naxis % factor`, reset to `0` when it equals `factor`, the new
size is `(naxis + dn) / factor`. -/
def rebinSize (naxis : Int) (factor : Nat) : Int :=
  let dn : Int := (factor : Int) - naxis % (factor : Int)
  let dn : Int := if dn = (factor : Int) then 0 else dn
  (naxis + dn) / (factor : Int)

/-- One pass of the loop over the planes in `rebin` (lines 764-784), on the
image array of the copy: plane `k` is resized, filled by the accumulation
loops and, when `average` is set, divided by the summed solid angles. -/
def rebinPlane (G : SphereGeom K) (m : WcsMap2 K) (factor : Nat) (n1 n2 : Int)
    (my_solidAngles : List (List K)) (average : Bool)
    (image : List (List (List K))) (k : Nat) : Except Failure (List (List (List K))) := do
  let plane ← vecIdx image (k : Int)
  let plane ← rebinAccumulate G m factor k (rebinResize plane n1 n2)
  let plane ← if average then rebinAverage my_solidAngles n1 n2 plane else pure plane
  pure (image.set k plane)

/-- The members of the new map `*my_map` of `rebin` (lines 698-732 and 785):
a copy of the source with the rebinned sizes, reference pixel, pixel scale
and projection, the given image array and an empty solid-angle cache.
`mkSkyProj` is the constructor `astro::SkyProj(projType, crpix, crval, cdelt,
crota2, galactic)`. -/
def rebinned (mkSkyProj : String → K × K → K × K → K × K → K → Bool → SkyProj K)
    (m : WcsMap2 K) (factor : Nat) (image : List (List (List K))) : WcsMap2 K :=
  let crpix1 : K := (m.m_crpix1 - 1 / 2) / (factor : K) + 1 / 2
  let crpix2 : K := (m.m_crpix2 - 1 / 2) / (factor : K) + 1 / 2
  let cdelt1 : K := m.m_cdelt1 * (factor : K)
  let cdelt2 : K := m.m_cdelt2 * (factor : K)
  let crval : K × K :=
    if m.m_proj.isGalactic then (m.m_refDir.l, m.m_refDir.b)
    else (m.m_refDir.ra, m.m_refDir.dec)
  { m.copy with
    m_naxis1 := rebinSize m.m_naxis1 factor
    m_naxis2 := rebinSize m.m_naxis2 factor
    m_crpix1 := crpix1
    m_crpix2 := crpix2
    m_cdelt1 := cdelt1
    m_cdelt2 := cdelt2
    m_proj := mkSkyProj m.m_proj.projType (crpix1, crpix2) crval (cdelt1, cdelt2)
      m.m_crota2 m.m_proj.isGalactic
    m_image := image
    m_solidAngles := [] }

/-- The source object after `rebin` has called `solidAngles()` in its loops
and before its final `computeMapIntegrals()`: the solid-angle cache is filled
when a loop body has run. -/
def rebinCached (G : SphereGeom K) (m : WcsMap2 K) (average : Bool) : WcsMap2 K :=
  { m with m_solidAngles :=
      (if (average = true ∨ 0 < m.m_naxis3) ∧ 0 < m.m_naxis2 ∧ 0 < m.m_naxis1 then
        m.solidAngles G
      else m.m_solidAngles) }

/-- The member `WcsMap2::rebin(unsigned int factor, bool average)` (lines 697-790).
The result is the pair (the object after the call, the new map `*my_map`).
Sizes are non-negative and below `2^31`, so that the conversions between
`int`, `unsigned int` and `size_t` change no value; a `factor` of `0` divides
by zero. -/
def rebin (G : SphereGeom K)
    (mkSkyProj : String → K × K → K × K → K × K → K → Bool → SkyProj K)
    (m : WcsMap2 K) (factor : Nat) (average : Bool) :
    Except Failure (WcsMap2 K × WcsMap2 K) := do
  if factor = 0 then
    .error .undefinedBehaviour
  else
    let n1 : Int := rebinSize m.m_naxis1 factor
    let n2 : Int := rebinSize m.m_naxis2 factor
    let my_solidAngles ← rebinSolidAngles G m factor n1 n2 average
    let image ← (List.range m.m_naxis3.toNat).foldlM
      (rebinPlane G m factor n1 n2 my_solidAngles average) m.copy.m_image
    let this ← computeMapIntegrals G (rebinCached G m average)
    pure (this, rebinned mkSkyProj m factor image)

end Rebinning

section Convolution

variable {K : Type} [LinearOrderedField K] [FloorRing K]

/-- The call `v.resize(n, fill)` with an `int` count `n`. -/
def resizeInt {α : Type} (v : List α) (n : Int) (fill : α) : Except Failure (List α) :=
  if n < 0 then .error .lengthError else .ok (vecResize v n.toNat fill)

/-- The assignment `a.at(r).at(c) = v`. -/
def assignAt2 (a : List (List K)) (r c : Int) (v : K) : Except Failure (List (List K)) := do
  let row ← vecAt a r
  let _ ← vecAt row c
  pure (a.set r.toNat (row.set c.toNat v))

/-- The member `Image::normalize` of the unnamed namespace (lines 36-48):
every entry is divided by the sum of all entries. -/
def normalize (image : List (List K)) : List (List K) :=
  let total : K := image.foldl (fun t row => row.foldl (fun t v => t + v) t) 0
  image.map fun row => row.map fun v => v / total

/-- The loops of `convolve` that fill an `::Image` of `rows` rows of `cols`
entries (lines 446-459 for `counts`, lines 492-503 for `psf_image`): the image
is resized to `rows` empty rows; row `j` is resized to `cols` zeros and its
entry `i` is assigned `value i j coord`, with `coord` the sky coordinates of
pixel `(i+1, j+1)`, when `testpix2sph(i+1, j+1)` is `0`. -/
def fillImage (proj : SkyProj K) (rows cols : Int)
    (value : Nat → Nat → K × K → Except Failure K) : Except Failure (List (List K)) := do
  let image ← resizeInt ([] : List (List K)) rows []
  (List.range rows.toNat).foldlM (fun image (j : Nat) => do
    let row ← vecAt image (j : Int)
    let row ← resizeInt row cols 0
    let image := image.set j row
    (List.range cols.toNat).foldlM (fun image (i : Nat) =>
      if proj.testpix2sph ((i : K) + 1) ((j : K) + 1) = 0 then do
        let coord := proj.pix2sph ((i : K) + 1) ((j : K) + 1)
        let v ← value i j coord
        assignAt2 image (j : Int) (i : Int) v
      else pure image) image) image

/-- The entry `counts.at(j).at(i)` that `convolve` assigns for a valid pixel
(lines 453-456): the stored value of plane `k` times the exposure at the
direction of the pixel. -/
def countsValue (E : ConvolveEnv K) (m : WcsMap2 K) (energy : K) (k : Int)
    (i j : Nat) (coord : K × K) : Except Failure K := do
  let dir := E.mkSkyDir coord.1 coord.2 m.m_coordSys
  let v ← vecAt (← vecAt (← vecIdx m.m_image k) (j : Int)) (i : Int)
  pure (v * E.exposure energy dir.ra dir.dec)

/-- The member `WcsMap2::convolve` (lines 438-512).  The result is the returned
image `my_image`; the member is `const`, the source object is not altered. -/
def convolve (E : ConvolveEnv K) (m : WcsMap2 K) (energy : K)
    (performConvolution : Bool) (k : Int) : Except Failure (WcsMap2 K) := do
  m.check_energy_index k
  let counts ← fillImage m.m_proj m.m_naxis2 m.m_naxis1 (countsValue E m energy k)
  let my_image : WcsMap2 K := { m.copy with m_image := [], m_naxis3 := 1 }
  if performConvolution = false then
    pure { my_image with m_image := my_image.m_image ++ [counts] }
  else
    let npix : Int := if m.m_naxis1 ≤ m.m_naxis2 then m.m_naxis1 else m.m_naxis2
    let npix : Int := if npix % 2 = 0 then npix - 1 else npix
    let refpix : K := ((npix + 1 : Int) : K) / 2
    let my_proj := E.mkSkyProj m.m_proj.projType (refpix, refpix)
      (m.m_refDir.ra, m.m_refDir.dec) (m.m_cdelt1, m.m_cdelt2)
    let psf_image ← fillImage my_proj npix npix (fun _ _ coord =>
      let dir := E.mkSkyDir coord.1 coord.2 CoordSystem.EQUATORIAL
      let theta : K := E.difference m.m_refDir dir * 180 / E.pi
      pure (E.psf energy theta 0))
    pure { my_image with
      m_image := my_image.m_image ++ [E.convolve2d counts (normalize psf_image)] }

end Convolution

section Construction

variable {K : Type} [LinearOrderedField K] [FloorRing K]

/-- The loops of the file constructor that fill `m_image` from the pixel
values (lines 143-157).  The state of the inner loop is the pair (the pixel
values not yet consumed, the rows of the plane so far): a row is created with
`m_naxis1` zeros and receives the next pixel values as long as there are
any. -/
def fromFileImage (pixels : List K) (naxis1 naxis2 naxis3 : Int) :
    Except Failure (List (List (List K))) := do
  if naxis3 < 0 then
    .error .lengthError
  else
    let st ← (List.range naxis3.toNat).foldlM
      (fun (st : List K × List (List (List K))) (_k : Nat) => do
        if naxis2 < 0 then
          .error .lengthError
        else
          let st2 ← (List.range naxis2.toNat).foldlM
            (fun (st2 : List K × List (List K)) (_j : Nat) => do
              let row ← resizeInt ([] : List K) naxis1 0
              let values := st2.1.take naxis1.toNat
              let row := values ++ row.drop values.length
              pure (st2.1.drop naxis1.toNat, st2.2 ++ [row])) (st.1, [])
          pure (st2.1, st.2 ++ [st2.2])) (pixels, [])
    pure st.2

/-- The members of the object built by the file constructor (lines 85-158)
before its final call of `computeMapIntegrals()`, for the energy axis and the
image array that the constructor has produced.  `mkSkyDir` is the constructor
`astro::SkyDir(lon, lat, coordSys)`. -/
def fromFileMembers (mkSkyDir : K → K → CoordSystem → SkyDir K) (file : ImageFile K)
    (interpolate : Bool) (m_energies : List K) (m_image : List (List (List K))) :
    WcsMap2 K :=
  let m_coordSys : CoordSystem :=
    if file.proj.isGalactic then CoordSystem.GALACTIC else CoordSystem.EQUATORIAL
  let coord := file.proj.pix2sph file.CRPIX1 file.CRPIX2
  { m_refDir := mkSkyDir coord.1 coord.2 m_coordSys
    m_image := m_image
    m_solidAngles := []
    m_proj := file.proj
    m_naxes := file.NAXIS
    m_naxis1 := file.NAXIS1
    m_naxis2 := file.NAXIS2
    m_naxis3 := if file.NAXIS = 3 then file.NAXIS3 else 1
    m_crpix1 := file.CRPIX1
    m_crpix2 := file.CRPIX2
    m_crval1 := file.CRVAL1
    m_crval2 := file.CRVAL2
    m_cdelt1 := file.CDELT1
    m_cdelt2 := file.CDELT2
    m_crota2 := 0
    m_energies := m_energies
    m_interpolate := interpolate
    m_isPeriodic := if my_round ((file.NAXIS1 : K) * file.CDELT1) = 360 then true else false
    m_coordSys := m_coordSys
    m_mapIntegral := 0
    m_mapIntegrals := [] }

/-- The constructor `WcsMap2::WcsMap2(const std::string & filename, const std::string &
extension, bool interpolate)` (lines 85-160): the number of planes is `NAXIS3`
for a three-axis file and `1` otherwise, the energy axis is read when there
is more than one plane and is `[100]` otherwise, the image array is filled and
the map integrals are computed. -/
def fromFile (G : SphereGeom K) (mkSkyDir : K → K → CoordSystem → SkyDir K)
    (file : ImageFile K) (interpolate : Bool) : Except Failure (WcsMap2 K) := do
  let m_naxis3 : Int := if file.NAXIS = 3 then file.NAXIS3 else 1
  let m_energies ←
    if m_naxis3 > 1 then
      if m_naxis3 ≠ (file.energies.length : Int) then
        .error .naxis3Mismatch
      else pure file.energies
    else pure [100]
  let m_image ← fromFileImage file.pixels file.NAXIS1 file.NAXIS2 m_naxis3
  computeMapIntegrals G (fromFileMembers mkSkyDir file interpolate m_energies m_image)

end Construction

section Boundary

variable {K : Type} [LinearOrderedField K] [FloorRing K]

/-- The member `WcsMap2::skyDir` (lines 567-570).  `mkSkyDir` is the constructor
`astro::SkyDir(lon, lat, coordSys)`. -/
def skyDir (mkSkyDir : K → K → CoordSystem → SkyDir K) (m : WcsMap2 K) (ilon ilat : K) :
    SkyDir K :=
  let coords := m.m_proj.pix2sph ilon ilat
  mkSkyDir coords.1 coords.2 m.m_coordSys

/-- The values `lo, lo + 1, ..., hi - 1` that the variable `v` takes in the body
of `for (v = lo; v < hi; v++)`. -/
def loopValues (lo hi : Int) : List Int :=
  (List.range (hi - lo).toNat).map fun (n : Nat) => lo + (n : Int)

/-- The value of the variable `v` after `for (v = lo; v < hi; v++)`. -/
def loopExit (lo hi : Int) : Int :=
  if lo < hi then hi else lo

/-- The pixel coordinates `(i, j)` that the four loops of `minMaxDistPixels`
(lines 595-642) pass to `skyDir`, in order.  The first loop starts at `i = 2`
with `j = 1`; the second loop runs `j` with the value that the first loop left
in `i`; the third loop runs `i` with the value that the second loop left in
`j`; the fourth loop sets `i = 1`. -/
def minMaxDistWalk (m : WcsMap2 K) : List (Int × Int) :=
  let i : Int := loopExit 2 (m.m_naxis1 + 1)
  let j : Int := loopExit 2 (m.m_naxis2 + 1)
  (loopValues 2 (m.m_naxis1 + 1)).map (fun i => (i, (1 : Int)))
    ++ (loopValues 2 (m.m_naxis2 + 1)).map (fun j => (i, j))
    ++ (loopValues 1 m.m_naxis1).map (fun i => (i, j))
    ++ (loopValues 2 m.m_naxis2).map (fun j => ((1 : Int), j))

/-- The member `WcsMap2::minMaxDistPixels` (lines 588-646).  The four loops have
the same body; it is applied to the coordinates of `minMaxDistWalk` in order,
on the state ((`closest`, `min_dist`), (`farthest`, `max_dist`)).
`difference a b` is `a.difference(b)`. -/
def minMaxDistPixels (mkSkyDir : K → K → CoordSystem → SkyDir K)
    (difference : SkyDir K → SkyDir K → K) (m : WcsMap2 K) (dir : SkyDir K) :
    SkyDir K × SkyDir K :=
  let closest := m.skyDir mkSkyDir 1 1
  let min_dist := difference dir closest
  let farthest := m.skyDir mkSkyDir 1 1
  let max_dist := difference dir closest
  let st := m.minMaxDistWalk.foldl
    (fun (st : (SkyDir K × K) × (SkyDir K × K)) (p : Int × Int) =>
      let current := m.skyDir mkSkyDir (p.1 : K) (p.2 : K)
      let dist := difference dir current
      let st := if dist < st.1.2 then ((current, dist), st.2) else st
      if dist > st.2.2 then (st.1, (current, dist)) else st)
    ((closest, min_dist), (farthest, max_dist))
  (st.1.1, st.2.1)

end Boundary

section Shape

variable {K : Type}

/-- The stored value `m_image[k][j][i]` of plane `k`, row `j`, column `i`,
when the three indices exist. -/
def imageAt (m : WcsMap2 K) (k j i : Nat) : Option K :=
  (m.m_image[k]?).bind fun plane => (plane[j]?).bind fun row => row[i]?

/-- The shape every constructor establishes: `m_image` holds `m_naxis3` planes
of `m_naxis2` rows of `m_naxis1` values. -/
def WellFormed (m : WcsMap2 K) : Prop :=
  (m.m_image.length : Int) = m.m_naxis3
  ∧ ∀ plane ∈ m.m_image, (plane.length : Int) = m.m_naxis2
    ∧ ∀ row ∈ plane, (row.length : Int) = m.m_naxis1

/-- A table of `rows` rows of `cols` entries each. -/
def Dims {α : Type} (a : List (List α)) (rows cols : Nat) : Prop :=
  a.length = rows ∧ ∀ row ∈ a, row.length = cols

/-- The state of the solid-angle cache between calls: still empty, or filled
with a table of `m_naxis1` rows of `m_naxis2` entries (the index order of
`solidAngles()`). -/
def CacheOk (m : WcsMap2 K) : Prop :=
  m.m_solidAngles = [] ∨ Dims m.m_solidAngles m.m_naxis1.toNat m.m_naxis2.toNat

/-- The entry `t[i][j]` of a table, `0` when it does not exist. -/
def tableAt [Zero K] (t : List (List K)) (i j : Nat) : K :=
  ((t[i]?).bind fun row => row[j]?).getD 0

/-- The sum of all entries of an image plane. -/
def pixelSum [AddCommMonoid K] (plane : List (List K)) : K :=
  (plane.map List.sum).sum

end Shape

section Flux

variable {K : Type} [LinearOrderedField K] [FloorRing K]

/-- The flux of plane `k` as the code tabulates it: the sum over all pixels
(row `j`, column `i`) of the stored value times the entry `[i][j]` of
`solidAngles()`. -/
def planeFlux (G : SphereGeom K) (m : WcsMap2 K) (k : Nat) : K :=
  ∑ j in Finset.range m.m_naxis2.toNat, ∑ i in Finset.range m.m_naxis1.toNat,
    tableAt (m.solidAngles G) i j * (m.imageAt k j i).getD 0

end Flux

end WcsMap2

/-- The members of class `DiffuseSource` that `Event` calls. -/
structure DiffuseSource (K : Type) where
  /-- The call `src->getName()` -/
  getName : String
  /-- The call `src->spatialDist(dir)` -/
  spatialDist : SkyDir K → K

/-- The collaborators of `Event` whose code is not part of the embedded
source. -/
structure EventEnv (K : Type) where
  /-- The constant `M_PI` -/
  pi : K
  sin : K → K
  cos : K → K
  sqrt : K → K
  asin : K → K
  acos : K → K
  /-- The constructor `astro::SkyDir(ra, dec)` -/
  mkSkyDir : K → K → SkyDir K
  /-- The call `a.difference(b)` of `astro::SkyDir`, in radians -/
  difference : SkyDir K → SkyDir K → K
  /-- The value `latResponse::Glast25::incMax()` -/
  incMax : K
  /-- The call `ResponseFunctions::totalResponse(time, trueEnergy, energy,
  srcDir, appDir, type)` -/
  totalResponse : K → K → K → SkyDir K → SkyDir K → Int → K
  /-- The value `TrapQuad(x, y).integral()` -/
  trapQuad : List K → List K → K
  /-- The rotation `FitsImage::EquinoxRotation(ra, dec)`, as the map that its
  `do_rotation` applies to a direction -/
  equinoxRotation : K → K → SkyDir K → SkyDir K
  /-- The direction `RoiCuts::instance()->extractionRegion().center()` -/
  roiCenter : SkyDir K

/-- The static data members of class `Event` (lines 44-47): the source-region
grid shared by all events. -/
structure SourceRegionData (K : Type) where
  s_mu : List K
  s_phi : List K
  s_eqRot : SkyDir K → SkyDir K
  s_haveSourceRegionData : Bool

/-- The data members of class `Event`, under their source names.  The member
`m_estep` is assigned only when the event is constructed with energy
dispersion; the table `m_respDiffuseSrcs` is a `std::map` from names to
`diffuse_response` vectors. -/
structure Event (K : Type) where
  m_appDir : SkyDir K
  m_energy : K
  m_arrTime : K
  m_scDir : SkyDir K
  m_muZenith : K
  m_type : Int
  m_estep : Option K
  m_trueEnergies : List K
  m_respDiffuseSrcs : List (String × List K)

section EventCode

variable {K : Type} [LinearOrderedField K] [FloorRing K]

/-- The function `my_acos` of the unnamed namespace (Event.cxx, lines 31-39). -/
def my_acos (E : EventEnv K) (mu : K) : K :=
  if mu > 1 then 0 else if mu < -1 then E.pi else E.acos mu

/-- The static member `Event::toLower` (lines 251-255). -/
def Event.toLower (name : String) : String :=
  String.mk (name.data.map Char.toLower)

/-- The constructor `Event::Event` (lines 49-77).  `useEdisp` is
`ResponseFunctions::useEdisp()`. -/
def Event.construct (useEdisp : Bool) (E : EventEnv K)
    (ra dec energy time sc_ra sc_dec muZenith : K) (type : Int) : Event K :=
  if useEdisp then
    let npts : Nat := 100
    let emin : K := 0.55 * energy
    let emax : K := 1.45 * energy
    let estep : K := (emax - emin) / ((npts : K) - 1)
    { m_appDir := E.mkSkyDir ra dec
      m_energy := energy
      m_arrTime := time
      m_scDir := E.mkSkyDir sc_ra sc_dec
      m_muZenith := muZenith
      m_type := type
      m_estep := some estep
      m_trueEnergies := (List.range npts).map fun (i : Nat) => estep * (i : K) + emin
      m_respDiffuseSrcs := [] }
  else
    { m_appDir := E.mkSkyDir ra dec
      m_energy := energy
      m_arrTime := time
      m_scDir := E.mkSkyDir sc_ra sc_dec
      m_muZenith := muZenith
      m_type := type
      m_estep := none
      m_trueEnergies := [energy]
      m_respDiffuseSrcs := [] }

/-- The member `Event::diffuseResponse` (lines 79-112).  Reading the
unassigned `m_estep` and converting the quotient by a zero `m_estep` to `int`
are undefined behaviour. -/
def Event.diffuseResponse (useEdisp : Bool) (ev : Event K) (trueEnergy : K)
    (diffuseComponent : String) : Except Failure K := do
  let diffuseComponent := Event.toLower diffuseComponent
  let indx : Int ←
    if useEdisp then do
      let e0 ← vecIdx ev.m_trueEnergies 0
      match ev.m_estep with
      | none => .error .undefinedBehaviour
      | some estep =>
        if estep = 0 then .error .undefinedBehaviour
        else pure (castInt ((trueEnergy - e0) / estep))
    else pure 0
  if useEdisp = true ∧ (indx < 0 ∨ indx ≥ (ev.m_trueEnergies.length : Int)) then
    .ok 0
  else
    match ev.m_respDiffuseSrcs.lookup diffuseComponent with
    | some resp =>
      if useEdisp then do
        let ei ← vecIdx ev.m_trueEnergies indx
        let ei1 ← vecIdx ev.m_trueEnergies (indx + 1)
        let r1 ← vecIdx resp (indx + 1)
        let r0 ← vecIdx resp indx
        pure ((trueEnergy - ei) / (ei1 - ei) * (r1 - r0) + r0)
      else
        vecIdx resp 0
    | none => .error .noDiffuseResponse

/-- The member `Event::getNewDiffuseSrcs` (lines 239-249): the sources of the
list whose lower-cased name is not a key of the response table, in order. -/
def Event.getNewDiffuseSrcs (ev : Event K) (srcList : List (DiffuseSource K)) :
    List (DiffuseSource K) :=
  srcList.filter fun src =>
    !(ev.m_respDiffuseSrcs.lookup (Event.toLower src.getName)).isSome

/-- The member `Event::prepareSrData` (lines 201-216), acting on the static
data. -/
def Event.prepareSrData (E : EventEnv K) (sr : SourceRegionData K) (sr_radius : K)
    (nmu nphi : Int) : SourceRegionData K :=
  let mumin : K := E.cos (sr_radius * E.pi / 180)
  let mustep : K := (1 - mumin) / ((nmu : K) - 1)
  let phistep : K := 2 * E.pi / ((nphi : K) - 1)
  { s_eqRot := E.equinoxRotation E.roiCenter.ra E.roiCenter.dec
    s_mu := sr.s_mu ++ (List.range nmu.toNat).map fun (i : Nat) => mustep * (i : K) + mumin
    s_phi := sr.s_phi ++ (List.range nphi.toNat).map fun (i : Nat) => phistep * (i : K)
    s_haveSourceRegionData := true }

/-- The member `Event::getCelestialDir` (lines 218-237); the result is the
direction written to `dir`. -/
def Event.getCelestialDir (E : EventEnv K) (phi mu : K) (eqRot : SkyDir K → SkyDir K) :
    SkyDir K :=
  let sp : K := E.sin phi
  let arg : K := mu / E.sqrt (1 - (1 - mu * mu) * sp * sp)
  let alpha : K := if E.cos phi < 0 then 2 * E.pi - my_acos E arg else my_acos E arg
  let delta : K := E.asin (E.sqrt (1 - mu * mu) * sp)
  let indir : SkyDir K := E.mkSkyDir (alpha * 180 / E.pi) (delta * 180 / E.pi)
  eqRot indir

/-- The statement `table[name].push_back(v)` on the response table:
`operator[]` inserts an empty vector under a key that is not present. -/
def Event.respPushBack (table : List (String × List K)) (name : String) (v : K) :
    List (String × List K) :=
  match table.lookup name with
  | some _ => table.map fun entry => if entry.1 = name then (entry.1, entry.2 ++ [v]) else entry
  | none => table ++ [(name, [v])]

/-- The vector `srcDirs` of `computeResponse` (lines 129-138): one direction
for every pair of the source-region grid, `s_mu` outermost. -/
def Event.srcDirs (E : EventEnv K) (sr : SourceRegionData K) (eqRot : SkyDir K → SkyDir K) :
    List (SkyDir K) :=
  sr.s_mu.foldl (fun dirs mu =>
    sr.s_phi.foldl (fun dirs phi => dirs ++ [Event.getCelestialDir E phi mu eqRot]) dirs) []

/-- The array `phi_integrands` of `computeResponse` after the loop over `j`
(lines 149-168), for the true energy `trueEnergy` and the index `i` into
`s_mu`: one vector per new source. -/
def Event.phiIntegrands (E : EventEnv K) (ev : Event K) (sr : SourceRegionData K)
    (srcs : List (DiffuseSource K)) (srcDirs : List (SkyDir K)) (trueEnergy : K) (i : Nat) :
    Except Failure (List (List K)) :=
  (List.range sr.s_phi.length).foldlM (fun (phi_integrands : List (List K)) (j : Nat) => do
    let indx : Int := (i : Int) * (sr.s_phi.length : Int) + (j : Int)
    let srcDir ← vecIdx srcDirs indx
    let inc : K := E.difference ev.m_scDir srcDir * 180 / E.pi
    if inc < E.incMax then
      let totalResp : K :=
        E.totalResponse ev.m_arrTime trueEnergy ev.m_energy srcDir ev.m_appDir ev.m_type
      pure (List.zipWith (fun col (src : DiffuseSource K) =>
        col ++ [totalResp * src.spatialDist srcDir]) phi_integrands srcs)
    else
      pure (List.zipWith (fun col (_ : DiffuseSource K) => col ++ [0]) phi_integrands srcs))
    (List.replicate srcs.length [])

/-- The array `mu_integrands` of `computeResponse` after the loop over `i`
(lines 144-175), for the true energy `trueEnergy`: one vector of azimuth
integrals per new source. -/
def Event.muIntegrands (E : EventEnv K) (ev : Event K) (sr : SourceRegionData K)
    (srcs : List (DiffuseSource K)) (srcDirs : List (SkyDir K)) (trueEnergy : K) :
    Except Failure (List (List K)) :=
  (List.range sr.s_mu.length).foldlM (fun (mu_integrands : List (List K)) (i : Nat) => do
    let phi_integrands ← Event.phiIntegrands E ev sr srcs srcDirs trueEnergy i
    pure (List.zipWith (fun col phis => col ++ [E.trapQuad sr.s_phi phis])
      mu_integrands phi_integrands))
    (List.replicate srcs.length [])

/-- The loop of `computeResponse` that stores the integrals over `mu` (lines
177-183): for every new source, in order, the integral is appended to the
vector stored under the lower-cased name of the source. -/
def Event.storeResponses (E : EventEnv K) (sr : SourceRegionData K)
    (srcs : List (DiffuseSource K)) (mu_integrands : List (List K))
    (table : List (String × List K)) : List (String × List K) :=
  (List.zip srcs mu_integrands).foldl (fun table entry =>
    Event.respPushBack table (Event.toLower entry.1.getName) (E.trapQuad sr.s_mu entry.2))
    table

/-- The member `Event::computeResponse` (lines 114-185).  The result is the pair
(the event after the call, the static data after the call); `nmu` and `nphi`
are the default arguments of `prepareSrData`. -/
def Event.computeResponse (E : EventEnv K) (nmu nphi : Int) (ev : Event K)
    (sr : SourceRegionData K) (srcList : List (DiffuseSource K)) (sr_radius : K) :
    Except Failure (Event K × SourceRegionData K) :=
  let srcs := ev.getNewDiffuseSrcs srcList
  if srcs.length = 0 then
    pure (ev, sr)
  else do
    let eqRot := E.equinoxRotation ev.m_appDir.ra ev.m_appDir.dec
    let sr : SourceRegionData K :=
      if sr.s_haveSourceRegionData = false then Event.prepareSrData E sr sr_radius nmu nphi
      else sr
    let srcDirs := Event.srcDirs E sr eqRot
    let table ← ev.m_trueEnergies.foldlM (fun table trueEnergy => do
      let mu_integrands ← Event.muIntegrands E ev sr srcs srcDirs trueEnergy
      pure (Event.storeResponses E sr srcs mu_integrands table)) ev.m_respDiffuseSrcs
    pure ({ ev with m_respDiffuseSrcs := table }, sr)

/-- Two names differ at most in letter case: they have the same length and
at every position the two characters are equal or are the upper-case and the
lower-case form of one letter. -/
def sameUpToCase (n1 n2 : String) : Prop :=
  List.Forall₂ (fun a b : Char =>
    a = b ∨ (a.isUpper = true ∧ b = a.toLower) ∨ (b.isUpper = true ∧ a = b.toLower))
    n1.data n2.data

end EventCode

section EventDirs

variable {K : Type} [LinearOrderedField K] [FloorRing K]

/-- The static data of `Event` after the statement
`if (!s_haveSourceRegionData) prepareSrData(sr_radius)` of `computeResponse`
(lines 125-127). -/
def Event.preparedSrData (E : EventEnv K) (nmu nphi : Int) (sr : SourceRegionData K)
    (sr_radius : K) : SourceRegionData K :=
  if sr.s_haveSourceRegionData = false then Event.prepareSrData E sr sr_radius nmu nphi
  else sr

/-- The vector `srcDirs` that `computeResponse` builds when the list holds a
new source (lines 120-138): the rotation is constructed from the apparent
direction of the event, the static grid is prepared when it is not yet, and
every pair of the grid is turned into a direction with that rotation. -/
def Event.responseDirs (E : EventEnv K) (nmu nphi : Int) (ev : Event K)
    (sr : SourceRegionData K) (sr_radius : K) : List (SkyDir K) :=
  let eqRot := E.equinoxRotation ev.m_appDir.ra ev.m_appDir.dec
  let sr : SourceRegionData K := Event.preparedSrData E nmu nphi sr sr_radius
  Event.srcDirs E sr eqRot

end EventDirs

/-- The members of `optimizers::Parameter` that `LogGaussian` calls. -/
structure Parameter (K : Type) where
  /-- The call `getName()` -/
  getName : String
  /-- The call `getTrueValue()` -/
  getTrueValue : K

/-- The data of class `LogGaussian`: the vector `m_parameter` inherited from
`optimizers::Function` and the member `m_log_term`. -/
structure LogGaussian (K : Type) where
  m_parameter : List (Parameter K)
  m_log_term : K

section LogGaussianCode

variable {K : Type} [LinearOrderedField K]

/-- The constructor `LogGaussian::LogGaussian(norm, mean, sigma)` (lines 23-29).
`log`, `sqrt` and `pi` are `std::log`, `std::sqrt` and `M_PI`; `addParam`
appends the parameter. -/
def LogGaussian.construct (log sqrt : K → K) (pi : K) (norm mean sigma : K) :
    LogGaussian K :=
  { m_log_term := log (sqrt (2 * pi) * sigma)
    m_parameter :=
      [{ getName := "Norm", getTrueValue := norm },
       { getName := "Mean", getTrueValue := mean },
       { getName := "Sigma", getTrueValue := sigma }] }

/-- The member `LogGaussian::value` (lines 31-38), applied to the value `x` of
the argument. -/
def LogGaussian.value (f : LogGaussian K) (x : K) : Except Failure K := do
  let norm := (← vecIdx f.m_parameter 0).getTrueValue
  let mean := (← vecIdx f.m_parameter 1).getTrueValue
  let sigma := (← vecIdx f.m_parameter 2).getTrueValue
  pure (norm * (-(x - mean) * (x - mean) / 2 / sigma / sigma - f.m_log_term))

/-- The search loop of `derivByParamImp` (lines 45-51): the index of the first
parameter of the given name, `-1` when there is none. -/
def LogGaussian.findParam (f : LogGaussian K) (paramName : String) : Int :=
  match f.m_parameter.findIdx? (fun p => paramName == p.getName) with
  | some i => (i : Int)
  | none => -1

/-- The member `LogGaussian::derivByParamImp` (lines 40-79), applied to the value
`x` of the argument. -/
def LogGaussian.derivByParamImp (f : LogGaussian K) (x : K) (paramName : String) :
    Except Failure K :=
  let iparam : Int := f.findParam paramName
  if iparam = -1 then
    .error .parameterNotFound
  else do
    let norm := (← vecIdx f.m_parameter 0).getTrueValue
    let mean := (← vecIdx f.m_parameter 1).getTrueValue
    let sigma := (← vecIdx f.m_parameter 2).getTrueValue
    let s3 : K := sigma * sigma * sigma
    if iparam = 0 then do
      let v ← f.value x
      pure (v / norm)
    else if iparam = 1 then
      pure (-norm * mean / sigma / sigma)
    else if iparam = 2 then
      pure (norm * ((x - mean) * (x - mean) / 6 / s3 - 1 / sigma))
    else
      pure 0

end LogGaussianCode

/-- The members of `dataSubselector::CutBase` that `AppHelpers` calls, and
the bounds of the cut as the rest of its content. -/
structure CutBase where
  /-- The call `type()` -/
  type : String
  /-- The call `colname()` of a `RangeCut` -/
  colname : String
  /-- The bounds of the cut -/
  bounds : List Int
  deriving DecidableEq, Repr

namespace AppHelpers

/-- The member `AppHelpers::gatherTimeCuts` (lines 294-307).  The vector
`time_cuts` is a parameter passed by value: the loop appends the time cuts to
the copy that the function owns, and the copy is destroyed on return.  The
result is the vector of the caller after the call. -/
def gatherTimeCuts (cuts : List CutBase) (time_cuts : List CutBase) (compareGtis : Bool) :
    List CutBase :=
  let _time_cuts := cuts.foldl (fun (local_cuts : List CutBase) cut =>
    if (compareGtis = true ∧ cut.type = "GTI")
        ∨ (cut.type = "range" ∧ cut.colname = "TIME") then
      local_cuts ++ [cut]
    else local_cuts) time_cuts
  time_cuts

/-- The member `AppHelpers::checkTimeCuts(const Cuts &, const Cuts &, bool)` (lines
274-292).  `cutEq` is `operator==` of `dataSubselector::CutBase`. -/
def checkTimeCuts (cutEq : CutBase → CutBase → Bool) (cuts1 cuts2 : List CutBase)
    (compareGtis : Bool) : Bool :=
  let time_cuts1 := gatherTimeCuts cuts1 [] compareGtis
  let time_cuts2 := gatherTimeCuts cuts2 [] compareGtis
  if time_cuts1.length = time_cuts2.length then
    (List.zip time_cuts1 time_cuts2).foldl (fun ok pair => ok && cutEq pair.1 pair.2) true
  else false

/-- The member `AppHelpers::checkTimeCuts(file1, ext1, file2, ext2, compareGtis)`
(lines 216-241).  `readCuts file ext` is the object
`dataSubselector::Cuts(file, ext, false)`. -/
def checkTimeCutsFiles (readCuts : String → String → List CutBase)
    (cutEq : CutBase → CutBase → Bool) (file1 ext1 file2 ext2 : String)
    (compareGtis : Bool) : Except Failure Unit :=
  if checkTimeCuts cutEq (readCuts file1 ext1) (readCuts file2 ext2) compareGtis = false then
    .error .timeCutsDisagree
  else .ok ()

/-- The time cuts of a cut set: its range cuts on column `TIME`, and its
GTI cuts when `compareGtis` is set, in order. -/
def timeCutsOf (cuts : List CutBase) (compareGtis : Bool) : List CutBase :=
  cuts.filter fun cut =>
    decide ((compareGtis = true ∧ cut.type = "GTI")
      ∨ (cut.type = "range" ∧ cut.colname = "TIME"))

end AppHelpers

section Instances

variable {K : Type} [LinearOrderedField K]

/-- A stand-in for the sphere geometry that stays inside the field: `pi` is
`3` and the angle between two directions of equal latitude `b` is their
longitude difference in radians, shortened by the factor `1 - (b/90)^2` (which
is `1` on the equator and `0` at the poles, as the cosine of the latitude
is). -/
def demoGeom : SphereGeom K where
  pi := 3
  acosDot := fun a b => |a.1 - b.1| * 3 / 180 * (1 - (a.2 / 90) ^ 2)

/-- A plate-carrée stand-in for `astro::SkyProj`: sky coordinates are linear
in the pixel coordinates, every pixel position is valid. -/
def demoProj (crpix crval cdelt : K × K) : SkyProj K where
  project := fun d =>
    (crpix.1 + (d.ra - crval.1) / cdelt.1, crpix.2 + (d.dec - crval.2) / cdelt.2)
  pix2sph := fun x y =>
    (crval.1 + (x - crpix.1) * cdelt.1, crval.2 + (y - crpix.2) * cdelt.2)
  testpix2sph := fun _ _ => 0
  isGalactic := false
  projType := "CAR"

/-- The stand-in for the constructor of `astro::SkyProj`. -/
def demoMkSkyProj (_projType : String) (crpix crval cdelt : K × K) (_crota2 : K)
    (_galactic : Bool) : SkyProj K :=
  demoProj crpix crval cdelt

/-- The direction with equatorial coordinates `(ra, dec)`; its galactic
coordinates are not used by the examples. -/
def demoDir (ra dec : K) : SkyDir K :=
  { ra := ra, dec := dec, l := ra, b := dec }

/-- A three-axis map whose pixel position `(x, y)` is the direction `ra = x`,
`dec = y` (reference pixel `(0, 0)` at `(0, 0)`, one degree per pixel), with
the given planes, sizes, energies and flags and an empty integral cache. -/
def demoMap (image : List (List (List K))) (naxis1 naxis2 : Int) (energies : List K)
    (interpolate periodic : Bool) : WcsMap2 K where
  m_refDir := demoDir 0 0
  m_image := image
  m_solidAngles := []
  m_proj := demoProj (0, 0) (0, 0) (1, 1)
  m_naxes := 3
  m_naxis1 := naxis1
  m_naxis2 := naxis2
  m_naxis3 := image.length
  m_crpix1 := 0
  m_crpix2 := 0
  m_crval1 := 0
  m_crval2 := 0
  m_cdelt1 := 1
  m_cdelt2 := 1
  m_crota2 := 0
  m_energies := energies
  m_interpolate := interpolate
  m_isPeriodic := periodic
  m_coordSys := CoordSystem.EQUATORIAL
  m_mapIntegral := 0
  m_mapIntegrals := []

/-- The 2 x 2 single-plane, non-periodic example map with rows `[1, 2]` and
`[3, 4]`. -/
def squareMap (interpolate : Bool) : WcsMap2 ℚ :=
  demoMap [[[1, 2], [3, 4]]] 2 2 [100] interpolate false

/-- The 2 x 1 single-plane, non-periodic example map with the row `[0, 1]`,
sampled without interpolation. -/
def stripMap : WcsMap2 ℚ :=
  demoMap [[[0, 1]]] 2 1 [100] false false

/-- The 4 x 2 single-plane, periodic example map with rows `[1, 2, 3, 4]` and
`[5, 6, 7, 8]`: four pixels of 90 degrees span the full circle of longitude,
the left edge of the map (`x = 1/2`) is at longitude `0` and the pixel
position `(x, y)` is the direction `ra = 90 (x - 1/2)`, `dec = 45 (y - 1/2)`. -/
def ringMap (interpolate : Bool) : WcsMap2 ℚ :=
  { demoMap [[[1, 2, 3, 4], [5, 6, 7, 8]]] 4 2 [100] interpolate true with
    m_proj := demoProj (1 / 2, 1 / 2) (0, 0) (90, 45)
    m_crpix1 := 1 / 2
    m_crpix2 := 1 / 2
    m_cdelt1 := 90
    m_cdelt2 := 45 }

/-- The 1 x 1 two-plane example map with planes `1` and `2` at the energies
`100` and `200`, sampled without interpolation. -/
def energyMap : WcsMap2 ℚ :=
  demoMap [[[1]], [[2]]] 1 1 [100, 200] false false

/-- A stand-in for the collaborators of `convolve`: the exposure is
`energy + ra + 2 dec`, directions keep their coordinates, the separation of
two directions is the sum of their coordinate differences, the PSF is `1`
and `convolve2d` returns its first argument. -/
def demoConvolveEnv : ConvolveEnv K where
  exposure := fun energy ra dec => energy + ra + 2 * dec
  psf := fun _ _ _ => 1
  mkSkyDir := fun lon lat _ => demoDir lon lat
  difference := fun a b => |a.ra - b.ra| + |a.dec - b.dec|
  pi := 3
  mkSkyProj := fun _ crpix crval cdelt => demoProj crpix crval cdelt
  convolve2d := fun counts _ => counts

/-- A stand-in for the collaborators of `Event` that stays inside the field:
directions keep their coordinates, the separation of two directions is the
sum of their coordinate differences, the rotation anchored at `(ra, dec)`
shifts a direction by `(ra, dec)`, the total response is the true energy and
the quadrature is the plain sum of the ordinates. -/
def demoEventEnv : EventEnv K where
  pi := 3
  sin := fun x => x
  cos := fun _ => 1
  sqrt := fun x => x
  asin := fun x => x
  acos := fun x => 1 - x
  mkSkyDir := demoDir
  difference := fun a b => |a.ra - b.ra| + |a.dec - b.dec|
  incMax := 1000
  totalResponse := fun _ trueEnergy _ _ _ _ => trueEnergy
  trapQuad := fun _ y => y.sum
  equinoxRotation := fun ra dec d => demoDir (d.ra + ra) (d.dec + dec)
  roiCenter := demoDir 0 0

/-- The event of apparent energy `110` constructed with energy dispersion
(true energies `60.5, 61.5, ..., 159.5`, step `1`), holding the given response
table. -/
def edispEvent (table : List (String × List ℚ)) : Event ℚ :=
  { Event.construct true demoEventEnv 0 0 110 0 0 0 1 0 with m_respDiffuseSrcs := table }

/-- The event of apparent energy `110` constructed without energy dispersion,
holding the given response table. -/
def plainEvent (table : List (String × List ℚ)) : Event ℚ :=
  { Event.construct false demoEventEnv 0 0 110 0 0 0 1 0 with m_respDiffuseSrcs := table }

/-- A response vector of `100` values, `2 i + 2` at index `i`. -/
def rampResponse : List ℚ := (List.range 100).map fun (i : Nat) => 2 * (i : ℚ) + 2

/-- The source-region grid with the one point `mu = 1`, `phi = 0` and the
identity as shared rotation, marked as prepared. -/
def demoSourceRegion : SourceRegionData K where
  s_mu := [1]
  s_phi := [0]
  s_eqRot := fun d => d
  s_haveSourceRegionData := true

/-- The source list with the one source `GalDiffuse` of constant spatial
distribution `1`. -/
def demoSources : List (DiffuseSource K) :=
  [{ getName := "GalDiffuse", spatialDist := fun _ => 1 }]
/-- The stand-in for the constructor `astro::SkyDir(lon, lat, coordSys)`:
the direction keeps its coordinates. -/
def demoMkSkyDir (lon lat : ℚ) (_coordSys : CoordSystem) : SkyDir ℚ :=
  demoDir lon lat

/-- The stand-in for `a.difference(b)`: the sum of the coordinate
differences. -/
def demoDifference (a b : SkyDir ℚ) : ℚ :=
  |a.ra - b.ra| + |a.dec - b.dec|

/-- A two-axis file of 4 x 1 pixels `1, 2, 3, 4` with `CDELT1 = -90`: four
pixels of 90 degrees span the full circle of longitude, with longitude
decreasing to the right. -/
def ringFile : ImageFile ℚ where
  proj := demoProj (1 / 2, 1 / 2) (0, 0) (-90, 45)
  pixels := [1, 2, 3, 4]
  NAXIS := 2
  NAXIS1 := 4
  NAXIS2 := 1
  NAXIS3 := 1
  CDELT1 := -90
  CDELT2 := 45
  CRPIX1 := 1 / 2
  CRPIX2 := 1 / 2
  CRVAL1 := 0
  CRVAL2 := 0
  energies := []

/-- A three-axis file of 1 x 1 pixels with the two planes `1` and `2` at the
energies `100` and `200`, in the geometry of `demoMap`. -/
def energyFile : ImageFile ℚ where
  proj := demoProj (0, 0) (0, 0) (1, 1)
  pixels := [1, 2]
  NAXIS := 3
  NAXIS1 := 1
  NAXIS2 := 1
  NAXIS3 := 2
  CDELT1 := 1
  CDELT2 := 1
  CRPIX1 := 0
  CRPIX2 := 0
  CRVAL1 := 0
  CRVAL2 := 0
  energies := [100, 200]

/-- The event of apparent energy `110` and apparent direction `(10, 0)`
constructed without energy dispersion. -/
def shiftedEvent : Event ℚ :=
  Event.construct false demoEventEnv 10 0 110 0 0 0 1 0

/-- The source list with the two sources `GalDiffuse` and `GALDIFFUSE`, whose
names are equal up to letter case. -/
def twinSources : List (DiffuseSource ℚ) :=
  [{ getName := "GalDiffuse", spatialDist := fun _ => 1 },
   { getName := "GALDIFFUSE", spatialDist := fun _ => 1 }]

/-- The range cut on column `TIME` with the given bounds. -/
def timeRange (lo hi : Int) : CutBase :=
  { type := "range", colname := "TIME", bounds := [lo, hi] }

/-- The source list with the one source `Gradient`, whose spatial distribution
at a direction is the right ascension of the direction. -/
def raSources : List (DiffuseSource ℚ) :=
  [{ getName := "Gradient", spatialDist := fun d => d.ra }]

/-- The static data of `Event` before any call of `prepareSrData` (lines
44-47): an empty grid, not marked as prepared. -/
def freshRegion : SourceRegionData ℚ where
  s_mu := []
  s_phi := []
  s_eqRot := fun d => d
  s_haveSourceRegionData := false

end Instances

/-! ## Theorems -/

section Helpers

variable {α : Type}

theorem vecIdx_ok {v : List α} {i : Nat} {a : α} (h : v[i]? = some a) :
    vecIdx v (i : Int) = .ok a := by
  simp [vecIdx, h]

theorem vecAt_ok {v : List α} {i : Nat} {a : α} (h : v[i]? = some a) :
    vecAt v (i : Int) = .ok a := by
  simp [vecAt, h]

theorem vecFront_ok {v : List α} {a : α} (h : v.head? = some a) :
    vecFront v = .ok a := by
  simp [vecFront, h]

theorem vecBack_ok {v : List α} {a : α} (h : v.getLast? = some a) :
    vecBack v = .ok a := by
  simp [vecBack, h]

/-- An unchecked access outside the bounds. -/
theorem vecIdx_none {v : List α} {i : Nat} (h : v[i]? = none) :
    vecIdx v (i : Int) = .error .undefinedBehaviour := by
  simp [vecIdx, h]

/-- The entry `i` of a vector filled by a counting loop. -/
theorem getElem?_map_range {n i : Nat} (f : Nat → α) (hi : i < n) :
    ((List.range n).map f)[i]? = some (f i) := by
  rw [List.getElem?_map, List.getElem?_range hi]
  rfl

/-- A vector filled by a counting loop of `n` passes has no entry `n` or beyond. -/
theorem getElem?_map_range_none {n i : Nat} (f : Nat → α) (hi : n ≤ i) :
    ((List.range n).map f)[i]? = none := by
  rw [List.getElem?_eq_none]
  simpa using hi

/-- In a strictly ascending list, a later element is not smaller. -/
theorem sorted_getElem?_le {F : Type} [LinearOrder F] {v : List F}
    (hs : v.Sorted (· < ·)) {i j : Nat} {a b : F} (hij : i ≤ j)
    (ha : v[i]? = some a) (hb : v[j]? = some b) : a ≤ b := by
  obtain ⟨hi, rfl⟩ := List.getElem?_eq_some.mp ha
  obtain ⟨hj, rfl⟩ := List.getElem?_eq_some.mp hb
  rcases Nat.lt_or_eq_of_le hij with h | h
  · exact le_of_lt (List.pairwise_iff_getElem.mp hs i j hi hj h)
  · subst h
    exact le_refl _

/-- In a strictly ascending list, the element after `a` is greater. -/
theorem sorted_getElem?_lt {F : Type} [LinearOrder F] {v : List F}
    (hs : v.Sorted (· < ·)) {i j : Nat} {a b : F} (hij : i < j)
    (ha : v[i]? = some a) (hb : v[j]? = some b) : a < b := by
  obtain ⟨hi, rfl⟩ := List.getElem?_eq_some.mp ha
  obtain ⟨hj, rfl⟩ := List.getElem?_eq_some.mp hb
  exact List.pairwise_iff_getElem.mp hs i j hi hj hij

/-- The value of `upper_bound` on a strictly ascending vector: when
`v[k] <= x` and `x` is below the next element (if there is one), the first
element greater than `x` has index `k + 1`. -/
theorem upper_bound_eq {F : Type} [LinearOrderedField F] [FloorRing F] :
    ∀ (v : List F) (k : Nat) (a x : F), v.Sorted (· < ·) → v[k]? = some a → a ≤ x →
      (∀ b, v[k + 1]? = some b → x < b) →
      WcsMap2.upper_bound v x = ((k + 1 : Nat) : Int)
  | [], k, a, x, _, hk, _, _ => by simp at hk
  | c :: t, 0, a, x, _, hk, hax, hnext => by
    simp only [List.getElem?_cons_zero, Option.some.injEq] at hk
    subst hk
    unfold WcsMap2.upper_bound
    rw [List.findIdx_cons]
    have h1 : decide (x < c) = false := by simpa using hax
    rw [h1]
    cases t with
    | nil => simp
    | cons b t' =>
      have hb : x < b := hnext b (by simp)
      simp [List.findIdx_cons, hb]
  | c :: t, k + 1, a, x, hs, hk, hax, hnext => by
    have hs' : t.Sorted (· < ·) := (List.sorted_cons.mp hs).2
    have hk' : t[k]? = some a := by simpa using hk
    have hca : c < a := (List.sorted_cons.mp hs).1 a (List.getElem?_mem hk')
    have ih := upper_bound_eq t k a x hs' hk' hax (fun b hb => hnext b (by simpa using hb))
    unfold WcsMap2.upper_bound at ih ⊢
    rw [List.findIdx_cons]
    have h1 : decide (x < c) = false := by simpa using le_of_lt (lt_of_lt_of_le hca hax)
    rw [h1]
    simp only [cond_false]
    have ih' : List.findIdx (fun e => decide (x < e)) t = k + 1 := by exact_mod_cast ih
    rw [ih']

/-- The energy-bracketing part of `sample(direction, energy)`: on a three-axis
map with strictly ascending energies, a requested energy that is not negative,
is at least `v[k]`, is below `v[k+1]` when that entry exists and is not above
the last entry is sent to plane `k`. -/
theorem sampleEnergy_bracket {F : Type} [LinearOrderedField F] [FloorRing F]
    (log : F → F) (pow : F → F → F) (m : WcsMap2 F) (dir : SkyDir F)
    (hn : m.m_naxes = 3) (hs : m.m_energies.Sorted (· < ·))
    (k : Nat) (ek energy : F) (hk : m.m_energies[k]? = some ek)
    (h0 : 0 ≤ energy) (h1 : ek ≤ energy)
    (h2 : ∀ b, m.m_energies[k + 1]? = some b → energy < b)
    (h3 : ∀ e1, m.m_energies.getLast? = some e1 → energy ≤ e1) :
    m.sampleEnergy log pow dir energy
      = (m.sample dir (k : Int)).bind (fun y1 =>
          if energy = ek then .ok y1
          else (m.sample dir ((k : Int) + 1)).bind (fun y2 =>
            (vecIdx m.m_energies ((k : Int) + 1)).bind (fun ek1 =>
              interpolatePowerLaw log pow energy ek ek1 y1 y2))) := by
  obtain ⟨hlen, -⟩ := List.getElem?_eq_some.mp hk
  have hne : m.m_energies ≠ [] := by
    intro h
    rw [h] at hlen
    simp at hlen
  obtain ⟨e0, he0⟩ : ∃ e0, m.m_energies.head? = some e0 := by
    cases hE : m.m_energies with
    | nil => exact absurd hE hne
    | cons a t => exact ⟨a, rfl⟩
  obtain ⟨e1, he1⟩ : ∃ e1, m.m_energies.getLast? = some e1 := by
    rw [List.getLast?_eq_getElem?]
    exact ⟨_, List.getElem?_eq_getElem (by omega)⟩
  have hfront : e0 ≤ ek :=
    sorted_getElem?_le hs (Nat.zero_le k) (by rw [← List.head?_eq_getElem?]; exact he0) hk
  have hub : WcsMap2.upper_bound m.m_energies energy = ((k + 1 : Nat) : Int) :=
    upper_bound_eq m.m_energies k ek energy hs hk h1 h2
  unfold WcsMap2.sampleEnergy
  rw [if_neg (not_lt.mpr h0), vecFront_ok he0, vecBack_ok he1]
  simp only [bind, Except.bind, pure, Except.pure]
  rw [if_neg]
  · rw [if_pos hn, hub]
    have hkk : (((k + 1 : Nat) : Int) - 1) = (k : Int) := by push_cast; ring
    rw [hkk, vecIdx_ok hk]
  · rintro (h | h)
    · exact absurd (le_trans hfront h1) (not_le.mpr h)
    · exact absurd (h3 e1 he1) (not_le.mpr h)

/-- The value of `interpolatePowerLaw` on four positive inputs. -/
theorem interpolatePowerLaw_value {F : Type} [LinearOrderedField F]
    (log : F → F) (pow : F → F → F) (x x1 x2 y1 y2 : F)
    (h : 0 < x1 ∧ 0 < x2 ∧ 0 < y1 ∧ 0 < y2) :
    interpolatePowerLaw log pow x x1 x2 y1 y2
      = .ok (y1 / pow x1 (log (y2 / y1) / log (x2 / x1))
              * pow x (log (y2 / y1) / log (x2 / x1))) := by
  obtain ⟨h1, h2, h3, h4⟩ := h
  unfold interpolatePowerLaw
  rw [if_neg (fun h => absurd h.1 (ne_of_gt h3)), if_neg]
  rintro (h | h | h | h)
  · exact absurd h1 (not_lt.mpr h)
  · exact absurd h2 (not_lt.mpr h)
  · exact absurd h3 (not_lt.mpr h)
  · exact absurd h4 (not_lt.mpr h)

/-- In a well-formed image every pixel of every plane exists. -/
theorem imageAt_of_wellFormed {F : Type} {m : WcsMap2 F} (hwf : m.WellFormed)
    {k j i : Nat} (hk : (k : Int) < m.m_naxis3) (hj : (j : Int) < m.m_naxis2)
    (hi : (i : Int) < m.m_naxis1) :
    ∃ plane row v, m.m_image[k]? = some plane ∧ plane[j]? = some row
      ∧ row[i]? = some v ∧ m.imageAt k j i = some v := by
  obtain ⟨h3, hrest⟩ := hwf
  have hk' : k < m.m_image.length := by omega
  have hp : m.m_image[k]? = some m.m_image[k] := List.getElem?_eq_getElem hk'
  obtain ⟨h2, hrows⟩ := hrest _ (List.getElem_mem hk')
  have hj' : j < (m.m_image[k]).length := by omega
  have hr : (m.m_image[k])[j]? = some (m.m_image[k])[j] := List.getElem?_eq_getElem hj'
  have h1 := hrows _ (List.getElem_mem hj')
  have hi' : i < ((m.m_image[k])[j]).length := by omega
  have hv : ((m.m_image[k])[j])[i]? = some ((m.m_image[k])[j])[i] :=
    List.getElem?_eq_getElem hi'
  exact ⟨_, _, _, hp, hr, hv, by simp [WcsMap2.imageAt, hp, hr, hv]⟩

section Rounding

variable {F : Type} [LinearOrderedField F] [FloorRing F]

theorem castInt_intCast (r : Int) : castInt (r : F) = r := by
  unfold castInt
  split <;> simp

theorem castInt_of_nonneg {x : F} (hx : 0 ≤ x) : castInt x = ⌊x⌋ := by
  unfold castInt
  rw [if_pos hx]

/-- For `x >= 0`, `my_round x` is an integer `r` with `r - 1/2 <= x < r + 1/2`,
and converting it to `int` gives `r`. -/
theorem my_round_spec {x : F} (hx : 0 ≤ x) :
    ∃ r : Int, castInt (my_round x) = r ∧ (r : F) - 1 / 2 ≤ x ∧ x < (r : F) + 1 / 2 := by
  have hfl : (⌊x⌋ : F) ≤ x := Int.floor_le x
  have hlt : x < (⌊x⌋ : F) + 1 := Int.lt_floor_add_one x
  unfold my_round
  simp only [castInt_of_nonneg hx]
  by_cases h : x - (⌊x⌋ : F) ≥ 1 / 2
  · rw [if_pos h]
    refine ⟨⌊x⌋ + 1, ?_, ?_, ?_⟩
    · have : ((⌊x⌋ : F) + 1) = ((⌊x⌋ + 1 : Int) : F) := by push_cast; ring
      rw [this, castInt_intCast]
    · push_cast; linarith
    · push_cast; linarith
  · rw [if_neg h]
    refine ⟨⌊x⌋, castInt_intCast _, by linarith, ?_⟩
    have := not_le.mp h
    linarith

omit [FloorRing F] in
/-- An integer `r` with `r - 1/2 <= x < r + 1/2` is a nearest integer of `x`. -/
theorem nearest_of_round {x : F} {r : Int} (h1 : (r : F) - 1 / 2 ≤ x)
    (h2 : x < (r : F) + 1 / 2) (i : Int) : (x - (r : F)) ^ 2 ≤ (x - (i : F)) ^ 2 := by
  rcases lt_trichotomy i r with h | h | h
  · have hh : (i : F) + 1 ≤ (r : F) := by exact_mod_cast h
    nlinarith
  · subst h
    exact le_refl _
  · have hh : (r : F) + 1 ≤ (i : F) := by exact_mod_cast h
    nlinarith

end Rounding

/-- For `x >= 0` and a period `n > 0`, `fmod` does not see a full period. -/
theorem fmod_add_period {F : Type} [LinearOrderedField F] [FloorRing F] {x n : F}
    (hx : 0 ≤ x) (hn : 0 < n) : fmod (x + n) n = fmod x n := by
  have h1 : (x + n) / n = x / n + 1 := by
    field_simp
  have h2 : 0 ≤ x / n := div_nonneg hx (le_of_lt hn)
  unfold fmod
  rw [h1, castInt_of_nonneg h2, castInt_of_nonneg (by linarith), Int.floor_add_one]
  push_cast
  ring

/-- On a periodic image, two directions whose pixel positions are one full turn
apart, `(x, y)` and `(x + naxis1, y)` with `x >= 0`, have the same sample
outcome. -/
theorem sample_periodic_turn {F : Type} [LinearOrderedField F] [FloorRing F]
    (m : WcsMap2 F) (d1 d2 : SkyDir F) (k : Int) (hp : m.m_isPeriodic = true)
    (hn : 0 < m.m_naxis1) (hx : 0 ≤ (m.m_proj.project d1).1)
    (h2 : m.m_proj.project d2
      = ((m.m_proj.project d1).1 + (m.m_naxis1 : F), (m.m_proj.project d1).2)) :
    m.sample d2 k = m.sample d1 k := by
  have hnF : (0 : F) < (m.m_naxis1 : F) := by exact_mod_cast hn
  unfold WcsMap2.sample
  simp only [h2, hp, if_true, fmod_add_period hx hnF]

/-- Without interpolation, a non-periodic in-map position is handed to
`pixelValue` unchanged. -/
theorem sample_eq_pixelValue {F : Type} [LinearOrderedField F] [FloorRing F]
    (m : WcsMap2 F) (dir : SkyDir F) (k : Int)
    (hchk : m.check_energy_index k = .ok ())
    (hnp : m.m_isPeriodic = false) (hni : m.m_interpolate = false)
    (hin : ¬ ((m.m_isPeriodic = false
          ∧ ((m.m_proj.project dir).1 < 1 / 2
            ∨ (m.m_proj.project dir).1 > (m.m_naxis1 : F) + 1 / 2))
        ∨ (m.m_proj.project dir).2 < 1 / 2
        ∨ (m.m_proj.project dir).2 > (m.m_naxis2 : F) + 1 / 2)) :
    m.sample dir k
      = m.pixelValue (m.m_proj.project dir).1 (m.m_proj.project dir).2 k := by
  unfold WcsMap2.sample
  rw [hchk]
  simp only [bind, Except.bind]
  have hx : (if m.m_isPeriodic = true then
      fmod (m.m_proj.project dir).1 (m.m_naxis1 : F) else (m.m_proj.project dir).1)
      = (m.m_proj.project dir).1 := by
    rw [hnp]
    simp
  rw [hx, if_neg hin, if_pos hni]

/-- The bilinear branch of `sample` on a non-periodic image, once the clamped
cell indices `ix`, `iy` and the four stored values are known. -/
theorem sample_eq_bilinear {F : Type} [LinearOrderedField F] [FloorRing F]
    (m : WcsMap2 F) (dir : SkyDir F) (k : Nat)
    (hchk : m.check_energy_index (k : Int) = .ok ())
    (hnp : m.m_isPeriodic = false) (hi : m.m_interpolate = true)
    (hin : ¬ ((m.m_isPeriodic = false
          ∧ ((m.m_proj.project dir).1 < 1 / 2
            ∨ (m.m_proj.project dir).1 > (m.m_naxis1 : F) + 1 / 2))
        ∨ (m.m_proj.project dir).2 < 1 / 2
        ∨ (m.m_proj.project dir).2 > (m.m_naxis2 : F) + 1 / 2))
    (i j : Nat)
    (hix : (if (if castInt (m.m_proj.project dir).1 < 1 then 1
              else castInt (m.m_proj.project dir).1) ≥ m.m_naxis1
            then m.m_naxis1 - 1
            else (if castInt (m.m_proj.project dir).1 < 1 then 1
              else castInt (m.m_proj.project dir).1)) = (i : Int) + 1)
    (hiy : (if (if castInt (m.m_proj.project dir).2 < 1 then 1
              else castInt (m.m_proj.project dir).2) ≥ m.m_naxis2
            then m.m_naxis2 - 1
            else (if castInt (m.m_proj.project dir).2 < 1 then 1
              else castInt (m.m_proj.project dir).2)) = (j : Int) + 1)
    (plane : List (List F)) (row0 row1 : List F) (y1 y2 y3 y4 : F)
    (hp : m.m_image[k]? = some plane)
    (hr0 : plane[j]? = some row0) (hr1 : plane[j + 1]? = some row1)
    (h1 : row0[i]? = some y1) (h2 : row0[i + 1]? = some y2)
    (h3 : row1[i + 1]? = some y3) (h4 : row1[i]? = some y4) :
    m.sample dir (k : Int)
      = .ok ((1 - ((m.m_proj.project dir).1 - ((i : F) + 1)))
              * (1 - ((m.m_proj.project dir).2 - ((j : F) + 1))) * y1
            + ((m.m_proj.project dir).1 - ((i : F) + 1))
              * (1 - ((m.m_proj.project dir).2 - ((j : F) + 1))) * y2
            + ((m.m_proj.project dir).1 - ((i : F) + 1))
              * ((m.m_proj.project dir).2 - ((j : F) + 1)) * y3
            + (1 - ((m.m_proj.project dir).1 - ((i : F) + 1)))
              * ((m.m_proj.project dir).2 - ((j : F) + 1)) * y4) := by
  unfold WcsMap2.sample
  rw [hchk]
  simp only [bind, Except.bind]
  have hx : (if m.m_isPeriodic = true then
      fmod (m.m_proj.project dir).1 (m.m_naxis1 : F) else (m.m_proj.project dir).1)
      = (m.m_proj.project dir).1 := by
    rw [hnp]
    simp
  rw [hx, if_neg hin, if_neg (by rw [hi]; simp), if_pos hnp, hix, hiy, vecIdx_ok hp]
  have e1 : ((i : Int) + 1 - 1) = (i : Int) := by ring
  have e2 : ((j : Int) + 1 - 1) = (j : Int) := by ring
  have e3 : ((i : Int) + 1) = ((i + 1 : Nat) : Int) := by push_cast; ring
  have e4 : ((j : Int) + 1) = ((j + 1 : Nat) : Int) := by push_cast; ring
  simp only [e1, e2]
  rw [if_neg (by rw [hnp]; simp)]
  simp only [e3, e4, vecAt_ok hr0, vecAt_ok hr1, vecAt_ok h1, vecAt_ok h2, vecAt_ok h3,
    vecAt_ok h4, pure, Except.pure]
  push_cast
  rfl

/-- The clamping of the cell index in the bilinear branch: for `x >= 1/2` and
`n >= 2` the clamped index is `i + 1` with `i + 1 < n`, and for `1 <= x <= n`
the offset `x - (i + 1)` lies in `[0, 1]`. -/
theorem clamp_cell {F : Type} [LinearOrderedField F] [FloorRing F] {x : F} {n : Int}
    (hn : 2 ≤ n) (h1 : 1 / 2 ≤ x) :
    ∃ i : Nat,
      (if (if castInt x < 1 then 1 else castInt x) ≥ n then n - 1
        else (if castInt x < 1 then 1 else castInt x)) = (i : Int) + 1
      ∧ (i : Int) + 1 < n
      ∧ (1 ≤ x → x ≤ (n : F) → 0 ≤ x - ((i : F) + 1) ∧ x - ((i : F) + 1) ≤ 1) := by
  have hx0 : (0 : F) ≤ x := le_trans (by norm_num) h1
  have hfl : (⌊x⌋ : F) ≤ x := Int.floor_le x
  have hlt : x < (⌊x⌋ : F) + 1 := Int.lt_floor_add_one x
  have hf0 : 0 ≤ ⌊x⌋ := Int.floor_nonneg.mpr hx0
  rw [castInt_of_nonneg hx0]
  by_cases ha : ⌊x⌋ < 1
  · rw [if_pos ha, if_neg (by omega)]
    refine ⟨0, by simp, by simpa using (by omega : (1 : Int) < n), ?_⟩
    intro h _
    have : (⌊x⌋ : F) = 0 := by
      have : ⌊x⌋ = 0 := by omega
      rw [this]
      simp
    linarith
  · rw [if_neg ha]
    by_cases hb : ⌊x⌋ ≥ n
    · rw [if_pos hb]
      obtain ⟨i, hi⟩ : ∃ i : Nat, (i : Int) = n - 2 := ⟨(n - 2).toNat, by omega⟩
      refine ⟨i, by omega, by omega, ?_⟩
      intro _ hxn
      have hnf : (n : F) ≤ (⌊x⌋ : F) := by exact_mod_cast hb
      have e : ((i : F) + 1) = (n : F) - 1 := by
        have : ((i : Int) : F) = ((n - 2 : Int) : F) := by rw [hi]
        push_cast at this
        linarith
      rw [e]
      constructor <;> linarith
    · rw [if_neg hb]
      obtain ⟨i, hi⟩ : ∃ i : Nat, (i : Int) = ⌊x⌋ - 1 :=
        ⟨(⌊x⌋ - 1).toNat, by omega⟩
      refine ⟨i, by omega, by omega, ?_⟩
      intro _ _
      have e : ((i : F) + 1) = (⌊x⌋ : F) := by
        have : ((i : Int) : F) = ((⌊x⌋ - 1 : Int) : F) := by rw [hi]
        push_cast at this
        linarith
      rw [e]
      constructor <;> linarith

/-- The clamping of the cell index in the bilinear branch is the clamping of
the integer part of a non-negative position into `1 .. n - 1`. -/
theorem clamp_eq_min_max {F : Type} [LinearOrderedField F] [FloorRing F] {x : F} {n : Int}
    (hx : 0 ≤ x) :
    (if (if castInt x < 1 then 1 else castInt x) ≥ n then n - 1
      else (if castInt x < 1 then 1 else castInt x)) = min (max ⌊x⌋ 1) (n - 1) := by
  rw [castInt_of_nonneg hx]
  simp only [min_def, max_def]
  split_ifs <;> omega

/-- A combination of four values with non-negative weights that sum to `1`
lies between the smallest and the largest of the values. -/
theorem bilinear_between {F : Type} [LinearOrderedField F] {t u y1 y2 y3 y4 : F}
    (ht0 : 0 ≤ t) (ht1 : t ≤ 1) (hu0 : 0 ≤ u) (hu1 : u ≤ 1) :
    min (min y1 y2) (min y3 y4)
        ≤ (1 - t) * (1 - u) * y1 + t * (1 - u) * y2 + t * u * y3 + (1 - t) * u * y4
    ∧ (1 - t) * (1 - u) * y1 + t * (1 - u) * y2 + t * u * y3 + (1 - t) * u * y4
        ≤ max (max y1 y2) (max y3 y4) := by
  have w1 : 0 ≤ (1 - t) * (1 - u) := mul_nonneg (by linarith) (by linarith)
  have w2 : 0 ≤ t * (1 - u) := mul_nonneg ht0 (by linarith)
  have w3 : 0 ≤ t * u := mul_nonneg ht0 hu0
  have w4 : 0 ≤ (1 - t) * u := mul_nonneg (by linarith) hu0
  constructor
  · have a1 : min (min y1 y2) (min y3 y4) ≤ y1 := le_trans (min_le_left _ _) (min_le_left _ _)
    have a2 : min (min y1 y2) (min y3 y4) ≤ y2 := le_trans (min_le_left _ _) (min_le_right _ _)
    have a3 : min (min y1 y2) (min y3 y4) ≤ y3 := le_trans (min_le_right _ _) (min_le_left _ _)
    have a4 : min (min y1 y2) (min y3 y4) ≤ y4 := le_trans (min_le_right _ _) (min_le_right _ _)
    have b1 := mul_le_mul_of_nonneg_left a1 w1
    have b2 := mul_le_mul_of_nonneg_left a2 w2
    have b3 := mul_le_mul_of_nonneg_left a3 w3
    have b4 := mul_le_mul_of_nonneg_left a4 w4
    nlinarith
  · have a1 : y1 ≤ max (max y1 y2) (max y3 y4) := le_trans (le_max_left _ _) (le_max_left _ _)
    have a2 : y2 ≤ max (max y1 y2) (max y3 y4) := le_trans (le_max_right _ _) (le_max_left _ _)
    have a3 : y3 ≤ max (max y1 y2) (max y3 y4) := le_trans (le_max_left _ _) (le_max_right _ _)
    have a4 : y4 ≤ max (max y1 y2) (max y3 y4) := le_trans (le_max_right _ _) (le_max_right _ _)
    have b1 := mul_le_mul_of_nonneg_left a1 w1
    have b2 := mul_le_mul_of_nonneg_left a2 w2
    have b3 := mul_le_mul_of_nonneg_left a3 w3
    have b4 := mul_le_mul_of_nonneg_left a4 w4
    nlinarith

section Loops

/-- The invariant rule for a counted loop: if `P 0` holds at the start and
every pass `i < n` succeeds and takes `P i` to `P (i + 1)`, the loop succeeds
and ends in a state with `P n`. -/
theorem foldlM_range_invariant {σ : Type} (f : σ → Nat → Except Failure σ)
    (P : Nat → σ → Prop) (n : Nat) (s0 : σ) (h0 : P 0 s0)
    (hstep : ∀ i s, i < n → P i s → ∃ s', f s i = .ok s' ∧ P (i + 1) s') :
    ∃ s', (List.range n).foldlM f s0 = .ok s' ∧ P n s' := by
  induction n with
  | zero => exact ⟨s0, rfl, h0⟩
  | succ n ih =>
    obtain ⟨s1, h1, hp1⟩ := ih (fun i s hi hp => hstep i s (Nat.lt_succ_of_lt hi) hp)
    obtain ⟨s2, h2, hp2⟩ := hstep n s1 (Nat.lt_succ_self n) hp1
    refine ⟨s2, ?_, hp2⟩
    rw [List.range_succ, List.foldlM_append, h1]
    simp [bind, Except.bind, h2, pure, Except.pure]

variable {F : Type} [LinearOrderedField F]

/-- Replacing the entry `n` of a list changes the sum by the difference. -/
theorem sum_set_eq : ∀ (L : List F) (n : Nat) (hn : n < L.length) (x : F),
    (L.set n x).sum = L.sum - L[n] + x
  | [], n, hn, x => by simp at hn
  | a :: L, 0, _, x => by
    simp only [List.set_cons_zero, List.sum_cons, List.getElem_cons_zero]
    ring
  | a :: L, n + 1, hn, x => by
    have hn' : n < L.length := by simpa using hn
    simp only [List.set_cons_succ, List.sum_cons, List.getElem_cons_succ]
    rw [sum_set_eq L n hn' x]
    ring

/-- Adding `t` to the element `[r][c]` of a `rows x cols` array succeeds,
keeps the shape and raises the sum of all elements by `t`. -/
theorem modifyAt2_add {a : List (List F)} {rows cols r c : Nat} (hd : WcsMap2.Dims a rows cols)
    (hr : r < rows) (hc : c < cols) (t : F) :
    ∃ a', WcsMap2.modifyAt2 a (r : Int) (c : Int) (fun d => d + t) = .ok a'
      ∧ WcsMap2.Dims a' rows cols ∧ WcsMap2.pixelSum a' = WcsMap2.pixelSum a + t := by
  obtain ⟨hlen, hrows⟩ := hd
  have hr' : r < a.length := by omega
  have hrow : a[r]? = some a[r] := List.getElem?_eq_getElem hr'
  have hclen : (a[r]).length = cols := hrows _ (List.getElem_mem hr')
  have hc' : c < (a[r]).length := by omega
  have hv : (a[r])[c]? = some (a[r])[c] := List.getElem?_eq_getElem hc'
  refine ⟨a.set r ((a[r]).set c ((a[r])[c] + t)), ?_, ⟨?_, ?_⟩, ?_⟩
  · unfold WcsMap2.modifyAt2
    simp [bind, Except.bind, vecIdx_ok hrow, vecIdx_ok hv, pure, Except.pure]
  · simp [hlen]
  · intro row hmem
    rcases List.mem_or_eq_of_mem_set hmem with h | h
    · exact hrows row h
    · rw [h]
      simp [hclen]
  · unfold WcsMap2.pixelSum
    rw [List.map_set, sum_set_eq _ r (by simpa using hr'), sum_set_eq _ c hc']
    simp only [List.getElem_map]
    ring

end Loops

section Tables

variable {F : Type} [LinearOrderedField F]

/-- Every entry of a `rows x cols` table exists. -/
theorem dims_entry {a : List (List F)} {rows cols i j : Nat} (hd : WcsMap2.Dims a rows cols)
    (hi : i < rows) (hj : j < cols) :
    ∃ row s, a[i]? = some row ∧ row[j]? = some s ∧ WcsMap2.tableAt a i j = s := by
  obtain ⟨hlen, hrows⟩ := hd
  have hi' : i < a.length := by omega
  have hrow : a[i]? = some a[i] := List.getElem?_eq_getElem hi'
  have hj' : j < (a[i]).length := by rw [hrows _ (List.getElem_mem hi')]; exact hj
  have hs : (a[i])[j]? = some (a[i])[j] := List.getElem?_eq_getElem hj'
  exact ⟨_, _, hrow, hs, by simp [WcsMap2.tableAt, hrow, hs]⟩

/-- The result of `solidAngles()` is a table of `m_naxis1` rows of `m_naxis2` entries. -/
theorem solidAngles_dims (G : SphereGeom F) (m : WcsMap2 F) (hc : m.CacheOk) :
    WcsMap2.Dims (m.solidAngles G) m.m_naxis1.toNat m.m_naxis2.toNat := by
  unfold WcsMap2.solidAngles
  by_cases he : m.m_solidAngles.isEmpty = true
  · rw [if_pos he]
    constructor
    · simp
    · intro row hrow
      obtain ⟨i, -, rfl⟩ := List.mem_map.mp hrow
      simp
  · rw [if_neg he]
    rcases hc with h | h
    · rw [h] at he
      simp at he
    · exact h

/-- Every entry `[i][j]` of `solidAngles()` with `i < m_naxis1`, `j < m_naxis2`
exists. -/
theorem solidAngles_entry (G : SphereGeom F) (m : WcsMap2 F) (hc : m.CacheOk) {i j : Nat}
    (hi : i < m.m_naxis1.toNat) (hj : j < m.m_naxis2.toNat) :
    ∃ row s, (m.solidAngles G)[i]? = some row ∧ row[j]? = some s
      ∧ WcsMap2.tableAt (m.solidAngles G) i j = s :=
  dims_entry (solidAngles_dims G m hc) hi hj

/-- The accumulation loops of `rebin` on a well-formed source and a
destination plane of `rows x cols` entries that has room for every target
index: the loops succeed, keep the shape of the destination and raise the sum
of its entries by the flux of the source plane. -/
theorem rebinAccumulate_spec (G : SphereGeom F) (m : WcsMap2 F) (hwf : m.WellFormed)
    (hc : m.CacheOk) (factor k : Nat) (hk : (k : Int) < m.m_naxis3)
    (dest : List (List F)) (rows cols : Nat) (hd : WcsMap2.Dims dest rows cols)
    (hrows : ∀ j : Nat, j < m.m_naxis2.toNat → j / factor < rows)
    (hcols : ∀ i : Nat, i < m.m_naxis1.toNat → i / factor < cols) :
    ∃ dest', WcsMap2.rebinAccumulate G m factor k dest = .ok dest'
      ∧ WcsMap2.Dims dest' rows cols
      ∧ WcsMap2.pixelSum dest' = WcsMap2.pixelSum dest + m.planeFlux G k := by
  have key := foldlM_range_invariant
    (fun dest (i : Nat) =>
      (List.range m.m_naxis2.toNat).foldlM (fun dest (j : Nat) => do
        let v ← vecIdx (← vecIdx (← vecIdx m.m_image k) j) i
        let s ← vecIdx (← vecIdx (m.solidAngles G) i) j
        WcsMap2.modifyAt2 dest ((j / factor : Nat) : Int) ((i / factor : Nat) : Int)
          (fun d => d + v * s)) dest)
    (fun n d => WcsMap2.Dims d rows cols
      ∧ WcsMap2.pixelSum d = WcsMap2.pixelSum dest
          + ∑ i in Finset.range n, ∑ j in Finset.range m.m_naxis2.toNat,
              WcsMap2.tableAt (m.solidAngles G) i j * (m.imageAt k j i).getD 0)
    m.m_naxis1.toNat dest ⟨hd, by simp⟩ ?_
  · obtain ⟨dest', h1, h2, h3⟩ := key
    refine ⟨dest', h1, h2, ?_⟩
    rw [h3, WcsMap2.planeFlux, Finset.sum_comm]
  · intro i d hi ⟨hdd, hsum⟩
    have inner := foldlM_range_invariant
      (fun dest (j : Nat) => do
        let v ← vecIdx (← vecIdx (← vecIdx m.m_image k) j) i
        let s ← vecIdx (← vecIdx (m.solidAngles G) i) j
        WcsMap2.modifyAt2 dest ((j / factor : Nat) : Int) ((i / factor : Nat) : Int)
          (fun d => d + v * s))
      (fun n d' => WcsMap2.Dims d' rows cols
        ∧ WcsMap2.pixelSum d' = WcsMap2.pixelSum d
            + ∑ j in Finset.range n,
                WcsMap2.tableAt (m.solidAngles G) i j * (m.imageAt k j i).getD 0)
      m.m_naxis2.toNat d ⟨hdd, by simp⟩ ?_
    · obtain ⟨d', h1, h2, h3⟩ := inner
      refine ⟨d', h1, h2, ?_⟩
      rw [h3, hsum, Finset.sum_range_succ]
      ring
    · intro j d' hj ⟨hdd', hsum'⟩
      obtain ⟨plane, row, v, hp, hr, hv, hat⟩ :=
        imageAt_of_wellFormed hwf hk (by omega : (j : Int) < m.m_naxis2)
          (by omega : (i : Int) < m.m_naxis1)
      obtain ⟨srow, sv, hsr, hsv, hst⟩ := solidAngles_entry G m hc hi hj
      obtain ⟨d2, e1, e2, e3⟩ := modifyAt2_add hdd' (hrows j hj) (hcols i hi) (v * sv)
      refine ⟨d2, ?_, e2, ?_⟩
      · simp only [bind, Except.bind, vecIdx_ok hp, vecIdx_ok hr, vecIdx_ok hv,
          vecIdx_ok hsr, vecIdx_ok hsv]
        exact e1
      · rw [e3, hsum', Finset.sum_range_succ, hst, hat]
        simp only [Option.getD_some]
        ring

/-- The two inner loops of `computeMapIntegrals` on a well-formed image: they
succeed and add the flux of plane `k` to both running sums. -/
theorem integratePlane_spec (G : SphereGeom F) (m : WcsMap2 F) (hwf : m.WellFormed)
    (hc : m.CacheOk) (k : Nat) (hk : (k : Int) < m.m_naxis3) (st : F × F) :
    m.integratePlane G k st
      = .ok (st.1 + m.planeFlux G k, st.2 + m.planeFlux G k) := by
  have key := foldlM_range_invariant
    (fun st (j : Nat) =>
      (List.range m.m_naxis1.toNat).foldlM (fun (st : F × F) (i : Nat) => do
        let s ← vecIdx (← vecIdx (m.solidAngles G) i) j
        let v ← vecIdx (← vecIdx (← vecIdx m.m_image k) j) i
        pure (st.1 + s * v, st.2 + s * v)) st)
    (fun n (r : F × F) =>
      r = (st.1 + ∑ j in Finset.range n, ∑ i in Finset.range m.m_naxis1.toNat,
              WcsMap2.tableAt (m.solidAngles G) i j * (m.imageAt k j i).getD 0,
           st.2 + ∑ j in Finset.range n, ∑ i in Finset.range m.m_naxis1.toNat,
              WcsMap2.tableAt (m.solidAngles G) i j * (m.imageAt k j i).getD 0))
    m.m_naxis2.toNat st (by simp) ?_
  · obtain ⟨r, h1, h2⟩ := key
    unfold WcsMap2.integratePlane
    rw [h1, h2]
    rfl
  · intro j r hj hr
    have inner := foldlM_range_invariant
      (fun (st : F × F) (i : Nat) => do
        let s ← vecIdx (← vecIdx (m.solidAngles G) i) j
        let v ← vecIdx (← vecIdx (← vecIdx m.m_image k) j) i
        pure (st.1 + s * v, st.2 + s * v))
      (fun n (r' : F × F) =>
        r' = (r.1 + ∑ i in Finset.range n,
                WcsMap2.tableAt (m.solidAngles G) i j * (m.imageAt k j i).getD 0,
              r.2 + ∑ i in Finset.range n,
                WcsMap2.tableAt (m.solidAngles G) i j * (m.imageAt k j i).getD 0))
      m.m_naxis1.toNat r (by simp) ?_
    · obtain ⟨r', h1, h2⟩ := inner
      refine ⟨r', h1, ?_⟩
      dsimp only
      rw [h2, hr, Finset.sum_range_succ]
      simp only [Prod.mk.injEq]
      constructor <;> ring
    · intro i r' hi hr'
      obtain ⟨plane, row, v, hp, hrw, hv, hat⟩ :=
        imageAt_of_wellFormed hwf hk (by omega : (j : Int) < m.m_naxis2)
          (by omega : (i : Int) < m.m_naxis1)
      obtain ⟨srow, sv, hsr, hsv, hst⟩ := solidAngles_entry G m hc hi hj
      refine ⟨(r'.1 + sv * v, r'.2 + sv * v), ?_, ?_⟩
      · simp only [bind, Except.bind, vecIdx_ok hp, vecIdx_ok hrw, vecIdx_ok hv,
          vecIdx_ok hsr, vecIdx_ok hsv, pure, Except.pure]
      · dsimp only
        rw [hr', Finset.sum_range_succ, hst, hat]
        simp only [Option.getD_some, Prod.mk.injEq]
        constructor <;> ring

/-- The call `computeMapIntegrals` on a well-formed image succeeds; it caches, plane by
plane, the flux of the plane as tabulated by `solidAngles()`, and their total,
and changes no other member than the solid-angle cache. -/
theorem computeMapIntegrals_spec (G : SphereGeom F) (m : WcsMap2 F) (hwf : m.WellFormed)
    (hc : m.CacheOk) :
    m.computeMapIntegrals G
      = .ok { m with
          m_solidAngles :=
            if 0 < m.m_naxis3 ∧ 0 < m.m_naxis2 ∧ 0 < m.m_naxis1 then m.solidAngles G
            else m.m_solidAngles
          m_mapIntegral := ∑ k in Finset.range m.m_naxis3.toNat, m.planeFlux G k
          m_mapIntegrals := (List.range m.m_naxis3.toNat).map (m.planeFlux G) } := by
  have key := foldlM_range_invariant
    (fun (st : F × List F) (k : Nat) => do
      let r ← m.integratePlane G k (st.1, 0)
      pure (r.1, st.2 ++ [r.2]))
    (fun n (st : F × List F) =>
      st = (∑ k in Finset.range n, m.planeFlux G k, (List.range n).map (m.planeFlux G)))
    m.m_naxis3.toNat ((0 : F), ([] : List F)) (by simp) ?_
  · obtain ⟨st, h1, h2⟩ := key
    unfold WcsMap2.computeMapIntegrals
    rw [h1, h2]
    rfl
  · intro k st hk hst
    refine ⟨(st.1 + m.planeFlux G k, st.2 ++ [0 + m.planeFlux G k]), ?_, ?_⟩
    · dsimp only
      rw [integratePlane_spec G m hwf hc k (by omega)]
      rfl
    · dsimp only
      rw [hst]
      simp only [Finset.sum_range_succ, List.range_succ, List.map_append, List.map_cons,
        List.map_nil, zero_add]

/-- The resized destination plane of `rebin` has `n2` rows of `n1` entries. -/
theorem rebinResize_dims (plane : List (List F)) (n1 n2 : Int) :
    WcsMap2.Dims (WcsMap2.rebinResize plane n1 n2) n2.toNat n1.toNat := by
  unfold WcsMap2.rebinResize WcsMap2.vecResize
  constructor
  · simp only [List.length_map, List.length_append, List.length_take, List.length_replicate]
    omega
  · intro row hrow
    obtain ⟨r, -, rfl⟩ := List.mem_map.mp hrow
    simp only [List.length_append, List.length_take, List.length_replicate]
    omega

end Tables

/-- The rebinned size computed by `rebin` has room for every target index:
for `j < N` the index `j / factor` is below the rebinned size of `N`. -/
theorem rebin_size_bound (N : Int) (f j : Nat) (hf : 1 ≤ f) (hj : j < N.toNat) :
    j / f < (WcsMap2.rebinSize N f).toNat := by
  unfold WcsMap2.rebinSize
  simp only []
  have hf0 : (0 : Int) < (f : Int) := by exact_mod_cast hf
  have hr0 : 0 ≤ N % (f : Int) := Int.emod_nonneg N (ne_of_gt hf0)
  have hr1 : N % (f : Int) < (f : Int) := Int.emod_lt_of_pos N hf0
  have hdiv : (f : Int) * (N / (f : Int)) + N % (f : Int) = N := Int.ediv_add_emod N f
  have hjN : (j : Int) < N := by omega
  apply Nat.div_lt_of_lt_mul
  by_cases h : (f : Int) - N % (f : Int) = (f : Int)
  · rw [if_pos h]
    have hr : N % (f : Int) = 0 := by omega
    have hq : 0 ≤ N / (f : Int) := Int.ediv_nonneg (by omega) (le_of_lt hf0)
    have : ((f * ((N + 0) / (f : Int)).toNat : Nat) : Int) = N := by
      push_cast
      rw [add_zero, Int.toNat_of_nonneg hq]
      omega
    omega
  · rw [if_neg h]
    have e : N + ((f : Int) - N % (f : Int)) = (f : Int) * (N / (f : Int) + 1) := by
      rw [mul_add, mul_one]
      omega
    rw [e, Int.mul_ediv_cancel_left _ (ne_of_gt hf0)]
    have hq : 0 ≤ N / (f : Int) + 1 := by
      have := Int.ediv_nonneg (by omega : (0 : Int) ≤ N) (le_of_lt hf0)
      omega
    have : ((f * (N / (f : Int) + 1).toNat : Nat) : Int) = (f : Int) * (N / (f : Int) + 1) := by
      push_cast
      rw [Int.toNat_of_nonneg hq]
    have h2 : (f : Int) * (N / (f : Int) + 1) = (f : Int) * (N / (f : Int)) + (f : Int) := by
      ring
    omega

/-- The outcome of `mapIntegral(energy)` depends on the energy axis, the
number of axes and the cached plane integrals only. -/
theorem mapIntegral_congr {F : Type} [LinearOrderedField F] [FloorRing F]
    (log exp : F → F) (energy : F) (m1 m2 : WcsMap2 F)
    (h1 : m1.m_energies = m2.m_energies) (h2 : m1.m_naxes = m2.m_naxes)
    (h3 : m1.m_mapIntegrals = m2.m_mapIntegrals) :
    m1.mapIntegral log exp energy = m2.mapIntegral log exp energy := by
  unfold WcsMap2.mapIntegral
  rw [h1, h2, h3]

section RebinLoops

variable {F : Type} [LinearOrderedField F]

/-- The loop over the planes in `rebin(factor, false)` on a well-formed
source: it succeeds, and plane `k` of the result is the resized copy of source
plane `k` with the flux of that plane accumulated into it. -/
theorem rebin_planes_spec (G : SphereGeom F) (m : WcsMap2 F) (hwf : m.WellFormed)
    (hc : m.CacheOk) (factor : Nat) (n1 n2 : Int) (sa : List (List F))
    (hrows : ∀ j : Nat, j < m.m_naxis2.toNat → j / factor < n2.toNat)
    (hcols : ∀ i : Nat, i < m.m_naxis1.toNat → i / factor < n1.toNat) :
    ∃ image,
      (List.range m.m_naxis3.toNat).foldlM
        (WcsMap2.rebinPlane G m factor n1 n2 sa false) m.m_image = .ok image
      ∧ ∀ k : Nat, (k : Int) < m.m_naxis3 → ∃ src dest,
          m.m_image[k]? = some src ∧ image[k]? = some dest
          ∧ WcsMap2.pixelSum dest
              = WcsMap2.pixelSum (WcsMap2.rebinResize src n1 n2) + m.planeFlux G k := by
  have key := foldlM_range_invariant
    (WcsMap2.rebinPlane G m factor n1 n2 sa false)
    (fun n image => image.length = m.m_image.length
      ∧ (∀ k : Nat, n ≤ k → image[k]? = m.m_image[k]?)
      ∧ ∀ k : Nat, k < n → ∃ src dest,
          m.m_image[k]? = some src ∧ image[k]? = some dest
          ∧ WcsMap2.pixelSum dest
              = WcsMap2.pixelSum (WcsMap2.rebinResize src n1 n2) + m.planeFlux G k)
    m.m_naxis3.toNat m.m_image ⟨rfl, fun _ _ => rfl, fun k hk => absurd hk (Nat.not_lt_zero k)⟩
    ?_
  · obtain ⟨image, h1, -, -, h4⟩ := key
    exact ⟨image, h1, fun k hk => h4 k (by omega)⟩
  · intro k image hk ⟨hlen, hrest, hdone⟩
    have hk3 : (k : Int) < m.m_naxis3 := by omega
    have hklen : k < m.m_image.length := by
      have := hwf.1
      omega
    have hsrc : m.m_image[k]? = some m.m_image[k] := List.getElem?_eq_getElem hklen
    have himg : image[k]? = some m.m_image[k] := by rw [hrest k (le_refl k), hsrc]
    obtain ⟨dest, e1, -, e3⟩ := rebinAccumulate_spec G m hwf hc factor k hk3
      (WcsMap2.rebinResize m.m_image[k] n1 n2) n2.toNat n1.toNat
      (rebinResize_dims _ n1 n2) hrows hcols
    refine ⟨image.set k dest, ?_, ?_, ?_, ?_⟩
    · unfold WcsMap2.rebinPlane
      simp only [bind, Except.bind, vecIdx_ok himg, e1, pure, Except.pure]
      rfl
    · simp [hlen]
    · intro k' hk'
      rw [List.getElem?_set_ne (by omega), hrest k' (by omega)]
    · intro k' hk'
      by_cases h : k' = k
      · subst h
        refine ⟨m.m_image[k'], dest, hsrc, ?_, e3⟩
        rw [List.getElem?_set_self (by omega)]
      · obtain ⟨src, d, a1, a2, a3⟩ := hdone k' (by omega)
        refine ⟨src, d, a1, ?_, a3⟩
        rw [List.getElem?_set_ne (fun h' => h h'.symm), a2]

/-- The source object handed to the final `computeMapIntegrals()` of `rebin`
has a usable solid-angle cache. -/
theorem rebinCached_cacheOk (G : SphereGeom F) (m : WcsMap2 F) (hc : m.CacheOk)
    (average : Bool) : (WcsMap2.rebinCached G m average).CacheOk := by
  unfold WcsMap2.rebinCached
  by_cases h : (average = true ∨ 0 < m.m_naxis3) ∧ 0 < m.m_naxis2 ∧ 0 < m.m_naxis1
  · rw [if_pos h]
    exact Or.inr (solidAngles_dims G m hc)
  · rw [if_neg h]
    exact hc

/-- The call `rebin(factor, average)` on a well-formed source with `factor >= 1`:
once the solid-angle sums `sa` are filled and the loop over the planes has
produced the image array `image`, the call returns the new map with that
image array. -/
theorem rebin_eq (G : SphereGeom F)
    (mkSkyProj : String → F × F → F × F → F × F → F → Bool → SkyProj F)
    (m : WcsMap2 F) (factor : Nat) (average : Bool) (hwf : m.WellFormed) (hc : m.CacheOk)
    (hf : 1 ≤ factor) (sa : List (List F)) (image : List (List (List F)))
    (h0 : WcsMap2.rebinSolidAngles G m factor (WcsMap2.rebinSize m.m_naxis1 factor)
        (WcsMap2.rebinSize m.m_naxis2 factor) average = .ok sa)
    (h1 : (List.range m.m_naxis3.toNat).foldlM
        (WcsMap2.rebinPlane G m factor (WcsMap2.rebinSize m.m_naxis1 factor)
          (WcsMap2.rebinSize m.m_naxis2 factor) sa average) m.m_image = .ok image) :
    ∃ this, m.rebin G mkSkyProj factor average
      = .ok (this, WcsMap2.rebinned mkSkyProj m factor image) := by
  have h3 := computeMapIntegrals_spec G (WcsMap2.rebinCached G m average) hwf
    (rebinCached_cacheOk G m hc average)
  unfold WcsMap2.rebin
  rw [if_neg (by omega : ¬ factor = 0)]
  simp only [WcsMap2.copy, bind, Except.bind, pure, Except.pure]
  rw [h0]
  simp only []
  rw [h1]
  simp only []
  rw [h3]
  exact ⟨_, rfl⟩

/-- The call `rebin(factor, average)` fails as soon as the loop over the planes
fails. -/
theorem rebin_error (G : SphereGeom F)
    (mkSkyProj : String → F × F → F × F → F × F → F → Bool → SkyProj F)
    (m : WcsMap2 F) (factor : Nat) (average : Bool)
    (hf : 1 ≤ factor) (sa : List (List F)) (e : Failure)
    (h0 : WcsMap2.rebinSolidAngles G m factor (WcsMap2.rebinSize m.m_naxis1 factor)
        (WcsMap2.rebinSize m.m_naxis2 factor) average = .ok sa)
    (h1 : (List.range m.m_naxis3.toNat).foldlM
        (WcsMap2.rebinPlane G m factor (WcsMap2.rebinSize m.m_naxis1 factor)
          (WcsMap2.rebinSize m.m_naxis2 factor) sa average) m.m_image = .error e) :
    m.rebin G mkSkyProj factor average = .error e := by
  unfold WcsMap2.rebin
  rw [if_neg (by omega : ¬ factor = 0)]
  simp only [WcsMap2.copy, bind, Except.bind, pure, Except.pure]
  rw [h0]
  simp only []
  rw [h1]

/-- Whenever `rebin` returns, the new map is the rebinned copy of the source
around some image array. -/
theorem rebin_result (G : SphereGeom F)
    (mkSkyProj : String → F × F → F × F → F × F → F → Bool → SkyProj F)
    (m : WcsMap2 F) (factor : Nat) (average : Bool) (this my_map : WcsMap2 F)
    (h : m.rebin G mkSkyProj factor average = .ok (this, my_map)) :
    ∃ image, my_map = WcsMap2.rebinned mkSkyProj m factor image := by
  unfold WcsMap2.rebin at h
  by_cases hf : factor = 0
  · rw [if_pos hf] at h
    cases h
  · rw [if_neg hf] at h
    simp only [bind, Except.bind, pure, Except.pure] at h
    split at h
    · cases h
    · split at h
      · cases h
      · split at h
        · cases h
        · injection h with h
          injection h with h1 h2
          exact ⟨_, h2.symm⟩

end RebinLoops

section RebinHeader

variable {F : Type} [LinearOrderedField F] [FloorRing F]

/-- The rebinned size is the quotient rounded up. -/
theorem rebinSize_eq_ceil (N : Int) (f : Nat) (hf : 1 ≤ f) :
    WcsMap2.rebinSize N f = ⌈(N : F) / (f : F)⌉ := by
  have hf0 : (0 : Int) < (f : Int) := by exact_mod_cast hf
  have hfF : (0 : F) < (f : F) := by exact_mod_cast hf
  have hr0 : 0 ≤ N % (f : Int) := Int.emod_nonneg N (ne_of_gt hf0)
  have hr1 : N % (f : Int) < (f : Int) := Int.emod_lt_of_pos N hf0
  have hdiv : (f : Int) * (N / (f : Int)) + N % (f : Int) = N := Int.ediv_add_emod N f
  have hN : (N : F) = (f : F) * ((N / (f : Int) : Int) : F) + ((N % (f : Int) : Int) : F) := by
    exact_mod_cast hdiv.symm
  symm
  rw [Int.ceil_eq_iff]
  unfold WcsMap2.rebinSize
  simp only []
  have hr0F : (0 : F) ≤ ((N % (f : Int) : Int) : F) := by exact_mod_cast hr0
  have hr1F : ((N % (f : Int) : Int) : F) < (f : F) := by exact_mod_cast hr1
  by_cases h : (f : Int) - N % (f : Int) = (f : Int)
  · rw [if_pos h]
    have hr : N % (f : Int) = 0 := by omega
    rw [add_zero]
    have hNq : (N : F) / (f : F) = ((N / (f : Int) : Int) : F) := by
      rw [hN, hr]
      field_simp
    rw [hNq]
    constructor
    · linarith
    · exact le_refl _
  · rw [if_neg h]
    have hrpos : 0 < N % (f : Int) := by omega
    have hrposF : (0 : F) < ((N % (f : Int) : Int) : F) := by exact_mod_cast hrpos
    have e : N + ((f : Int) - N % (f : Int)) = (f : Int) * (N / (f : Int) + 1) := by
      rw [mul_add, mul_one]
      omega
    rw [e, Int.mul_ediv_cancel_left _ (ne_of_gt hf0)]
    push_cast
    constructor
    · rw [lt_div_iff₀ hfF, hN]
      nlinarith
    · rw [div_le_iff₀ hfF, hN]
      nlinarith

end RebinHeader

section ConvolveLoops

variable {F : Type} [LinearOrderedField F]

omit [LinearOrderedField F] in
/-- The assignment `a.at(r).at(c) = v` inside the bounds. -/
theorem assignAt2_ok {a : List (List F)} {r c : Nat} {row : List F} (v : F)
    (hr : a[r]? = some row) (hc : c < row.length) :
    WcsMap2.assignAt2 a (r : Int) (c : Int) v = .ok (a.set r (row.set c v)) := by
  have h2 : row[c]? = some row[c] := List.getElem?_eq_getElem hc
  unfold WcsMap2.assignAt2
  simp only [bind, Except.bind, vecAt_ok hr, vecAt_ok h2, pure, Except.pure, Int.toNat_ofNat]

/-- The loops of `convolve` that fill an image: when the sizes are not
negative and the assigned value exists for every valid pixel, the result has
`rows` rows of `cols` entries, a valid pixel holds its assigned value and an
invalid pixel holds `0`. -/
theorem fillImage_spec (proj : SkyProj F) (rows cols : Int)
    (value : Nat → Nat → F × F → Except Failure F) (g : Nat → Nat → F)
    (hrows : 0 ≤ rows) (hcols : 0 ≤ cols)
    (hv : ∀ i j : Nat, i < cols.toNat → j < rows.toNat →
      proj.testpix2sph ((i : F) + 1) ((j : F) + 1) = 0 →
      value i j (proj.pix2sph ((i : F) + 1) ((j : F) + 1)) = .ok (g i j)) :
    ∃ image, WcsMap2.fillImage proj rows cols value = .ok image
      ∧ image.length = rows.toNat
      ∧ ∀ j : Nat, j < rows.toNat → ∃ row, image[j]? = some row ∧ row.length = cols.toNat
        ∧ ∀ i : Nat, i < cols.toNat →
          row[i]? = some (if proj.testpix2sph ((i : F) + 1) ((j : F) + 1) = 0 then g i j
            else 0) := by
  set R := rows.toNat with hR
  set C := cols.toNat with hC
  have inner : ∀ (j : Nat) (image0 : List (List F)), j < R → image0.length = R →
      image0[j]? = some (List.replicate C 0) →
      ∃ image, (List.range C).foldlM (fun image (i : Nat) =>
          if proj.testpix2sph ((i : F) + 1) ((j : F) + 1) = 0 then do
            let coord := proj.pix2sph ((i : F) + 1) ((j : F) + 1)
            let v ← value i j coord
            WcsMap2.assignAt2 image (j : Int) (i : Int) v
          else pure image) image0 = .ok image
        ∧ image.length = R
        ∧ (∀ j' : Nat, j' ≠ j → image[j']? = image0[j']?)
        ∧ ∃ row, image[j]? = some row ∧ row.length = C
          ∧ ∀ i : Nat, i < C →
            row[i]? = some (if proj.testpix2sph ((i : F) + 1) ((j : F) + 1) = 0 then g i j
              else 0) := by
    intro j image0 hj hlen0 hrow0
    have key := foldlM_range_invariant
      (fun image (i : Nat) =>
          if proj.testpix2sph ((i : F) + 1) ((j : F) + 1) = 0 then do
            let coord := proj.pix2sph ((i : F) + 1) ((j : F) + 1)
            let v ← value i j coord
            WcsMap2.assignAt2 image (j : Int) (i : Int) v
          else pure image)
      (fun n image => image.length = R
        ∧ (∀ j' : Nat, j' ≠ j → image[j']? = image0[j']?)
        ∧ ∃ row, image[j]? = some row ∧ row.length = C
          ∧ (∀ i : Nat, i < n →
            row[i]? = some (if proj.testpix2sph ((i : F) + 1) ((j : F) + 1) = 0 then g i j
              else 0))
          ∧ ∀ i : Nat, n ≤ i → i < C → row[i]? = some 0)
      C image0
      ⟨hlen0, fun _ _ => rfl, List.replicate C 0, hrow0, List.length_replicate _ _,
        fun i hi => absurd hi (Nat.not_lt_zero i),
        fun i _ hi => by
          rw [List.getElem?_eq_getElem (by simpa using hi)]
          simp⟩
      ?_
    · obtain ⟨image, h1, h2, h3, row, h4, h5, h6, -⟩ := key
      exact ⟨image, h1, h2, h3, row, h4, h5, h6⟩
    · intro i image hi ⟨hlen, hother, row, hrow, hrl, hdone, hrest⟩
      dsimp only
      by_cases ht : proj.testpix2sph ((i : F) + 1) ((j : F) + 1) = 0
      · rw [if_pos ht]
        simp only [bind, Except.bind, hv i j hi hj ht]
        rw [assignAt2_ok (g i j) hrow (by omega)]
        refine ⟨_, rfl, by simp [hlen], ?_, row.set i (g i j), ?_, by simp [hrl], ?_, ?_⟩
        · intro j' hj'
          rw [List.getElem?_set_ne (fun h => hj' h.symm), hother j' hj']
        · rw [List.getElem?_set_self (by omega)]
        · intro i' hi'
          by_cases h : i' = i
          · subst h
            rw [List.getElem?_set_self (by omega), if_pos ht]
          · rw [List.getElem?_set_ne (fun h' => h h'.symm)]
            exact hdone i' (by omega)
        · intro i' h1 h2
          rw [List.getElem?_set_ne (by omega)]
          exact hrest i' (by omega) h2
      · rw [if_neg ht]
        refine ⟨image, rfl, hlen, hother, row, hrow, hrl, ?_, ?_⟩
        · intro i' hi'
          by_cases h : i' = i
          · subst h
            rw [if_neg ht]
            exact hrest i' (le_refl _) hi
          · exact hdone i' (by omega)
        · intro i' h1 h2
          exact hrest i' (by omega) h2
  have key := foldlM_range_invariant
    (fun image (j : Nat) => do
      let row ← vecAt image (j : Int)
      let row ← WcsMap2.resizeInt row cols 0
      let image := image.set j row
      (List.range cols.toNat).foldlM (fun image (i : Nat) =>
        if proj.testpix2sph ((i : F) + 1) ((j : F) + 1) = 0 then do
          let coord := proj.pix2sph ((i : F) + 1) ((j : F) + 1)
          let v ← value i j coord
          WcsMap2.assignAt2 image (j : Int) (i : Int) v
        else pure image) image)
    (fun n image => image.length = R
      ∧ (∀ j : Nat, j < n → ∃ row, image[j]? = some row ∧ row.length = C
        ∧ ∀ i : Nat, i < C →
          row[i]? = some (if proj.testpix2sph ((i : F) + 1) ((j : F) + 1) = 0 then g i j
            else 0))
      ∧ ∀ j : Nat, n ≤ j → j < R → image[j]? = some [])
    R (List.replicate R [])
    ⟨List.length_replicate _ _, fun j hj => absurd hj (Nat.not_lt_zero j),
      fun j _ hj => by
        rw [List.getElem?_eq_getElem (by simpa using hj)]
        simp⟩
    ?_
  · obtain ⟨image, h1, h2, h3, -⟩ := key
    refine ⟨image, ?_, h2, h3⟩
    unfold WcsMap2.fillImage WcsMap2.resizeInt
    rw [if_neg (by omega)]
    simp only [bind, Except.bind, WcsMap2.vecResize, List.take_nil, List.nil_append,
      List.length_nil, Nat.sub_zero]
    exact h1
  · intro j image hj ⟨hlen, hdone, hrest⟩
    dsimp only
    have hrow : image[j]? = some [] := hrest j (le_refl _) hj
    simp only [bind, Except.bind, vecAt_ok hrow, WcsMap2.resizeInt]
    rw [if_neg (by omega)]
    simp only [WcsMap2.vecResize, List.take_nil, List.nil_append, List.length_nil, Nat.sub_zero]
    obtain ⟨image', e1, e2, e3, row, e4, e5, e6⟩ := inner j (image.set j (List.replicate C 0)) hj
      (by simp [hlen]) (by rw [List.getElem?_set_self (by omega)])
    refine ⟨image', e1, e2, ?_, ?_⟩
    · intro j' hj'
      by_cases h : j' = j
      · subst h
        exact ⟨row, e4, e5, e6⟩
      · rw [e3 j' h, List.getElem?_set_ne (fun h' => h h'.symm)]
        exact hdone j' (by omega)
    · intro j' h1 h2
      rw [e3 j' (by omega), List.getElem?_set_ne (by omega)]
      exact hrest j' (by omega) h2

end ConvolveLoops

section EventLookup

variable {F : Type} [LinearOrderedField F] [FloorRing F]

/-- The member `diffuseResponse` with energy dispersion on an event whose
true-energy grid has `n >= 1` points `estep * i + emin`. -/
theorem diffuseResponse_edisp (ev : Event F) (n : Nat) (estep emin : F) (hn : 0 < n)
    (hg : ev.m_trueEnergies = (List.range n).map fun (i : Nat) => estep * (i : F) + emin)
    (hs : ev.m_estep = some estep) (hst : estep ≠ 0) (trueEnergy : F) (name : String) :
    ev.diffuseResponse true trueEnergy name =
      (if castInt ((trueEnergy - emin) / estep) < 0
          ∨ castInt ((trueEnergy - emin) / estep) ≥ (n : Int) then .ok 0
      else
        match ev.m_respDiffuseSrcs.lookup (Event.toLower name) with
        | some resp => do
          let ei ← vecIdx ev.m_trueEnergies (castInt ((trueEnergy - emin) / estep))
          let ei1 ← vecIdx ev.m_trueEnergies (castInt ((trueEnergy - emin) / estep) + 1)
          let r1 ← vecIdx resp (castInt ((trueEnergy - emin) / estep) + 1)
          let r0 ← vecIdx resp (castInt ((trueEnergy - emin) / estep))
          pure ((trueEnergy - ei) / (ei1 - ei) * (r1 - r0) + r0)
        | none => .error .noDiffuseResponse) := by
  have h0 : ev.m_trueEnergies[0]? = some emin := by
    rw [hg, getElem?_map_range _ hn]
    simp
  have hlen : ev.m_trueEnergies.length = n := by rw [hg]; simp
  have hv : vecIdx ev.m_trueEnergies 0 = .ok emin := vecIdx_ok (i := 0) h0
  unfold Event.diffuseResponse
  simp only [hs, hv, hlen, if_true, bind, Except.bind, if_neg hst, pure, Except.pure, true_and]


omit [FloorRing F] in
/-- The true-energy grid and the step of an event constructed with energy
dispersion. -/
theorem construct_edisp (E : EventEnv F) (ra dec energy time sc_ra sc_dec muZenith : F)
    (type : Int) :
    (Event.construct true E ra dec energy time sc_ra sc_dec muZenith type).m_trueEnergies
      = (List.range 100).map (fun (i : Nat) => energy / 110 * (i : F) + 11 / 20 * energy)
    ∧ (Event.construct true E ra dec energy time sc_ra sc_dec muZenith type).m_estep
      = some (energy / 110) := by
  have e : (1.45 * energy - 0.55 * energy) / (((100 : Nat) : F) - 1) = energy / 110 := by
    norm_num
    ring
  have e2 : (0.55 : F) = 11 / 20 := by norm_num
  unfold Event.construct
  simp only [if_true]
  rw [e, e2]
  exact ⟨rfl, rfl⟩

/-- With energy dispersion, at a grid point that is not the last one the
lookup returns the stored value of that point. -/
theorem diffuseResponse_interior (ev : Event F) (n : Nat) (estep emin : F)
    (hg : ev.m_trueEnergies = (List.range n).map fun (i : Nat) => estep * (i : F) + emin)
    (hs : ev.m_estep = some estep) (hst : estep ≠ 0) (name : String) (resp : List F)
    (hl : ev.m_respDiffuseSrcs.lookup (Event.toLower name) = some resp)
    (i : Nat) (hi : i + 1 < n) (r0 r1 : F) (h0 : resp[i]? = some r0)
    (h1 : resp[i + 1]? = some r1) :
    ev.diffuseResponse true (estep * (i : F) + emin) name = .ok r0 := by
  rw [diffuseResponse_edisp ev n estep emin (by omega) hg hs hst]
  have hq : (estep * (i : F) + emin - emin) / estep = ((i : Int) : F) := by
    field_simp
  rw [hq, castInt_intCast]
  rw [if_neg (by omega), hl]
  have g0 : ev.m_trueEnergies[i]? = some (estep * (i : F) + emin) := by
    rw [hg, getElem?_map_range _ (by omega)]
  have g1 : ev.m_trueEnergies[i + 1]? = some (estep * ((i + 1 : Nat) : F) + emin) := by
    rw [hg, getElem?_map_range _ hi]
  have c : ((i : Int) + 1) = ((i + 1 : Nat) : Int) := by push_cast; rfl
  simp only [c, bind, Except.bind, vecIdx_ok g0, vecIdx_ok g1, vecIdx_ok h0, vecIdx_ok h1,
    pure, Except.pure, sub_self, zero_div, zero_mul, zero_add]

/-- With energy dispersion, at the last grid point the lookup of a cached
component reads the element behind the end of the grid. -/
theorem diffuseResponse_last (ev : Event F) (n : Nat) (estep emin : F)
    (hg : ev.m_trueEnergies = (List.range n).map fun (i : Nat) => estep * (i : F) + emin)
    (hs : ev.m_estep = some estep) (hst : estep ≠ 0) (name : String) (resp : List F)
    (hl : ev.m_respDiffuseSrcs.lookup (Event.toLower name) = some resp)
    (i : Nat) (hi : i + 1 = n) :
    ev.diffuseResponse true (estep * (i : F) + emin) name = .error .undefinedBehaviour := by
  rw [diffuseResponse_edisp ev n estep emin (by omega) hg hs hst]
  have hq : (estep * (i : F) + emin - emin) / estep = ((i : Int) : F) := by
    field_simp
  rw [hq, castInt_intCast]
  rw [if_neg (by omega), hl]
  have g0 : ev.m_trueEnergies[i]? = some (estep * (i : F) + emin) := by
    rw [hg, getElem?_map_range _ (by omega)]
  have g1 : ev.m_trueEnergies[i + 1]? = none := by
    rw [hg, getElem?_map_range_none _ (by omega)]
  have c : ((i : Int) + 1) = ((i + 1 : Nat) : Int) := by push_cast; rfl
  simp only [c, bind, Except.bind, vecIdx_ok g0, vecIdx_none g1]

/-- The true-energy grid of `edispEvent`: `i + 121/2` for `i < 100`, with step `1`. -/
theorem edispEvent_grid (table : List (String × List ℚ)) :
    (edispEvent table).m_trueEnergies
      = (List.range 100).map (fun (i : Nat) => 1 * (i : ℚ) + 121 / 2)
    ∧ (edispEvent table).m_estep = some 1 := by
  obtain ⟨h1, h2⟩ := construct_edisp (demoEventEnv : EventEnv ℚ) 0 0 110 0 0 0 1 0
  constructor
  · show (Event.construct true demoEventEnv 0 0 110 0 0 0 1 0).m_trueEnergies = _
    rw [h1]
    norm_num
  · show (Event.construct true demoEventEnv 0 0 110 0 0 0 1 0).m_estep = _
    rw [h2]
    norm_num

end EventLookup

section EventTable

/-- Lower-casing a character twice is lower-casing it once. -/
theorem toLower_toLower (c : Char) : c.toLower.toLower = c.toLower := by
  by_cases h : c.toNat ≥ 65 ∧ c.toNat ≤ 90
  · have hc : c = Char.ofNat c.toNat := (Char.ofNat_toNat c).symm
    obtain ⟨h1, h2⟩ := h
    generalize c.toNat = n at hc h1 h2
    subst hc
    interval_cases n <;> decide
  · have : c.toLower = c := by
      unfold Char.toLower
      simp only []
      rw [if_neg h]
    rw [this, this]

/-- Lists of characters that agree up to letter case have the same image
under `Char.toLower`. -/
theorem map_toLower_eq {l1 l2 : List Char}
    (h : List.Forall₂ (fun a b : Char =>
      a = b ∨ (a.isUpper = true ∧ b = a.toLower) ∨ (b.isUpper = true ∧ a = b.toLower)) l1 l2) :
    l1.map Char.toLower = l2.map Char.toLower := by
  induction h with
  | nil => rfl
  | cons hab _ ih =>
    rw [List.map_cons, List.map_cons, ih]
    congr 1
    rcases hab with h | ⟨_, h⟩ | ⟨_, h⟩
    · rw [h]
    · rw [h, toLower_toLower]
    · rw [h, toLower_toLower]

/-- Names that differ at most in letter case have the same lower-case form. -/
theorem toLower_eq_of_sameUpToCase {n1 n2 : String} (h : sameUpToCase n1 n2) :
    Event.toLower n1 = Event.toLower n2 := by
  unfold Event.toLower
  rw [map_toLower_eq h]

section ResponseKeys

variable {F : Type}

/-- An update of the values that keeps every key does not change which keys
are present. -/
theorem lookup_map_isSome (g : String × List F → String × List F) (hg : ∀ e, (g e).1 = e.1)
    (name : String) : ∀ t : List (String × List F),
    ((t.map g).lookup name).isSome = (t.lookup name).isSome
  | [] => rfl
  | e :: t => by
    have ih := lookup_map_isSome g hg name t
    obtain ⟨k, v⟩ := e
    have hk : (g (k, v)).1 = k := hg (k, v)
    rw [List.map_cons]
    rcases hge : g (k, v) with ⟨k', v'⟩
    rw [hge] at hk
    simp only at hk
    subst hk
    simp only [List.lookup_cons]
    cases name == k' <;> simp [ih]

/-- The keys after appending an entry. -/
theorem lookup_append_isSome (name key : String) (v : List F) :
    ∀ t : List (String × List F),
    ((t ++ [(key, v)]).lookup name).isSome = true
      ↔ (t.lookup name).isSome = true ∨ name = key
  | [] => by
    simp only [List.nil_append, List.lookup_cons, List.lookup_nil]
    by_cases h : name = key
    · simp [h]
    · have : (name == key) = false := by simpa using h
      simp [this, h]
  | e :: t => by
    have ih := lookup_append_isSome name key v t
    obtain ⟨k, w⟩ := e
    simp only [List.cons_append, List.lookup_cons]
    cases name == k
    · simpa using ih
    · simp

/-- The keys of the response table after `table[name].push_back(v)`. -/
theorem respPushBack_isSome (t : List (String × List F)) (key : String) (v : F)
    (name : String) :
    ((Event.respPushBack t key v).lookup name).isSome = true
      ↔ (t.lookup name).isSome = true ∨ name = key := by
  unfold Event.respPushBack
  cases h : t.lookup key with
  | none =>
    simp only []
    exact lookup_append_isSome name key [v] t
  | some r =>
    simp only []
    rw [lookup_map_isSome _ (fun e => by by_cases he : e.1 = key <;> simp [he])]
    constructor
    · exact Or.inl
    · rintro (h1 | h1)
      · exact h1
      · rw [h1, h]
        rfl

/-- The keys of the response table after the storing loop of
`computeResponse`. -/
theorem storeResponses_isSome (E : EventEnv F) (sr : SourceRegionData F) (name : String) :
    ∀ (srcs : List (DiffuseSource F)) (mus : List (List F)) (t : List (String × List F)),
    mus.length = srcs.length →
    (((Event.storeResponses E sr srcs mus t).lookup name).isSome = true
      ↔ (t.lookup name).isSome = true ∨ ∃ src ∈ srcs, name = Event.toLower src.getName)
  | [], mus, t, _ => by
    simp [Event.storeResponses]
  | src :: srcs, [], t, h => by
    simp at h
  | src :: srcs, mu :: mus, t, h => by
    have ih := storeResponses_isSome E sr name srcs mus
      (Event.respPushBack t (Event.toLower src.getName) (E.trapQuad sr.s_mu mu))
      (by simpa using h)
    have e : Event.storeResponses E sr (src :: srcs) (mu :: mus) t
        = Event.storeResponses E sr srcs mus
          (Event.respPushBack t (Event.toLower src.getName) (E.trapQuad sr.s_mu mu)) := rfl
    rw [e, ih, respPushBack_isSome]
    simp only [List.mem_cons, exists_eq_or_imp]
    tauto

end ResponseKeys

section ResponseLoops

variable {F : Type} [LinearOrderedField F]

/-- A loop over a list that keeps `P` and establishes `Q` in every pass
succeeds, keeps `P`, and ends with `Q` when it has run at least once or
started with `Q`. -/
theorem foldlM_list_invariant {σ α : Type} (f : σ → α → Except Failure σ)
    (P Q : σ → Prop)
    (hstep : ∀ s a, P s → ∃ s', f s a = .ok s' ∧ P s' ∧ Q s') :
    ∀ (l : List α) (s0 : σ), P s0 →
      ∃ s', l.foldlM f s0 = .ok s' ∧ P s' ∧ ((Q s0 ∨ l ≠ []) → Q s')
  | [], s0, h0 => ⟨s0, rfl, h0, fun h => h.elim id (fun h => absurd rfl h)⟩
  | a :: l, s0, h0 => by
    obtain ⟨s1, e1, p1, q1⟩ := hstep s0 a h0
    obtain ⟨s', e2, p2, q2⟩ := foldlM_list_invariant f P Q hstep l s1 p1
    refine ⟨s', ?_, p2, fun _ => q2 (Or.inl q1)⟩
    rw [List.foldlM_cons]
    simp only [bind, Except.bind, e1]
    exact e2

/-- The vector `srcDirs` holds one direction for every pair of the grid. -/
theorem srcDirs_length (E : EventEnv F) (sr : SourceRegionData F)
    (eqRot : SkyDir F → SkyDir F) :
    (Event.srcDirs E sr eqRot).length = sr.s_mu.length * sr.s_phi.length := by
  have inner : ∀ (mu : F) (phis : List F) (dirs : List (SkyDir F)),
      (phis.foldl (fun dirs phi => dirs ++ [Event.getCelestialDir E phi mu eqRot]) dirs).length
        = dirs.length + phis.length := by
    intro mu phis
    induction phis with
    | nil => intro dirs; rfl
    | cons p ps ih =>
      intro dirs
      rw [List.foldl_cons, ih]
      simp only [List.length_append, List.length_cons, List.length_nil]
      omega
  have outer : ∀ (mus : List F) (dirs : List (SkyDir F)),
      (mus.foldl (fun dirs mu =>
        sr.s_phi.foldl (fun dirs phi => dirs ++ [Event.getCelestialDir E phi mu eqRot]) dirs)
        dirs).length = dirs.length + mus.length * sr.s_phi.length := by
    intro mus
    induction mus with
    | nil => intro dirs; simp
    | cons m ms ih =>
      intro dirs
      rw [List.foldl_cons, ih, inner]
      simp only [List.length_cons]
      ring
  unfold Event.srcDirs
  rw [outer]
  simp

/-- The loop over `j` in `computeResponse` succeeds and yields one vector per
new source. -/
theorem phiIntegrands_ok (E : EventEnv F) (ev : Event F) (sr : SourceRegionData F)
    (srcs : List (DiffuseSource F)) (srcDirs : List (SkyDir F)) (trueEnergy : F) (i : Nat)
    (hd : srcDirs.length = sr.s_mu.length * sr.s_phi.length) (hi : i < sr.s_mu.length) :
    ∃ r, Event.phiIntegrands E ev sr srcs srcDirs trueEnergy i = .ok r
      ∧ r.length = srcs.length := by
  have key := foldlM_range_invariant
    (fun (phi_integrands : List (List F)) (j : Nat) => do
      let indx : Int := (i : Int) * (sr.s_phi.length : Int) + (j : Int)
      let srcDir ← vecIdx srcDirs indx
      let inc : F := E.difference ev.m_scDir srcDir * 180 / E.pi
      if inc < E.incMax then
        let totalResp : F :=
          E.totalResponse ev.m_arrTime trueEnergy ev.m_energy srcDir ev.m_appDir ev.m_type
        pure (List.zipWith (fun col (src : DiffuseSource F) =>
          col ++ [totalResp * src.spatialDist srcDir]) phi_integrands srcs)
      else
        pure (List.zipWith (fun col (_ : DiffuseSource F) => col ++ [0]) phi_integrands srcs))
    (fun _ r => r.length = srcs.length)
    sr.s_phi.length (List.replicate srcs.length []) (List.length_replicate _ _) ?_
  · exact key
  · intro j r hj hr
    dsimp only
    have hlt : i * sr.s_phi.length + j < srcDirs.length := by
      rw [hd]
      calc i * sr.s_phi.length + j < i * sr.s_phi.length + sr.s_phi.length := by omega
        _ = (i + 1) * sr.s_phi.length := by ring
        _ ≤ sr.s_mu.length * sr.s_phi.length := Nat.mul_le_mul_right _ hi
    have hget : srcDirs[i * sr.s_phi.length + j]? = some srcDirs[i * sr.s_phi.length + j] :=
      List.getElem?_eq_getElem hlt
    have hcast : (i : Int) * (sr.s_phi.length : Int) + (j : Int)
        = ((i * sr.s_phi.length + j : Nat) : Int) := by push_cast; rfl
    rw [hcast, vecIdx_ok hget]
    simp only [bind, Except.bind, pure, Except.pure]
    split <;> exact ⟨_, rfl, by simp [hr]⟩

/-- The loop over `i` in `computeResponse` succeeds and yields one vector per
new source. -/
theorem muIntegrands_ok (E : EventEnv F) (ev : Event F) (sr : SourceRegionData F)
    (srcs : List (DiffuseSource F)) (srcDirs : List (SkyDir F)) (trueEnergy : F)
    (hd : srcDirs.length = sr.s_mu.length * sr.s_phi.length) :
    ∃ r, Event.muIntegrands E ev sr srcs srcDirs trueEnergy = .ok r
      ∧ r.length = srcs.length := by
  have key := foldlM_range_invariant
    (fun (mu_integrands : List (List F)) (i : Nat) => do
      let phi_integrands ← Event.phiIntegrands E ev sr srcs srcDirs trueEnergy i
      pure (List.zipWith (fun col phis => col ++ [E.trapQuad sr.s_phi phis])
        mu_integrands phi_integrands))
    (fun _ r => r.length = srcs.length)
    sr.s_mu.length (List.replicate srcs.length []) (List.length_replicate _ _) ?_
  · exact key
  · intro i r hi hr
    dsimp only
    obtain ⟨p, e1, e2⟩ := phiIntegrands_ok E ev sr srcs srcDirs trueEnergy i hd hi
    simp only [bind, Except.bind, e1, pure, Except.pure]
    exact ⟨_, rfl, by simp [hr, e2]⟩

/-- The member `computeResponse` succeeds; afterwards the keys of the
response table are the keys it had before together with the lower-cased names
of the new sources (the latter provided the true-energy grid is not empty). -/
theorem computeResponse_keys (E : EventEnv F) (nmu nphi : Int) (ev : Event F)
    (sr : SourceRegionData F) (srcList : List (DiffuseSource F)) (sr_radius : F) :
    ∃ ev' sr', Event.computeResponse E nmu nphi ev sr srcList sr_radius = .ok (ev', sr')
      ∧ (∀ name : String, (ev'.m_respDiffuseSrcs.lookup name).isSome = true →
          (ev.m_respDiffuseSrcs.lookup name).isSome = true
          ∨ ∃ src ∈ srcList, name = Event.toLower src.getName)
      ∧ (∀ name : String, (ev.m_respDiffuseSrcs.lookup name).isSome = true →
          (ev'.m_respDiffuseSrcs.lookup name).isSome = true)
      ∧ (ev.m_trueEnergies ≠ [] → ∀ src ∈ srcList,
          (ev'.m_respDiffuseSrcs.lookup (Event.toLower src.getName)).isSome = true) := by
  have hnew : ∀ src ∈ srcList, src ∈ ev.getNewDiffuseSrcs srcList
      ∨ (ev.m_respDiffuseSrcs.lookup (Event.toLower src.getName)).isSome = true := by
    intro src hsrc
    by_cases h : (ev.m_respDiffuseSrcs.lookup (Event.toLower src.getName)).isSome = true
    · exact Or.inr h
    · refine Or.inl ?_
      unfold Event.getNewDiffuseSrcs
      rw [List.mem_filter]
      exact ⟨hsrc, by rw [Bool.eq_false_iff.mpr h]; rfl⟩
  have hsub : ∀ src ∈ ev.getNewDiffuseSrcs srcList, src ∈ srcList := by
    intro src hsrc
    unfold Event.getNewDiffuseSrcs at hsrc
    exact (List.mem_filter.mp hsrc).1
  unfold Event.computeResponse
  by_cases h0 : (ev.getNewDiffuseSrcs srcList).length = 0
  · simp only [h0, if_true]
    refine ⟨ev, sr, rfl, fun _ h => Or.inl h, fun _ h => h, ?_⟩
    intro _ src hsrc
    rcases hnew src hsrc with h | h
    · rw [List.length_eq_zero] at h0
      rw [h0] at h
      cases h
    · exact h
  · simp only [if_neg h0]
    set sr' : SourceRegionData F :=
      (if sr.s_haveSourceRegionData = false then Event.prepareSrData E sr sr_radius nmu nphi
        else sr) with hsr'
    set srcs := ev.getNewDiffuseSrcs srcList with hsrcs
    set dirs := Event.srcDirs E sr' (E.equinoxRotation ev.m_appDir.ra ev.m_appDir.dec) with hdirs
    have hd : dirs.length = sr'.s_mu.length * sr'.s_phi.length := srcDirs_length E sr' _
    obtain ⟨table, e1, ⟨p1, p2⟩, q⟩ := foldlM_list_invariant
      (fun table trueEnergy => do
        let mu_integrands ← Event.muIntegrands E ev sr' srcs dirs trueEnergy
        pure (Event.storeResponses E sr' srcs mu_integrands table))
      (fun t => (∀ name : String, (t.lookup name).isSome = true →
          (ev.m_respDiffuseSrcs.lookup name).isSome = true
          ∨ ∃ src ∈ srcs, name = Event.toLower src.getName)
        ∧ ∀ name : String, (ev.m_respDiffuseSrcs.lookup name).isSome = true →
          (t.lookup name).isSome = true)
      (fun t => ∀ src ∈ srcs, (t.lookup (Event.toLower src.getName)).isSome = true)
      (by
        intro t trueEnergy ⟨a1, a2⟩
        obtain ⟨mus, m1, m2⟩ := muIntegrands_ok E ev sr' srcs dirs trueEnergy hd
        refine ⟨Event.storeResponses E sr' srcs mus t, ?_, ⟨?_, ?_⟩, ?_⟩
        · simp only [bind, Except.bind, m1, pure, Except.pure]
        · intro name hname
          rcases (storeResponses_isSome E sr' name srcs mus t m2).mp hname with h | h
          · exact a1 name h
          · exact Or.inr h
        · intro name hname
          exact (storeResponses_isSome E sr' name srcs mus t m2).mpr (Or.inl (a2 name hname))
        · intro src hsrc
          exact (storeResponses_isSome E sr' _ srcs mus t m2).mpr (Or.inr ⟨src, hsrc, rfl⟩))
      ev.m_trueEnergies ev.m_respDiffuseSrcs ⟨fun _ h => Or.inl h, fun _ h => h⟩
    refine ⟨{ ev with m_respDiffuseSrcs := table }, sr', ?_, ?_, p2, ?_⟩
    · simp only [bind, Except.bind, pure, Except.pure] at e1 ⊢
      rw [e1]
    · intro name hname
      rcases p1 name hname with h | ⟨src, h1, h2⟩
      · exact Or.inl h
      · exact Or.inr ⟨src, hsub src h1, h2⟩
    · intro hne src hsrc
      rcases hnew src hsrc with h | h
      · exact q (Or.inr hne) src h
      · exact p2 _ h

end ResponseLoops


end EventTable

section FileConstruction

variable {F : Type} [LinearOrderedField F]

/-- Whenever `computeMapIntegrals` returns, the object differs from the one
before the call in the solid-angle cache and the two integrals at most. -/
theorem computeMapIntegrals_result (G : SphereGeom F) (m r : WcsMap2 F)
    (h : m.computeMapIntegrals G = .ok r) :
    ∃ c a b, r = { m with m_solidAngles := c, m_mapIntegral := a, m_mapIntegrals := b } := by
  unfold WcsMap2.computeMapIntegrals at h
  simp only [bind, Except.bind, pure, Except.pure] at h
  split at h
  · cases h
  · injection h with h
    exact ⟨_, _, _, h.symm⟩

/-- On a well-formed image `computeMapIntegrals` returns a well-formed image
with a usable solid-angle cache, the members of the image before the call and
the plane integrals of that image. -/
theorem computeMapIntegrals_shape (G : SphereGeom F) (m : WcsMap2 F) (hwf : m.WellFormed)
    (hc : m.CacheOk) :
    ∃ r, m.computeMapIntegrals G = .ok r ∧ r.WellFormed ∧ r.CacheOk
      ∧ r.m_image = m.m_image ∧ r.m_energies = m.m_energies ∧ r.m_naxes = m.m_naxes
      ∧ r.m_naxis1 = m.m_naxis1 ∧ r.m_naxis2 = m.m_naxis2 ∧ r.m_naxis3 = m.m_naxis3
      ∧ r.m_isPeriodic = m.m_isPeriodic
      ∧ r.m_mapIntegrals = (List.range m.m_naxis3.toNat).map (m.planeFlux G)
      ∧ r.m_solidAngles = (if 0 < m.m_naxis3 ∧ 0 < m.m_naxis2 ∧ 0 < m.m_naxis1 then
          m.solidAngles G else m.m_solidAngles) := by
  refine ⟨_, computeMapIntegrals_spec G m hwf hc, hwf, ?_, rfl, rfl, rfl, rfl, rfl, rfl, rfl,
    rfl, rfl⟩
  show (if 0 < m.m_naxis3 ∧ 0 < m.m_naxis2 ∧ 0 < m.m_naxis1 then m.solidAngles G
      else m.m_solidAngles) = [] ∨ WcsMap2.Dims (if 0 < m.m_naxis3 ∧ 0 < m.m_naxis2 ∧ 0 < m.m_naxis1
        then m.solidAngles G else m.m_solidAngles) m.m_naxis1.toNat m.m_naxis2.toNat
  by_cases h : 0 < m.m_naxis3 ∧ 0 < m.m_naxis2 ∧ 0 < m.m_naxis1
  · rw [if_pos h]
    exact Or.inr (solidAngles_dims G m hc)
  · rw [if_neg h]
    exact hc

variable [FloorRing F]

/-- Whenever the file constructor returns, the image has the `NAXIS1` and
`CDELT1` of the header and its periodic flag is the outcome of the test
`my_round(m_naxis1*m_cdelt1) == 360.`. -/
theorem fromFile_isPeriodic (G : SphereGeom F) (mkSkyDir : F → F → CoordSystem → SkyDir F)
    (file : ImageFile F) (interpolate : Bool) (m : WcsMap2 F)
    (h : WcsMap2.fromFile G mkSkyDir file interpolate = .ok m) :
    m.m_naxis1 = file.NAXIS1 ∧ m.m_cdelt1 = file.CDELT1
      ∧ (m.m_isPeriodic = true ↔ my_round ((file.NAXIS1 : F) * file.CDELT1) = 360) := by
  have key : ∀ (energies : List F) (image : List (List (List F))),
      (WcsMap2.fromFileMembers mkSkyDir file interpolate energies image).computeMapIntegrals G
        = .ok m →
      m.m_naxis1 = file.NAXIS1 ∧ m.m_cdelt1 = file.CDELT1
        ∧ (m.m_isPeriodic = true ↔ my_round ((file.NAXIS1 : F) * file.CDELT1) = 360) := by
    intro energies image hS
    obtain ⟨c, a, b, rfl⟩ := computeMapIntegrals_result G _ m hS
    refine ⟨rfl, rfl, ?_⟩
    show (if my_round ((file.NAXIS1 : F) * file.CDELT1) = 360 then true else false) = true ↔ _
    by_cases hp : my_round ((file.NAXIS1 : F) * file.CDELT1) = 360
    · simp [hp]
    · simp [hp]
  unfold WcsMap2.fromFile at h
  simp only [bind, Except.bind, pure, Except.pure] at h
  split_ifs at h <;> first
    | cases h
    | (split at h <;> first
        | cases h
        | exact key _ _ h)

/-- On a three-axis image with the two tabulated energies `e0 < e1`,
`mapIntegral` at a tabulated energy is the checked access to the cached plane
integral of that plane. -/
theorem mapIntegral_two_planes {F : Type} [LinearOrderedField F] [FloorRing F]
    (log exp : F → F) (m : WcsMap2 F) (e0 e1 : F) (he : m.m_energies = [e0, e1])
    (hlt : e0 < e1) (hn : m.m_naxes = 3) :
    m.mapIntegral log exp e0 = vecAt m.m_mapIntegrals 0
      ∧ m.mapIntegral log exp e1 = vecAt m.m_mapIntegrals 1 := by
  have hf : vecFront [e0, e1] = .ok e0 := rfl
  have hb : vecBack [e0, e1] = .ok e1 := rfl
  have u0 : WcsMap2.upper_bound [e0, e1] e0 = 1 := by
    simp [WcsMap2.upper_bound, List.findIdx_cons, hlt]
  have u1 : WcsMap2.upper_bound [e0, e1] e1 = 2 := by
    simp [WcsMap2.upper_bound, List.findIdx_cons, not_lt.mpr (le_of_lt hlt)]
  have g0 : vecAt [e0, e1] ((1 : Int) - 1) = .ok e0 := rfl
  have g1 : vecAt [e0, e1] ((2 : Int) - 1) = .ok e1 := rfl
  constructor
  · unfold WcsMap2.mapIntegral
    rw [he, hn]
    simp only [bind, Except.bind, hf, hb, if_true, u0, g0]
    rw [if_neg (by
      rintro (h | h)
      · exact lt_irrefl _ h
      · exact lt_asymm hlt h)]
    simp
  · unfold WcsMap2.mapIntegral
    rw [he, hn]
    simp only [bind, Except.bind, hf, hb, if_true, u1, g1]
    rw [if_neg (by
      rintro (h | h)
      · exact lt_asymm hlt h
      · exact lt_irrefl _ h)]
    simp

end FileConstruction

section ConvolveResults

variable {F : Type} [LinearOrderedField F]

/-- The call `convolve(energy, psf, exposure, false, k)` on a well-formed image
with a valid plane index returns the copy of the source that holds the one
plane `counts`. -/
theorem convolve_false_ok (E : ConvolveEnv F) (m : WcsMap2 F) (energy : F) (k : Nat)
    (hwf : m.WellFormed) (hk : (k : Int) < m.m_naxis3) (h1 : 0 ≤ m.m_naxis1) :
    ∃ counts, m.convolve E energy false (k : Int)
      = .ok { m.copy with m_image := [counts], m_naxis3 := 1 } := by
  have h2 : 0 ≤ m.m_naxis2 := by
    obtain ⟨h3, hrest⟩ := hwf
    have hk' : k < m.m_image.length := by omega
    have := (hrest _ (List.getElem_mem hk')).1
    omega
  obtain ⟨counts, e1, -, -⟩ := fillImage_spec m.m_proj m.m_naxis2 m.m_naxis1
    (WcsMap2.countsValue E m energy (k : Int))
    (fun i j => (m.imageAt k j i).getD 0 * E.exposure energy
      (E.mkSkyDir (m.m_proj.pix2sph ((i : F) + 1) ((j : F) + 1)).1
        (m.m_proj.pix2sph ((i : F) + 1) ((j : F) + 1)).2 m.m_coordSys).ra
      (E.mkSkyDir (m.m_proj.pix2sph ((i : F) + 1) ((j : F) + 1)).1
        (m.m_proj.pix2sph ((i : F) + 1) ((j : F) + 1)).2 m.m_coordSys).dec)
    h2 h1
    (by
      intro i j hi hj _
      obtain ⟨plane, row, v, a1, a2, a3, a4⟩ :=
        imageAt_of_wellFormed hwf hk (by omega : (j : Int) < m.m_naxis2)
          (by omega : (i : Int) < m.m_naxis1)
      unfold WcsMap2.countsValue
      simp only [bind, Except.bind, vecIdx_ok a1, vecAt_ok a2, vecAt_ok a3, a4, pure,
        Except.pure, Option.getD_some])
  refine ⟨counts, ?_⟩
  unfold WcsMap2.convolve WcsMap2.check_energy_index
  rw [if_neg (by omega)]
  simp only [bind, Except.bind, e1, pure, Except.pure, if_true]
  rfl

/-- The loops that fill a square image whose assigned values cannot fail
do not fail. -/
theorem fillImage_total (P : SkyProj F) (n : Int) (c : F × F → F) (hn : 0 ≤ n)
    (err : Failure)
    (h : WcsMap2.fillImage P n n (fun _ _ coord => Except.ok (c coord)) = .error err) :
    False := by
  obtain ⟨img, e, -, -⟩ := fillImage_spec P n n (fun _ _ coord => Except.ok (c coord))
    (fun i j => c (P.pix2sph ((i : F) + 1) ((j : F) + 1))) hn hn (fun _ _ _ _ _ => rfl)
  rw [e] at h
  cases h

/-- The call `convolve(energy, psf, exposure, true, k)` on a well-formed image
of at least 1 x 1 pixels with a valid plane index returns. -/
theorem convolve_true_ok (E : ConvolveEnv F) (m : WcsMap2 F) (energy : F) (k : Nat)
    (hwf : m.WellFormed) (hk : (k : Int) < m.m_naxis3) (h1 : 1 ≤ m.m_naxis1)
    (h2 : 1 ≤ m.m_naxis2) :
    ∃ r, m.convolve E energy true (k : Int) = .ok r := by
  obtain ⟨counts, e1, -, -⟩ := fillImage_spec m.m_proj m.m_naxis2 m.m_naxis1
    (WcsMap2.countsValue E m energy (k : Int))
    (fun i j => (m.imageAt k j i).getD 0 * E.exposure energy
      (E.mkSkyDir (m.m_proj.pix2sph ((i : F) + 1) ((j : F) + 1)).1
        (m.m_proj.pix2sph ((i : F) + 1) ((j : F) + 1)).2 m.m_coordSys).ra
      (E.mkSkyDir (m.m_proj.pix2sph ((i : F) + 1) ((j : F) + 1)).1
        (m.m_proj.pix2sph ((i : F) + 1) ((j : F) + 1)).2 m.m_coordSys).dec)
    (by omega) (by omega)
    (by
      intro i j hi hj _
      obtain ⟨plane, row, v, a1, a2, a3, a4⟩ :=
        imageAt_of_wellFormed hwf hk (by omega : (j : Int) < m.m_naxis2)
          (by omega : (i : Int) < m.m_naxis1)
      unfold WcsMap2.countsValue
      simp only [bind, Except.bind, vecIdx_ok a1, vecAt_ok a2, vecAt_ok a3, a4, pure,
        Except.pure, Option.getD_some])
  unfold WcsMap2.convolve WcsMap2.check_energy_index
  rw [if_neg (by omega)]
  simp only [bind, Except.bind, e1, pure, Except.pure]
  rw [if_neg (by decide)]
  have hn : (0 : Int) ≤ (if (if m.m_naxis1 ≤ m.m_naxis2 then m.m_naxis1 else m.m_naxis2) % 2 = 0
      then (if m.m_naxis1 ≤ m.m_naxis2 then m.m_naxis1 else m.m_naxis2) - 1
      else (if m.m_naxis1 ≤ m.m_naxis2 then m.m_naxis1 else m.m_naxis2)) := by
    split_ifs <;> omega
  generalize hX : WcsMap2.fillImage (K := F) _ _ _ _ = X
  cases X with
  | ok v => exact ⟨_, rfl⟩
  | error err =>
    exact (fillImage_total _ _ _ hn err hX).elim

/-- Whenever `convolve` returns, the image holds one plane, the energy axis and
the number of axes of the source, and no cached plane integrals. -/
theorem convolve_result (E : ConvolveEnv F) (m r : WcsMap2 F) (energy : F)
    (performConvolution : Bool) (k : Int)
    (h : m.convolve E energy performConvolution k = .ok r) :
    r.m_image.length = 1 ∧ r.m_naxis3 = 1 ∧ r.m_energies = m.m_energies
      ∧ r.m_naxes = m.m_naxes ∧ r.m_mapIntegrals = [] := by
  unfold WcsMap2.convolve at h
  simp only [bind, Except.bind, pure, Except.pure] at h
  split at h
  · cases h
  · split at h
    · cases h
    · split at h
      · injection h with h
        subst h
        exact ⟨rfl, rfl, rfl, rfl, rfl⟩
      · split at h
        · cases h
        · injection h with h
          subst h
          exact ⟨rfl, rfl, rfl, rfl, rfl⟩

end ConvolveResults

section LogGaussianBranches

/-- The value of a `LogGaussian` built by its constructor. -/
theorem logGaussian_value {F : Type} [LinearOrderedField F] (log sqrt : F → F)
    (pi norm mean sigma x : F) :
    (LogGaussian.construct log sqrt pi norm mean sigma).value x
      = .ok (norm * (-(x - mean) * (x - mean) / 2 / sigma / sigma
          - log (sqrt (2 * pi) * sigma))) := by
  have h0 : (LogGaussian.construct log sqrt pi norm mean sigma).m_parameter[0]?
      = some { getName := "Norm", getTrueValue := norm } := rfl
  have h1 : (LogGaussian.construct log sqrt pi norm mean sigma).m_parameter[1]?
      = some { getName := "Mean", getTrueValue := mean } := rfl
  have h2 : (LogGaussian.construct log sqrt pi norm mean sigma).m_parameter[2]?
      = some { getName := "Sigma", getTrueValue := sigma } := rfl
  unfold LogGaussian.value
  simp only [bind, Except.bind, pure, Except.pure, vecIdx_ok (i := 0) h0, vecIdx_ok (i := 1) h1,
    vecIdx_ok (i := 2) h2]
  rfl

/-- The three branches of `derivByParamImp` on a `LogGaussian` built by its
constructor. -/
theorem logGaussian_derivByParamImp {F : Type} [LinearOrderedField F] (log sqrt : F → F)
    (pi norm mean sigma x : F) :
    (LogGaussian.construct log sqrt pi norm mean sigma).derivByParamImp x "Norm"
      = .ok (norm * (-(x - mean) * (x - mean) / 2 / sigma / sigma
          - log (sqrt (2 * pi) * sigma)) / norm)
    ∧ (LogGaussian.construct log sqrt pi norm mean sigma).derivByParamImp x "Mean"
      = .ok (-norm * mean / sigma / sigma)
    ∧ (LogGaussian.construct log sqrt pi norm mean sigma).derivByParamImp x "Sigma"
      = .ok (norm * ((x - mean) * (x - mean) / 6 / (sigma * sigma * sigma) - 1 / sigma)) := by
  have h0 : (LogGaussian.construct log sqrt pi norm mean sigma).m_parameter[0]?
      = some { getName := "Norm", getTrueValue := norm } := rfl
  have h1 : (LogGaussian.construct log sqrt pi norm mean sigma).m_parameter[1]?
      = some { getName := "Mean", getTrueValue := mean } := rfl
  have h2 : (LogGaussian.construct log sqrt pi norm mean sigma).m_parameter[2]?
      = some { getName := "Sigma", getTrueValue := sigma } := rfl
  have f0 : (LogGaussian.construct log sqrt pi norm mean sigma).findParam "Norm" = 0 := rfl
  have f1 : (LogGaussian.construct log sqrt pi norm mean sigma).findParam "Mean" = 1 := rfl
  have f2 : (LogGaussian.construct log sqrt pi norm mean sigma).findParam "Sigma" = 2 := rfl
  refine ⟨?_, ?_, ?_⟩
  · unfold LogGaussian.derivByParamImp
    simp only [f0, bind, Except.bind, pure, Except.pure, vecIdx_ok (i := 0) h0,
      vecIdx_ok (i := 1) h1, vecIdx_ok (i := 2) h2, logGaussian_value]
    rfl
  · unfold LogGaussian.derivByParamImp
    simp only [f1, bind, Except.bind, pure, Except.pure, vecIdx_ok (i := 0) h0,
      vecIdx_ok (i := 1) h1, vecIdx_ok (i := 2) h2]
    rfl
  · unfold LogGaussian.derivByParamImp
    simp only [f2, bind, Except.bind, pure, Except.pure, vecIdx_ok (i := 0) h0,
      vecIdx_ok (i := 1) h1, vecIdx_ok (i := 2) h2]
    rfl

end LogGaussianBranches

section ResponseDirections

variable {F : Type} [LinearOrderedField F]

/-- A name has no entry in the response table when no entry of the table
carries it as its key. -/
theorem lookup_none_iff_absent {α : Type} (name : String) :
    ∀ t : List (String × α), t.lookup name = none ↔ ∀ entry ∈ t, entry.1 ≠ name
  | [] => by simp
  | (k, v) :: t => by
    have ih := lookup_none_iff_absent name t
    simp only [List.lookup_cons, List.mem_cons, forall_eq_or_imp]
    by_cases h : name = k
    · subst h
      simp
    · have hb : (name == k) = false := by simpa using h
      rw [hb]
      simp only [ih]
      constructor
      · intro h2
        exact ⟨fun e => h e.symm, h2⟩
      · intro h2
        exact h2.2

/-- Element `i * n + j` of the concatenation of rows of length `n` is element
`j` of row `i`. -/
theorem getElem?_flatten_uniform {α β : Type} (f : α → List β) (n : Nat) :
    ∀ (l : List α), (∀ a ∈ l, (f a).length = n) → ∀ (i j : Nat) (hi : i < l.length),
      j < n → (l.map f).flatten[i * n + j]? = (f (l.get ⟨i, hi⟩))[j]?
  | [], _, i, _, hi, _ => by simp at hi
  | a :: l, hl, 0, j, _, hj => by
    have ha : (f a).length = n := hl a (List.mem_cons_self _ _)
    rw [List.map_cons, List.flatten_cons, Nat.zero_mul, Nat.zero_add,
      List.getElem?_append_left (by rw [ha]; exact hj)]
    rfl
  | a :: l, hl, i + 1, j, hi, hj => by
    have ha : (f a).length = n := hl a (List.mem_cons_self _ _)
    have hi2 : i < l.length := by simpa using hi
    have ih := getElem?_flatten_uniform f n l (fun b hb => hl b (List.mem_cons_of_mem _ hb))
      i j hi2 hj
    rw [List.map_cons, List.flatten_cons,
      List.getElem?_append_right (by rw [ha]; nlinarith)]
    have e : (i + 1) * n + j - (f a).length = i * n + j := by
      rw [ha, Nat.add_mul, Nat.one_mul]
      omega
    rw [e, ih]
    rfl

/-- The vector `srcDirs` is the concatenation, over `s_mu`, of the rows of
directions over `s_phi`. -/
theorem srcDirs_eq_flatten (E : EventEnv F) (sr : SourceRegionData F)
    (eqRot : SkyDir F → SkyDir F) :
    Event.srcDirs E sr eqRot
      = (sr.s_mu.map fun mu =>
          sr.s_phi.map fun phi => Event.getCelestialDir E phi mu eqRot).flatten := by
  have inner : ∀ (mu : F) (phis : List F) (dirs : List (SkyDir F)),
      phis.foldl (fun dirs phi => dirs ++ [Event.getCelestialDir E phi mu eqRot]) dirs
        = dirs ++ phis.map fun phi => Event.getCelestialDir E phi mu eqRot := by
    intro mu phis
    induction phis with
    | nil => intro dirs; simp
    | cons p ps ih =>
      intro dirs
      rw [List.foldl_cons, ih]
      simp
  have outer : ∀ (mus : List F) (dirs : List (SkyDir F)),
      mus.foldl (fun dirs mu =>
        sr.s_phi.foldl (fun dirs phi => dirs ++ [Event.getCelestialDir E phi mu eqRot]) dirs)
        dirs
        = dirs ++ (mus.map fun mu =>
            sr.s_phi.map fun phi => Event.getCelestialDir E phi mu eqRot).flatten := by
    intro mus
    induction mus with
    | nil => intro dirs; simp
    | cons m ms ih =>
      intro dirs
      rw [List.foldl_cons, ih, inner]
      simp
  unfold Event.srcDirs
  rw [outer]
  simp

/-- Entry `i * s_phi.size() + j` of the vector `srcDirs` is the direction of
the pair `(s_phi[j], s_mu[i])` under the rotation passed. -/
theorem srcDirs_getElem (E : EventEnv F) (sr : SourceRegionData F)
    (eqRot : SkyDir F → SkyDir F) (i j : Nat) (hi : i < sr.s_mu.length)
    (hj : j < sr.s_phi.length) :
    (Event.srcDirs E sr eqRot)[i * sr.s_phi.length + j]?
      = some (Event.getCelestialDir E (sr.s_phi.get ⟨j, hj⟩) (sr.s_mu.get ⟨i, hi⟩) eqRot) := by
  rw [srcDirs_eq_flatten,
    getElem?_flatten_uniform
      (fun mu => sr.s_phi.map fun phi => Event.getCelestialDir E phi mu eqRot)
      sr.s_phi.length sr.s_mu (fun a _ => by simp) i j hi hj]
  simp only [List.getElem?_map, List.getElem?_eq_getElem hj, Option.map_some', List.get_eq_getElem]

/-- The static data are marked as prepared after the preparation step of
`computeResponse`. -/
theorem preparedSrData_have (E : EventEnv F) (nmu nphi : Int) (sr : SourceRegionData F)
    (sr_radius : F) :
    (Event.preparedSrData E nmu nphi sr sr_radius).s_haveSourceRegionData = true := by
  unfold Event.preparedSrData
  by_cases h : sr.s_haveSourceRegionData = false
  · rw [if_pos h]
    rfl
  · rw [if_neg h]
    simpa using h

/-- The preparation step of `computeResponse` leaves prepared static data
as they are. -/
theorem preparedSrData_of_have (E : EventEnv F) (nmu nphi : Int) (sr : SourceRegionData F)
    (sr_radius : F) (h : sr.s_haveSourceRegionData = true) :
    Event.preparedSrData E nmu nphi sr sr_radius = sr := by
  unfold Event.preparedSrData
  rw [if_neg (by simp [h])]

/-- With every listed name cached, `computeResponse` returns at once. -/
theorem computeResponse_cached (E : EventEnv F) (nmu nphi : Int) (ev : Event F)
    (sr : SourceRegionData F) (srcList : List (DiffuseSource F)) (sr_radius : F)
    (h : ∀ src ∈ srcList,
      (ev.m_respDiffuseSrcs.lookup (Event.toLower src.getName)).isSome = true) :
    Event.computeResponse E nmu nphi ev sr srcList sr_radius = .ok (ev, sr) := by
  have h0 : ev.getNewDiffuseSrcs srcList = [] := by
    unfold Event.getNewDiffuseSrcs
    rw [List.filter_eq_nil_iff]
    intro src hsrc
    rw [h src hsrc]
    decide
  unfold Event.computeResponse
  simp only [h0, List.length_nil, if_true]
  rfl

/-- With a new source in the list, `computeResponse` runs its loops over the
prepared static data and the directions `responseDirs`. -/
theorem computeResponse_new (E : EventEnv F) (nmu nphi : Int) (ev : Event F)
    (sr : SourceRegionData F) (srcList : List (DiffuseSource F)) (sr_radius : F)
    (h : (ev.getNewDiffuseSrcs srcList).length ≠ 0) :
    Event.computeResponse E nmu nphi ev sr srcList sr_radius
      = (do
          let table ← ev.m_trueEnergies.foldlM (fun table trueEnergy => do
            let mu_integrands ← Event.muIntegrands E ev
              (Event.preparedSrData E nmu nphi sr sr_radius) (ev.getNewDiffuseSrcs srcList)
              (Event.responseDirs E nmu nphi ev sr sr_radius) trueEnergy
            pure (Event.storeResponses E (Event.preparedSrData E nmu nphi sr sr_radius)
              (ev.getNewDiffuseSrcs srcList) mu_integrands table)) ev.m_respDiffuseSrcs
          pure ({ ev with m_respDiffuseSrcs := table },
            Event.preparedSrData E nmu nphi sr sr_radius)) := by
  unfold Event.computeResponse
  simp only [if_neg h]
  rfl

/-- A second call of `computeResponse` with the same list changes neither the
event nor the static data. -/
theorem computeResponse_twice (E : EventEnv F) (nmu nphi : Int) (ev : Event F)
    (sr : SourceRegionData F) (srcList : List (DiffuseSource F)) (sr_radius : F) :
    ∃ ev1 sr1, Event.computeResponse E nmu nphi ev sr srcList sr_radius = .ok (ev1, sr1)
      ∧ Event.computeResponse E nmu nphi ev1 sr1 srcList sr_radius = .ok (ev1, sr1) := by
  by_cases hg : ev.m_trueEnergies = []
  · by_cases h0 : (ev.getNewDiffuseSrcs srcList).length = 0
    · have e : Event.computeResponse E nmu nphi ev sr srcList sr_radius = .ok (ev, sr) := by
        unfold Event.computeResponse
        simp only [h0, if_true]
        rfl
      exact ⟨ev, sr, e, e⟩
    · have key : ∀ sr0 : SourceRegionData F,
          Event.computeResponse E nmu nphi ev sr0 srcList sr_radius
            = .ok (ev, Event.preparedSrData E nmu nphi sr0 sr_radius) := by
        intro sr0
        rw [computeResponse_new E nmu nphi ev sr0 srcList sr_radius h0]
        obtain ⟨a, b, c, d, e, f, g, te, t⟩ := ev
        simp only at hg
        subst hg
        rfl
      refine ⟨ev, _, key sr, ?_⟩
      rw [key, preparedSrData_of_have E nmu nphi _ sr_radius
        (preparedSrData_have E nmu nphi sr sr_radius)]
  · obtain ⟨ev1, sr1, e, -, -, h⟩ := computeResponse_keys E nmu nphi ev sr srcList sr_radius
    exact ⟨ev1, sr1, e, computeResponse_cached E nmu nphi ev1 sr1 srcList sr_radius (h hg)⟩

/-- The loops of `computeResponse` read the grid `s_mu`, `s_phi` of the static
data only. -/
theorem muIntegrands_grid (E : EventEnv F) (ev : Event F) (sr1 sr2 : SourceRegionData F)
    (srcs : List (DiffuseSource F)) (srcDirs : List (SkyDir F)) (trueEnergy : F)
    (hmu : sr1.s_mu = sr2.s_mu) (hphi : sr1.s_phi = sr2.s_phi) :
    Event.muIntegrands E ev sr1 srcs srcDirs trueEnergy
        = Event.muIntegrands E ev sr2 srcs srcDirs trueEnergy
      ∧ ∀ (mu_integrands : List (List F)) (table : List (String × List F)),
        Event.storeResponses E sr1 srcs mu_integrands table
          = Event.storeResponses E sr2 srcs mu_integrands table := by
  obtain ⟨mu1, phi1, rot1, h1⟩ := sr1
  obtain ⟨mu2, phi2, rot2, h2⟩ := sr2
  simp only at hmu hphi
  subst hmu
  subst hphi
  exact ⟨rfl, fun _ _ => rfl⟩

/-- The preparation step of `computeResponse` yields the same grid whatever
the shared rotation was before. -/
theorem preparedSrData_grid (E : EventEnv F) (nmu nphi : Int) (sr : SourceRegionData F)
    (sr_radius : F) (rot : SkyDir F → SkyDir F) :
    (Event.preparedSrData E nmu nphi { sr with s_eqRot := rot } sr_radius).s_mu
        = (Event.preparedSrData E nmu nphi sr sr_radius).s_mu
      ∧ (Event.preparedSrData E nmu nphi { sr with s_eqRot := rot } sr_radius).s_phi
        = (Event.preparedSrData E nmu nphi sr sr_radius).s_phi := by
  obtain ⟨mu, phi, r, b⟩ := sr
  cases b <;> exact ⟨rfl, rfl⟩

/-- The directions of `computeResponse` do not depend on the shared
rotation. -/
theorem responseDirs_rot (E : EventEnv F) (nmu nphi : Int) (ev : Event F)
    (sr : SourceRegionData F) (sr_radius : F) (rot : SkyDir F → SkyDir F) :
    Event.responseDirs E nmu nphi ev { sr with s_eqRot := rot } sr_radius
      = Event.responseDirs E nmu nphi ev sr sr_radius := by
  obtain ⟨hmu, hphi⟩ := preparedSrData_grid E nmu nphi sr sr_radius rot
  show Event.srcDirs E (Event.preparedSrData E nmu nphi { sr with s_eqRot := rot } sr_radius) _
    = Event.srcDirs E (Event.preparedSrData E nmu nphi sr sr_radius) _
  rw [srcDirs_eq_flatten, srcDirs_eq_flatten, hmu, hphi]

/-- The event that `computeResponse` leaves does not depend on the shared
rotation. -/
theorem computeResponse_rot (E : EventEnv F) (nmu nphi : Int) (ev : Event F)
    (sr : SourceRegionData F) (srcList : List (DiffuseSource F)) (sr_radius : F)
    (rot : SkyDir F → SkyDir F) :
    (Event.computeResponse E nmu nphi ev { sr with s_eqRot := rot } srcList sr_radius).map
        Prod.fst
      = (Event.computeResponse E nmu nphi ev sr srcList sr_radius).map Prod.fst := by
  by_cases h0 : (ev.getNewDiffuseSrcs srcList).length = 0
  · unfold Event.computeResponse
    simp only [h0, if_true]
    rfl
  · obtain ⟨hmu, hphi⟩ := preparedSrData_grid E nmu nphi sr sr_radius rot
    rw [computeResponse_new E nmu nphi ev _ srcList sr_radius h0,
      computeResponse_new E nmu nphi ev sr srcList sr_radius h0, responseDirs_rot]
    have hf : (fun (table : List (String × List F)) (trueEnergy : F) => do
          let mu_integrands ← Event.muIntegrands E ev
            (Event.preparedSrData E nmu nphi { sr with s_eqRot := rot } sr_radius)
            (ev.getNewDiffuseSrcs srcList)
            (Event.responseDirs E nmu nphi ev sr sr_radius) trueEnergy
          (pure (Event.storeResponses E
            (Event.preparedSrData E nmu nphi { sr with s_eqRot := rot } sr_radius)
            (ev.getNewDiffuseSrcs srcList) mu_integrands table) :
              Except Failure (List (String × List F))))
        = (fun (table : List (String × List F)) (trueEnergy : F) => do
          let mu_integrands ← Event.muIntegrands E ev
            (Event.preparedSrData E nmu nphi sr sr_radius)
            (ev.getNewDiffuseSrcs srcList)
            (Event.responseDirs E nmu nphi ev sr sr_radius) trueEnergy
          pure (Event.storeResponses E
            (Event.preparedSrData E nmu nphi sr sr_radius)
            (ev.getNewDiffuseSrcs srcList) mu_integrands table)) := by
      funext table trueEnergy
      obtain ⟨k1, k2⟩ := muIntegrands_grid E ev _ _ (ev.getNewDiffuseSrcs srcList)
        (Event.responseDirs E nmu nphi ev sr sr_radius) trueEnergy hmu hphi
      rw [k1]
      simp only [k2]
    rw [hf]
    generalize List.foldlM (m := Except Failure) _ ev.m_respDiffuseSrcs ev.m_trueEnergies = X
    cases X <;> rfl

end ResponseDirections

section RebinPlanes

variable {F : Type} [LinearOrderedField F]

/-- A loop whose passes keep `P` whenever they succeed ends, when it succeeds,
in a state with `P`. -/
theorem foldlM_preserves {σ α : Type} (f : σ → α → Except Failure σ) (P : σ → Prop)
    (hstep : ∀ s a s', f s a = .ok s' → P s → P s') :
    ∀ (l : List α) (s0 s' : σ), P s0 → l.foldlM f s0 = .ok s' → P s'
  | [], s0, s', h0, h => by
    injection h with h
    rw [← h]
    exact h0
  | a :: l, s0, s', h0, h => by
    rw [List.foldlM_cons] at h
    cases h1 : f s0 a with
    | error err =>
      simp only [bind, Except.bind, h1] at h
      cases h
    | ok s1 =>
      simp only [bind, Except.bind, h1] at h
      exact foldlM_preserves f P hstep l s1 s' (hstep s0 a s1 h1 h0) h

/-- Whenever `rebin` returns, the new map has as many planes as the source and
the energy axis of the source. -/
theorem rebin_plane_count (G : SphereGeom F)
    (mkSkyProj : String → F × F → F × F → F × F → F → Bool → SkyProj F)
    (m : WcsMap2 F) (factor : Nat) (average : Bool) (this my_map : WcsMap2 F)
    (h : m.rebin G mkSkyProj factor average = .ok (this, my_map)) :
    my_map.m_image.length = m.m_image.length ∧ my_map.m_energies = m.m_energies := by
  unfold WcsMap2.rebin at h
  by_cases hf : factor = 0
  · rw [if_pos hf] at h
    cases h
  · rw [if_neg hf] at h
    simp only [bind, Except.bind, pure, Except.pure] at h
    split at h
    · cases h
    · rename_i sa hsa
      split at h
      · cases h
      · rename_i image himage
        split at h
        · cases h
        · injection h with h
          injection h with h1 h2
          subst h2
          refine ⟨?_, rfl⟩
          show image.length = m.m_image.length
          refine foldlM_preserves _ (fun img => img.length = m.m_image.length) ?_ _ _ _ rfl himage
          intro img k img' hstep hlen
          unfold WcsMap2.rebinPlane at hstep
          simp only [bind, Except.bind, pure, Except.pure] at hstep
          split at hstep
          · cases hstep
          · split at hstep
            · cases hstep
            · cases average
              · simp only [Bool.false_eq_true, if_false] at hstep
                injection hstep with hstep
                rw [← hstep, List.length_set]
                exact hlen
              · simp only [if_true] at hstep
                split at hstep
                · cases hstep
                · injection hstep with hstep
                  rw [← hstep, List.length_set]
                  exact hlen

end RebinPlanes

section ResponseLengths

variable {F : Type}

/-- The vectors stored under a key other than `name` are not touched by
`table[name].push_back(v)`. -/
theorem respPushBack_other (t : List (String × List F)) (name : String) (v : F)
    (k : String) (hk : k ≠ name) (q : Nat)
    (h : ∀ e ∈ t, e.1 = k → e.2.length = q) :
    ∀ e ∈ Event.respPushBack t name v, e.1 = k → e.2.length = q := by
  intro e he hek
  unfold Event.respPushBack at he
  cases hl : t.lookup name with
  | none =>
    rw [hl] at he
    simp only [List.mem_append, List.mem_singleton] at he
    rcases he with he | he
    · exact h e he hek
    · rw [he] at hek
      exact absurd hek.symm hk
  | some r =>
    rw [hl] at he
    simp only [List.mem_map] at he
    obtain ⟨e0, he0, rfl⟩ := he
    by_cases h0 : e0.1 = name
    · rw [if_pos h0] at hek
      exact absurd (hek.symm.trans h0) hk
    · rw [if_neg h0] at hek ⊢
      exact h e0 he0 hek

/-- The vectors stored under `name` are one longer after
`table[name].push_back(v)`; a vector that the statement creates has length
`1`. -/
theorem respPushBack_same (t : List (String × List F)) (name : String) (v : F) (q : Nat)
    (h : ∀ e ∈ t, e.1 = name → e.2.length = q)
    (h0 : (t.lookup name).isSome = false → q = 0) :
    ∀ e ∈ Event.respPushBack t name v, e.1 = name → e.2.length = q + 1 := by
  intro e he hek
  unfold Event.respPushBack at he
  cases hl : t.lookup name with
  | none =>
    rw [hl] at he
    simp only [List.mem_append, List.mem_singleton] at he
    rcases he with he | he
    · exact absurd hek ((lookup_none_iff_absent name t).mp hl e he)
    · rw [he, h0 (by rw [hl]; rfl)]
      rfl
  | some r =>
    rw [hl] at he
    simp only [List.mem_map] at he
    obtain ⟨e0, he0, rfl⟩ := he
    by_cases h1 : e0.1 = name
    · rw [if_pos h1]
      simp only [List.length_append, List.length_singleton]
      rw [h e0 he0 h1]
    · rw [if_neg h1] at hek
      exact absurd hek h1

/-- The storing loop of `computeResponse` on sources with pairwise different
lower-cased names: the vectors under other keys are not touched, and the
vectors under the lower-cased name of a source become one longer. -/
theorem storeResponses_lengths (E : EventEnv F) (sr : SourceRegionData F) :
    ∀ (srcs : List (DiffuseSource F)) (mus : List (List F)) (t : List (String × List F)),
    mus.length = srcs.length →
    (srcs.map fun s => Event.toLower s.getName).Nodup →
    ∀ (k : String) (q : Nat), (∀ e ∈ t, e.1 = k → e.2.length = q) →
      (k ∉ (srcs.map fun s => Event.toLower s.getName) →
        ∀ e ∈ Event.storeResponses E sr srcs mus t, e.1 = k → e.2.length = q)
      ∧ (k ∈ (srcs.map fun s => Event.toLower s.getName) →
        ((t.lookup k).isSome = false → q = 0) →
        ∀ e ∈ Event.storeResponses E sr srcs mus t, e.1 = k → e.2.length = q + 1)
  | [], mus, t, _, _, k, q, h => by
    refine ⟨fun _ => ?_, fun hk => ?_⟩
    · simpa [Event.storeResponses] using h
    · simp at hk
  | src :: srcs, [], t, hlen, _, k, q, h => by
    simp at hlen
  | src :: srcs, mu :: mus, t, hlen, hnd, k, q, h => by
    have e : Event.storeResponses E sr (src :: srcs) (mu :: mus) t
        = Event.storeResponses E sr srcs mus
          (Event.respPushBack t (Event.toLower src.getName) (E.trapQuad sr.s_mu mu)) := rfl
    rw [List.map_cons, List.nodup_cons] at hnd
    obtain ⟨hnot, hnd'⟩ := hnd
    have ih := storeResponses_lengths E sr srcs mus
      (Event.respPushBack t (Event.toLower src.getName) (E.trapQuad sr.s_mu mu))
      (by simpa using hlen) hnd' k
    rw [e]
    refine ⟨fun hk => ?_, fun hk h0 => ?_⟩
    · rw [List.map_cons, List.mem_cons, not_or] at hk
      exact (ih q (respPushBack_other t _ _ k hk.1 q h)).1 hk.2
    · rw [List.map_cons, List.mem_cons] at hk
      by_cases hk1 : k = Event.toLower src.getName
      · subst hk1
        exact (ih (q + 1) (respPushBack_same t _ _ q h h0)).1 hnot
      · have hk2 := hk.resolve_left hk1
        refine (ih q (respPushBack_other t _ _ k hk1 q h)).2 hk2 ?_
        intro hn
        apply h0
        cases hc : (t.lookup k).isSome with
        | false => rfl
        | true =>
          have := (respPushBack_isSome t (Event.toLower src.getName) (E.trapQuad sr.s_mu mu)
            k).mpr (Or.inl hc)
          rw [this] at hn
          cases hn

end ResponseLengths

section ResponseAlignment

variable {F : Type} [LinearOrderedField F]

/-- The loop over the true energies in `computeResponse`, for new sources with
pairwise different lower-cased names: it succeeds, the vectors under other
keys are not touched, and the vectors under the lower-cased name of a new
source gain one value per true energy. -/
theorem responseLoop_lengths (E : EventEnv F) (ev : Event F) (sr : SourceRegionData F)
    (srcs : List (DiffuseSource F)) (dirs : List (SkyDir F)) (n : Nat)
    (hd : dirs.length = sr.s_mu.length * sr.s_phi.length)
    (hnd : (srcs.map fun s => Event.toLower s.getName).Nodup) :
    ∀ (energies : List F) (t : List (String × List F)) (p : Nat),
    (∀ e ∈ t, e.1 ∉ (srcs.map fun s => Event.toLower s.getName) → e.2.length = n) →
    (∀ e ∈ t, e.1 ∈ (srcs.map fun s => Event.toLower s.getName) → e.2.length = p) →
    (∀ k ∈ (srcs.map fun s => Event.toLower s.getName), (t.lookup k).isSome = false → p = 0) →
    ∃ t', energies.foldlM (fun table trueEnergy => do
          let mu_integrands ← Event.muIntegrands E ev sr srcs dirs trueEnergy
          pure (Event.storeResponses E sr srcs mu_integrands table)) t = .ok t'
      ∧ (∀ e ∈ t', e.1 ∉ (srcs.map fun s => Event.toLower s.getName) → e.2.length = n)
      ∧ (∀ e ∈ t', e.1 ∈ (srcs.map fun s => Event.toLower s.getName) →
          e.2.length = p + energies.length)
  | [], t, p, h1, h2, _ => ⟨t, rfl, h1, by simpa using h2⟩
  | trueEnergy :: energies, t, p, h1, h2, h3 => by
    obtain ⟨mus, m1, m2⟩ := muIntegrands_ok E ev sr srcs dirs trueEnergy hd
    have a1 : ∀ e ∈ Event.storeResponses E sr srcs mus t,
        e.1 ∉ (srcs.map fun s => Event.toLower s.getName) → e.2.length = n := by
      intro e he hk
      exact (storeResponses_lengths E sr srcs mus t m2 hnd e.1 n
        (fun e' he' hk' => h1 e' he' (by rw [hk']; exact hk))).1 hk e he rfl
    have a2 : ∀ e ∈ Event.storeResponses E sr srcs mus t,
        e.1 ∈ (srcs.map fun s => Event.toLower s.getName) → e.2.length = p + 1 := by
      intro e he hk
      exact (storeResponses_lengths E sr srcs mus t m2 hnd e.1 p
        (fun e' he' hk' => h2 e' he' (by rw [hk']; exact hk))).2 hk (h3 e.1 hk) e he rfl
    have a3 : ∀ k ∈ (srcs.map fun s => Event.toLower s.getName),
        ((Event.storeResponses E sr srcs mus t).lookup k).isSome = false → p + 1 = 0 := by
      intro k hk hn
      obtain ⟨src, hsrc, rfl⟩ := List.mem_map.mp hk
      rw [(storeResponses_isSome E sr _ srcs mus t m2).mpr (Or.inr ⟨src, hsrc, rfl⟩)] at hn
      cases hn
    obtain ⟨t', e1, b1, b2⟩ := responseLoop_lengths E ev sr srcs dirs n hd hnd energies
      (Event.storeResponses E sr srcs mus t) (p + 1) a1 a2 a3
    refine ⟨t', ?_, b1, ?_⟩
    · rw [List.foldlM_cons]
      simp only [bind, Except.bind, m1, pure, Except.pure]
      exact e1
    · intro e he hk
      rw [b2 e he hk, List.length_cons]
      omega

/-- When the new sources of the list have pairwise different lower-cased
names and every vector of the response table has the length of the
true-energy grid, `computeResponse` returns a table with the same property. -/
theorem computeResponse_aligned (E : EventEnv F) (nmu nphi : Int) (ev : Event F)
    (sr : SourceRegionData F) (srcList : List (DiffuseSource F)) (sr_radius : F)
    (hnd : ((ev.getNewDiffuseSrcs srcList).map fun s => Event.toLower s.getName).Nodup)
    (hold : ∀ e ∈ ev.m_respDiffuseSrcs, e.2.length = ev.m_trueEnergies.length) :
    ∃ ev' sr', Event.computeResponse E nmu nphi ev sr srcList sr_radius = .ok (ev', sr')
      ∧ ev'.m_trueEnergies = ev.m_trueEnergies
      ∧ ∀ e ∈ ev'.m_respDiffuseSrcs, e.2.length = ev.m_trueEnergies.length := by
  by_cases h0 : (ev.getNewDiffuseSrcs srcList).length = 0
  · refine ⟨ev, sr, ?_, rfl, hold⟩
    unfold Event.computeResponse
    simp only [h0, if_true]
    rfl
  · have hnew : ∀ k ∈ ((ev.getNewDiffuseSrcs srcList).map fun s => Event.toLower s.getName),
        ev.m_respDiffuseSrcs.lookup k = none := by
      intro k hk
      obtain ⟨src, hsrc, rfl⟩ := List.mem_map.mp hk
      unfold Event.getNewDiffuseSrcs at hsrc
      have := (List.mem_filter.mp hsrc).2
      cases hl : List.lookup (Event.toLower src.getName) ev.m_respDiffuseSrcs with
      | none => rfl
      | some r =>
        rw [hl] at this
        cases this
    obtain ⟨t', e1, b1, b2⟩ := responseLoop_lengths E ev
      (Event.preparedSrData E nmu nphi sr sr_radius) (ev.getNewDiffuseSrcs srcList)
      (Event.responseDirs E nmu nphi ev sr sr_radius) ev.m_trueEnergies.length
      (srcDirs_length E _ _) hnd ev.m_trueEnergies ev.m_respDiffuseSrcs 0
      (fun e he _ => hold e he)
      (fun e he hk => absurd rfl ((lookup_none_iff_absent e.1 _).mp (hnew e.1 hk) e he))
      (fun _ _ _ => rfl)
    refine ⟨{ ev with m_respDiffuseSrcs := t' }, Event.preparedSrData E nmu nphi sr sr_radius,
      ?_, rfl, ?_⟩
    · rw [computeResponse_new E nmu nphi ev sr srcList sr_radius h0]
      simp only [bind, Except.bind, pure, Except.pure] at e1 ⊢
      rw [e1]
    · intro e he
      by_cases hk : e.1 ∈ ((ev.getNewDiffuseSrcs srcList).map fun s => Event.toLower s.getName)
      · rw [b2 e he hk, Nat.zero_add]
      · exact b1 e he hk

end ResponseAlignment

section RebinStart

variable {F : Type} [LinearOrderedField F]

end RebinStart

section ResponseCache

variable {F : Type}

/-- The statement `table[name].push_back(v)` leaves a leading part of the
table whose keys all differ from `name` as it is. -/
theorem respPushBack_append (P : String → Prop) (t0 added : List (String × List F))
    (name : String) (v : F) (h0 : ∀ e ∈ t0, e.1 ≠ name) (hP : P name)
    (ha : ∀ e ∈ added, P e.1) :
    ∃ added', Event.respPushBack (t0 ++ added) name v = t0 ++ added'
      ∧ ∀ e ∈ added', P e.1 := by
  unfold Event.respPushBack
  cases hl : (t0 ++ added).lookup name with
  | none =>
    refine ⟨added ++ [(name, [v])], by simp, ?_⟩
    intro e he
    rcases List.mem_append.mp he with he | he
    · exact ha e he
    · rw [List.mem_singleton.mp he]
      exact hP
  | some r =>
    refine ⟨added.map fun entry =>
      if entry.1 = name then (entry.1, entry.2 ++ [v]) else entry, ?_, ?_⟩
    · simp only [List.map_append]
      congr 1
      calc t0.map (fun entry => if entry.1 = name then (entry.1, entry.2 ++ [v]) else entry)
          = t0.map id := List.map_congr_left (fun e he => by rw [if_neg (h0 e he)]; rfl)
        _ = t0 := List.map_id t0
    · intro e he
      obtain ⟨e0, he0, rfl⟩ := List.mem_map.mp he
      by_cases h : e0.1 = name
      · rw [if_pos h]
        exact ha e0 he0
      · rw [if_neg h]
        exact ha e0 he0

/-- The storing loop of `computeResponse` leaves a leading part of the table
that holds no lower-cased name of a new source as it is. -/
theorem storeResponses_append (E : EventEnv F) (sr : SourceRegionData F) (P : String → Prop)
    (t0 : List (String × List F)) :
    ∀ (srcs : List (DiffuseSource F)) (mus : List (List F)) (added : List (String × List F)),
    (∀ src ∈ srcs, ∀ e ∈ t0, e.1 ≠ Event.toLower src.getName) →
    (∀ src ∈ srcs, P (Event.toLower src.getName)) →
    (∀ e ∈ added, P e.1) →
    ∃ added', Event.storeResponses E sr srcs mus (t0 ++ added) = t0 ++ added'
      ∧ ∀ e ∈ added', P e.1
  | [], mus, added, _, _, ha => ⟨added, by simp [Event.storeResponses], ha⟩
  | src :: srcs, [], added, _, _, ha => ⟨added, by simp [Event.storeResponses], ha⟩
  | src :: srcs, mu :: mus, added, h0, hP, ha => by
    have e : Event.storeResponses E sr (src :: srcs) (mu :: mus) (t0 ++ added)
        = Event.storeResponses E sr srcs mus
          (Event.respPushBack (t0 ++ added) (Event.toLower src.getName)
            (E.trapQuad sr.s_mu mu)) := rfl
    obtain ⟨a1, e1, p1⟩ := respPushBack_append P t0 added (Event.toLower src.getName)
      (E.trapQuad sr.s_mu mu) (h0 src (List.mem_cons_self _ _))
      (hP src (List.mem_cons_self _ _)) ha
    obtain ⟨a2, e2, p2⟩ := storeResponses_append E sr P t0 srcs mus a1
      (fun s hs => h0 s (List.mem_cons_of_mem _ hs))
      (fun s hs => hP s (List.mem_cons_of_mem _ hs)) p1
    exact ⟨a2, by rw [e, e1, e2], p2⟩

/-- An entry found in a leading part of a table is the entry found in the
table. -/
theorem lookup_append_some (name : String) (r : List F) :
    ∀ (t0 added : List (String × List F)), t0.lookup name = some r →
      (t0 ++ added).lookup name = some r
  | [], _, h => by cases h
  | (k, w) :: t0, added, h => by
    simp only [List.cons_append, List.lookup_cons] at h ⊢
    cases hk : name == k
    · rw [hk] at h
      exact lookup_append_some name r t0 added h
    · rw [hk] at h
      exact h

end ResponseCache

section ResponseAppends

variable {F : Type} [LinearOrderedField F]

/-- The member `computeResponse` returns the event with entries appended to
its response table: the entries that the table held before the call are left
as they are, in place, and every key appended is the lower-cased name of a
new source. -/
theorem computeResponse_appends (E : EventEnv F) (nmu nphi : Int) (ev : Event F)
    (sr : SourceRegionData F) (srcList : List (DiffuseSource F)) (sr_radius : F) :
    ∃ added sr', Event.computeResponse E nmu nphi ev sr srcList sr_radius
        = .ok ({ ev with m_respDiffuseSrcs := ev.m_respDiffuseSrcs ++ added }, sr')
      ∧ ∀ e ∈ added, ∃ src ∈ ev.getNewDiffuseSrcs srcList, e.1 = Event.toLower src.getName := by
  by_cases h0 : (ev.getNewDiffuseSrcs srcList).length = 0
  · refine ⟨[], sr, ?_, fun e he => by cases he⟩
    unfold Event.computeResponse
    simp only [h0, if_true, List.append_nil]
    rfl
  · have hnew : ∀ src ∈ ev.getNewDiffuseSrcs srcList, ∀ e ∈ ev.m_respDiffuseSrcs,
        e.1 ≠ Event.toLower src.getName := by
      intro src hsrc
      unfold Event.getNewDiffuseSrcs at hsrc
      have := (List.mem_filter.mp hsrc).2
      apply (lookup_none_iff_absent _ _).mp
      cases hl : List.lookup (Event.toLower src.getName) ev.m_respDiffuseSrcs with
      | none => rfl
      | some r =>
        rw [hl] at this
        cases this
    obtain ⟨t', e1, ⟨added, rfl, hadd⟩, -⟩ := foldlM_list_invariant
      (fun table trueEnergy => do
        let mu_integrands ← Event.muIntegrands E ev
          (Event.preparedSrData E nmu nphi sr sr_radius) (ev.getNewDiffuseSrcs srcList)
          (Event.responseDirs E nmu nphi ev sr sr_radius) trueEnergy
        pure (Event.storeResponses E (Event.preparedSrData E nmu nphi sr sr_radius)
          (ev.getNewDiffuseSrcs srcList) mu_integrands table))
      (fun t => ∃ added, t = ev.m_respDiffuseSrcs ++ added
        ∧ ∀ e ∈ added, ∃ src ∈ ev.getNewDiffuseSrcs srcList, e.1 = Event.toLower src.getName)
      (fun _ => True)
      (by
        intro t trueEnergy ⟨added, ht, hadd⟩
        obtain ⟨mus, m1, -⟩ := muIntegrands_ok E ev
          (Event.preparedSrData E nmu nphi sr sr_radius) (ev.getNewDiffuseSrcs srcList)
          (Event.responseDirs E nmu nphi ev sr sr_radius) trueEnergy (srcDirs_length E _ _)
        obtain ⟨a2, e2, p2⟩ := storeResponses_append E
          (Event.preparedSrData E nmu nphi sr sr_radius)
          (fun k => ∃ src ∈ ev.getNewDiffuseSrcs srcList, k = Event.toLower src.getName)
          ev.m_respDiffuseSrcs (ev.getNewDiffuseSrcs srcList) mus added hnew
          (fun src hsrc => ⟨src, hsrc, rfl⟩) hadd
        refine ⟨_, ?_, ⟨a2, rfl, p2⟩, trivial⟩
        simp only [bind, Except.bind, m1, pure, Except.pure]
        rw [ht, e2])
      ev.m_trueEnergies ev.m_respDiffuseSrcs ⟨[], by simp, fun e he => by cases he⟩
    refine ⟨added, Event.preparedSrData E nmu nphi sr sr_radius, ?_, hadd⟩
    rw [computeResponse_new E nmu nphi ev sr srcList sr_radius h0]
    simp only [bind, Except.bind, pure, Except.pure] at e1 ⊢
    rw [e1]

/-- The sources of the list that are cached have no influence on
`computeResponse`: the call with the new sources alone has the same result. -/
theorem computeResponse_new_only (E : EventEnv F) (nmu nphi : Int) (ev : Event F)
    (sr : SourceRegionData F) (srcList : List (DiffuseSource F)) (sr_radius : F) :
    Event.computeResponse E nmu nphi ev sr (ev.getNewDiffuseSrcs srcList) sr_radius
      = Event.computeResponse E nmu nphi ev sr srcList sr_radius := by
  have h : ev.getNewDiffuseSrcs (ev.getNewDiffuseSrcs srcList) = ev.getNewDiffuseSrcs srcList := by
    unfold Event.getNewDiffuseSrcs
    rw [List.filter_filter]
    apply List.filter_congr
    intro src _
    simp
  unfold Event.computeResponse
  simp only [h]

end ResponseAppends

end Helpers

section Claims

variable {K : Type} [LinearOrderedField K] [FloorRing K]

/-- C1. `sample(direction, planeIndex)` returns exactly `0`, and does not
fail, for every image and every valid plane index when the projected pixel
coordinates `(x, y)` of the direction have `y < 0.5` or `y > naxis2 + 0.5`
or, for a non-periodic image, `x < 0.5` or `x > naxis1 + 0.5`; the
interpolation flag of the image is arbitrary. -/
theorem sample_outside_map_returns_zero (m : WcsMap2 K) (dir : SkyDir K) (k : Int)
    (hk : 0 ≤ k ∧ k < m.m_naxis3)
    (hout : (m.m_proj.project dir).2 < 1 / 2
      ∨ (m.m_proj.project dir).2 > (m.m_naxis2 : K) + 1 / 2
      ∨ (m.m_isPeriodic = false
          ∧ ((m.m_proj.project dir).1 < 1 / 2
            ∨ (m.m_proj.project dir).1 > (m.m_naxis1 : K) + 1 / 2))) :
    m.sample dir k = .ok 0 := by
  have hchk : m.check_energy_index k = .ok () := by
    unfold WcsMap2.check_energy_index
    rw [if_neg]
    rintro ⟨-, h | h⟩ <;> omega
  unfold WcsMap2.sample
  rw [hchk]
  simp only [bind, Except.bind]
  rw [if_pos]
  rcases hout with h | h | ⟨hp, h⟩
  · exact Or.inr (Or.inl h)
  · exact Or.inr (Or.inr h)
  · refine Or.inl ⟨hp, ?_⟩
    simpa [hp] using h

/-- Witness of C1: on a 2 x 2 non-periodic interpolating map the direction
with pixel coordinates `(3, 1)` lies right of the map (`3 > 2 + 1/2`) and
samples to `0`. -/
theorem sample_outside_map_returns_zero_witness :
    (squareMap true).sample (demoDir 3 1) 0
      = .ok 0 :=
  sample_outside_map_returns_zero (squareMap true) (demoDir 3 1) 0 (by simp [demoMap, squareMap])
    (by simp [demoMap, squareMap, demoProj, demoDir]; norm_num)

/-- C2, counterexample.  On the real two-plane map with the strictly
ascending energies `[0, 10]` and both planes equal to `1`, the energy `5` lies
strictly between the two tabulated energies and both plane samples are
positive, yet `sample(direction, energy)` returns no value: the power-law
interpolation rejects the abscissa `0`. -/
theorem sampleEnergy_fails_on_zero_energy_plane :
    (demoMap [[[(1 : ℝ)]], [[1]]] 1 1 [0, 10] false false).sample (demoDir 1 1) 0
      = .ok 1
    ∧ (demoMap [[[(1 : ℝ)]], [[1]]] 1 1 [0, 10] false false).sample (demoDir 1 1) 1
      = .ok 1
    ∧ (demoMap [[[(1 : ℝ)]], [[1]]] 1 1 [0, 10] false false).sampleEnergy Real.log
        (fun a b => a ^ b) (demoDir 1 1) 5 = .error .powerLawNonPositive := by
  refine ⟨?_, ?_, ?_⟩ <;>
  norm_num [WcsMap2.sampleEnergy, WcsMap2.sample, WcsMap2.pixelValue,
    WcsMap2.check_energy_index, WcsMap2.upper_bound, demoMap, demoProj, demoDir,
    vecFront, vecBack, vecIdx, vecAt, my_round, castInt, bind, Except.bind, pure,
    Except.pure, List.findIdx_cons, interpolatePowerLaw]

/-- C2, amended.  On a three-axis image whose energies are strictly ascending
and positive, for every direction: (1) at a tabulated energy `E[k]` the call
`sample(direction, energy)` has the outcome of `sample(direction, k)`; (2) for
`E[k] < energy < E[k+1]`, with `y1`, `y2` the samples of planes `k` and `k+1`,
the result is `y1 * (energy / E[k]) ^ (ln(y2/y1) / ln(E[k+1]/E[k]))` when both
samples are positive, and `0` when both samples are `0`. -/
theorem sampleEnergy_power_law (m : WcsMap2 ℝ) (dir : SkyDir ℝ)
    (hn : m.m_naxes = 3) (hs : m.m_energies.Sorted (· < ·))
    (hpos : ∀ e ∈ m.m_energies, 0 < e) :
    (∀ (k : Nat) (ek : ℝ), m.m_energies[k]? = some ek →
        m.sampleEnergy Real.log (fun a b => a ^ b) dir ek = m.sample dir (k : Int))
    ∧ (∀ (k : Nat) (ek ek1 energy y1 y2 : ℝ),
        m.m_energies[k]? = some ek → m.m_energies[k + 1]? = some ek1 →
        ek < energy → energy < ek1 →
        m.sample dir (k : Int) = .ok y1 → m.sample dir ((k : Int) + 1) = .ok y2 →
        (0 < y1 → 0 < y2 →
          m.sampleEnergy Real.log (fun a b => a ^ b) dir energy
            = .ok (y1 * (energy / ek) ^ (Real.log (y2 / y1) / Real.log (ek1 / ek))))
        ∧ (y1 = 0 → y2 = 0 →
          m.sampleEnergy Real.log (fun a b => a ^ b) dir energy = .ok 0)) := by
  have hlast : ∀ (k : Nat) (e : ℝ), m.m_energies[k]? = some e →
      ∀ e1, m.m_energies.getLast? = some e1 → e ≤ e1 := by
    intro k e hk e1 he1
    obtain ⟨hlen, -⟩ := List.getElem?_eq_some.mp hk
    rw [List.getLast?_eq_getElem?] at he1
    exact sorted_getElem?_le hs (by omega) hk he1
  constructor
  · intro k ek hk
    have hpk : 0 < ek := hpos ek (List.getElem?_mem hk)
    rw [sampleEnergy_bracket Real.log (fun a b => a ^ b) m dir hn hs k ek ek hk
      (le_of_lt hpk) (le_refl _)
      (fun b hb => sorted_getElem?_lt hs (Nat.lt_succ_self k) hk hb) (hlast k ek hk)]
    cases m.sample dir (k : Int) with
    | error e => rfl
    | ok v => simp [Except.bind]
  · intro k ek ek1 energy y1 y2 hk hk1 hlo hhi hy1 hy2
    have hpk : 0 < ek := hpos ek (List.getElem?_mem hk)
    have hpk1 : 0 < ek1 := hpos ek1 (List.getElem?_mem hk1)
    have hpe : 0 < energy := lt_trans hpk hlo
    have hbr := sampleEnergy_bracket Real.log (fun a b => a ^ b) m dir hn hs k ek energy
      hk (le_of_lt hpe) (le_of_lt hlo)
      (fun b hb => by rw [hk1] at hb; cases hb; exact hhi)
      (fun e1 he1 => le_trans (le_of_lt hhi) (hlast (k + 1) ek1 hk1 e1 he1))
    have hidx : vecIdx m.m_energies ((k : Int) + 1) = .ok ek1 := by
      have := vecIdx_ok hk1
      simpa using this
    rw [hbr, hy1, hy2, hidx]
    simp only [Except.bind]
    rw [if_neg (ne_of_gt hlo)]
    constructor
    · intro h1 h2
      rw [(interpolatePowerLaw_value Real.log (fun a b => a ^ b) energy ek ek1 y1 y2
        ⟨hpk, hpk1, h1, h2⟩)]
      congr 1
      rw [Real.div_rpow (le_of_lt hpe) (le_of_lt hpk)]
      ring
    · intro h1 h2
      unfold interpolatePowerLaw
      rw [if_pos ⟨h1, h2⟩]

/-- Witness of the amended C2 on the real two-plane map with energies
`[1, 4]` and both planes equal to `1`: the tabulated energy `4` gives the
outcome of plane `1`, and the energy `2` gives the power law through `(1, 1)`
and `(4, 1)`. -/
theorem sampleEnergy_power_law_witness :
    (demoMap [[[(1 : ℝ)]], [[1]]] 1 1 [1, 4] false false).sampleEnergy Real.log
        (fun a b => a ^ b) (demoDir 1 1) 4
      = (demoMap [[[(1 : ℝ)]], [[1]]] 1 1 [1, 4] false false).sample (demoDir 1 1)
          ((1 : Nat) : Int)
    ∧ (demoMap [[[(1 : ℝ)]], [[1]]] 1 1 [1, 4] false false).sampleEnergy Real.log
        (fun a b => a ^ b) (demoDir 1 1) 2
      = .ok (1 * (2 / 1) ^ (Real.log (1 / 1) / Real.log (4 / 1))) :=
  have hs : (demoMap [[[(1 : ℝ)]], [[1]]] 1 1 [1, 4] false false).m_energies.Sorted
      (· < ·) := by simp [demoMap]
  have hpos : ∀ e ∈ (demoMap [[[(1 : ℝ)]], [[1]]] 1 1 [1, 4] false false).m_energies,
      0 < e := by simp [demoMap]
  have h0 : (demoMap [[[(1 : ℝ)]], [[1]]] 1 1 [1, 4] false false).sample (demoDir 1 1)
      ((0 : Nat) : Int) = .ok 1 := by
    norm_num [WcsMap2.sample, WcsMap2.pixelValue, WcsMap2.check_energy_index, demoMap,
      demoProj, demoDir, vecIdx, vecAt, my_round, castInt, bind, Except.bind]
  have h1 : (demoMap [[[(1 : ℝ)]], [[1]]] 1 1 [1, 4] false false).sample (demoDir 1 1)
      (((0 : Nat) : Int) + 1) = .ok 1 := by
    norm_num [WcsMap2.sample, WcsMap2.pixelValue, WcsMap2.check_energy_index, demoMap,
      demoProj, demoDir, vecIdx, vecAt, my_round, castInt, bind, Except.bind]
  ⟨(sampleEnergy_power_law _ (demoDir 1 1) rfl hs hpos).1 1 4 rfl,
    ((sampleEnergy_power_law _ (demoDir 1 1) rfl hs hpos).2 0 1 4 2 1 1 rfl rfl
      (by norm_num) (by norm_num) h0 h1).1 (by norm_num) (by norm_num)⟩

/-- C3, counterexample.  On the real two-plane map with energies `[100, 200]`
the requested energy `-1` lies below the tabulated range, yet the call does
not fail: it returns the plane-0 sample `1`. -/
theorem sampleEnergy_negative_energy_is_accepted :
    (demoMap [[[(1 : ℝ)]], [[2]]] 1 1 [100, 200] false false).sampleEnergy Real.log
      (fun a b => a ^ b) (demoDir 1 1) (-1) = .ok 1 := by
  norm_num [WcsMap2.sampleEnergy, WcsMap2.sample, WcsMap2.pixelValue,
    WcsMap2.check_energy_index, WcsMap2.upper_bound, demoMap, demoProj, demoDir,
    vecFront, vecBack, vecIdx, vecAt, my_round, castInt, bind, Except.bind, pure,
    Except.pure, List.findIdx_cons]

/-- C3, amended.  With a non-empty energy axis whose first and last entries
are `e0` and `e1`: every requested energy `>= 0` that is below `e0` or above
`e1` makes `sample(direction, energy)` fail with the out-of-range error, so no
value is returned; a negative requested energy is not rejected but replaced by
`e0`, the call behaving exactly as for the energy `e0`. -/
theorem sampleEnergy_out_of_range (log : K → K) (pow : K → K → K) (m : WcsMap2 K)
    (dir : SkyDir K) (energy e0 e1 : K)
    (h0 : m.m_energies.head? = some e0) (h1 : m.m_energies.getLast? = some e1) :
    (0 ≤ energy → (energy < e0 ∨ e1 < energy) →
        m.sampleEnergy log pow dir energy = .error .energyOutOfRange)
    ∧ (energy < 0 →
        m.sampleEnergy log pow dir energy = m.sampleEnergy log pow dir e0) := by
  constructor
  · intro hE hout
    unfold WcsMap2.sampleEnergy
    rw [if_neg (not_lt.mpr hE), vecFront_ok h0, vecBack_ok h1]
    simp only [bind, Except.bind, pure, Except.pure]
    rw [if_pos hout]
  · intro hneg
    unfold WcsMap2.sampleEnergy
    rw [if_pos hneg, vecFront_ok h0, vecBack_ok h1]
    by_cases h : e0 < 0
    · rw [if_pos h]
    · rw [if_neg h]
      rfl

/-- Witness of the amended C3 on the map with energies `[100, 200]`: the
energies `50` and `250` are rejected, and `-1` is treated as `100`. -/
theorem sampleEnergy_out_of_range_witness :
    energyMap.sampleEnergy
        (fun t => t) (fun a b => a * b) (demoDir 1 1) 50 = .error .energyOutOfRange
    ∧ energyMap.sampleEnergy
        (fun t => t) (fun a b => a * b) (demoDir 1 1) 250 = .error .energyOutOfRange
    ∧ energyMap.sampleEnergy (fun t => t) (fun a b => a * b) (demoDir 1 1) (-1)
      = energyMap.sampleEnergy (fun t => t) (fun a b => a * b) (demoDir 1 1) 100 :=
  ⟨(sampleEnergy_out_of_range (fun t => t) (fun a b => a * b)
      energyMap (demoDir 1 1) 50 100 200 rfl rfl).1 (by norm_num)
      (Or.inl (by norm_num)),
    (sampleEnergy_out_of_range (fun t => t) (fun a b => a * b)
      energyMap (demoDir 1 1) 250 100 200 rfl rfl).1 (by norm_num)
      (Or.inr (by norm_num)),
    (sampleEnergy_out_of_range (fun t => t) (fun a b => a * b)
      energyMap (demoDir 1 1) (-1) 100 200 rfl rfl).2 (by norm_num)⟩

/-- C4. `interpolatePowerLaw(x, x1, x2, y1, y2)` returns `0` without failing
when `y1 = 0` and `y2 = 0`, whatever `x1` and `x2` are; in every other case it
fails if and only if at least one of `x1, x2, y1, y2` is `<= 0`; and when all
four are positive it returns the value `y1 / pow(x1, g) * pow(x, g)` with
`g = log(y2/y1) / log(x2/x1)`. -/
theorem interpolatePowerLaw_outcome {F : Type} [LinearOrderedField F]
    (log : F → F) (pow : F → F → F) (x x1 x2 y1 y2 : F) :
    (y1 = 0 ∧ y2 = 0 → interpolatePowerLaw log pow x x1 x2 y1 y2 = .ok 0)
    ∧ (¬ (y1 = 0 ∧ y2 = 0) →
        ((∃ e, interpolatePowerLaw log pow x x1 x2 y1 y2 = .error e)
          ↔ (x1 ≤ 0 ∨ x2 ≤ 0 ∨ y1 ≤ 0 ∨ y2 ≤ 0)))
    ∧ (0 < x1 ∧ 0 < x2 ∧ 0 < y1 ∧ 0 < y2 →
        interpolatePowerLaw log pow x x1 x2 y1 y2
          = .ok (y1 / pow x1 (log (y2 / y1) / log (x2 / x1))
                  * pow x (log (y2 / y1) / log (x2 / x1)))) := by
  refine ⟨fun h => ?_, fun h => ?_, fun h => ?_⟩
  · unfold interpolatePowerLaw
    rw [if_pos h]
  · unfold interpolatePowerLaw
    rw [if_neg h]
    by_cases hx : x1 ≤ 0 ∨ x2 ≤ 0 ∨ y1 ≤ 0 ∨ y2 ≤ 0
    · rw [if_pos hx]
      exact ⟨fun _ => hx, fun _ => ⟨_, rfl⟩⟩
    · rw [if_neg hx]
      constructor
      · rintro ⟨e, he⟩
        cases he
      · intro h'
        exact absurd h' hx
  · exact interpolatePowerLaw_value log pow x x1 x2 y1 y2 h

/-- Witness of C4 on rational inputs, with the identity for `log` and the
product for `pow`: a zero pair returns `0` although `x1 = -1`; the pair
`(0, 1)` fails; four positive inputs return a value. -/
theorem interpolatePowerLaw_outcome_witness :
    interpolatePowerLaw (fun t => t) (fun a b => a * b) (3 : ℚ) (-1) 2 0 0 = .ok 0
    ∧ (∃ e, interpolatePowerLaw (fun t => t) (fun a b => a * b) (3 : ℚ) 1 2 0 1
        = .error e)
    ∧ interpolatePowerLaw (fun t => t) (fun a b => a * b) (3 : ℚ) 1 2 1 4
        = .ok (1 / (1 * (4 / 1 / (2 / 1))) * (3 * (4 / 1 / (2 / 1)))) :=
  ⟨(interpolatePowerLaw_outcome (fun t => t) (fun a b => a * b) (3 : ℚ) (-1) 2 0 0).1
      ⟨rfl, rfl⟩,
    ((interpolatePowerLaw_outcome (fun t => t) (fun a b => a * b) (3 : ℚ) 1 2 0 1).2.1
      (by norm_num)).mpr (by norm_num),
    (interpolatePowerLaw_outcome (fun t => t) (fun a b => a * b) (3 : ℚ) 1 2 1 4).2.2
      (by norm_num)⟩

/-- C5, counterexample.  On the non-periodic 1 x 1 map holding `7`, sampled
without interpolation at the pixel position `(3/2, 1)`, which is inside the map
(`1/2 <= 3/2 <= 1 + 1/2`) and has the only pixel, centre `(1, 1)`, as nearest
pixel, the result is `0` and not the stored `7`. -/
theorem sample_upper_edge_returns_zero :
    (demoMap [[[(7 : ℚ)]]] 1 1 [100] false false).m_proj.project (demoDir (3 / 2) 1)
        = (3 / 2, 1)
    ∧ (demoMap [[[(7 : ℚ)]]] 1 1 [100] false false).imageAt 0 0 0 = some 7
    ∧ (demoMap [[[(7 : ℚ)]]] 1 1 [100] false false).sample (demoDir (3 / 2) 1) 0
        = .ok 0 := by
  refine ⟨?_, ?_, ?_⟩
  · norm_num [demoMap, demoProj, demoDir]
  · simp [WcsMap2.imageAt, demoMap]
  · norm_num [WcsMap2.sample, WcsMap2.pixelValue, WcsMap2.check_energy_index, demoMap,
      demoProj, demoDir, vecIdx, vecAt, my_round, castInt, bind, Except.bind]

/-- C5, amended.  With interpolation disabled, for every well-formed
non-periodic image, valid plane `k` and direction whose projected pixel
coordinates satisfy `0.5 <= x < naxis1 + 0.5` and `0.5 <= y < naxis2 + 0.5`,
`sample(direction, k)` returns the stored value of a map pixel (0-based column
`i < naxis1`, row `j < naxis2`) whose centre `(i+1, j+1)` is nearest to
`(x, y)` among all integer pixel centres. -/
theorem sample_nearest_pixel (m : WcsMap2 K) (dir : SkyDir K) (k : Nat)
    (hwf : m.WellFormed) (hk : (k : Int) < m.m_naxis3)
    (hnp : m.m_isPeriodic = false) (hni : m.m_interpolate = false)
    (hx : 1 / 2 ≤ (m.m_proj.project dir).1
      ∧ (m.m_proj.project dir).1 < (m.m_naxis1 : K) + 1 / 2)
    (hy : 1 / 2 ≤ (m.m_proj.project dir).2
      ∧ (m.m_proj.project dir).2 < (m.m_naxis2 : K) + 1 / 2) :
    ∃ (i j : Nat) (v : K), (i : Int) < m.m_naxis1 ∧ (j : Int) < m.m_naxis2
      ∧ m.imageAt k j i = some v ∧ m.sample dir (k : Int) = .ok v
      ∧ ∀ i' j' : Int,
          ((m.m_proj.project dir).1 - ((i : K) + 1)) ^ 2
            + ((m.m_proj.project dir).2 - ((j : K) + 1)) ^ 2
          ≤ ((m.m_proj.project dir).1 - (i' : K)) ^ 2
            + ((m.m_proj.project dir).2 - (j' : K)) ^ 2 := by
  obtain ⟨hx1, hx2⟩ := hx
  obtain ⟨hy1, hy2⟩ := hy
  set x := (m.m_proj.project dir).1 with hxdef
  set y := (m.m_proj.project dir).2 with hydef
  obtain ⟨rx, hrx, hrx1, hrx2⟩ := my_round_spec (le_trans (by norm_num) hx1 : (0 : K) ≤ x)
  obtain ⟨ry, hry, hry1, hry2⟩ := my_round_spec (le_trans (by norm_num) hy1 : (0 : K) ≤ y)
  have hrx_lo : 1 ≤ rx := by
    have : (0 : K) < (rx : K) := by linarith
    have : (0 : Int) < rx := by exact_mod_cast this
    omega
  have hrx_hi : rx ≤ m.m_naxis1 := by
    have : (rx : K) < (m.m_naxis1 : K) + 1 := by linarith
    have : rx < m.m_naxis1 + 1 := by exact_mod_cast this
    omega
  have hry_lo : 1 ≤ ry := by
    have : (0 : K) < (ry : K) := by linarith
    have : (0 : Int) < ry := by exact_mod_cast this
    omega
  have hry_hi : ry ≤ m.m_naxis2 := by
    have : (ry : K) < (m.m_naxis2 : K) + 1 := by linarith
    have : ry < m.m_naxis2 + 1 := by exact_mod_cast this
    omega
  obtain ⟨i, hi⟩ : ∃ i : Nat, (i : Int) = rx - 1 := ⟨(rx - 1).toNat, by omega⟩
  obtain ⟨j, hj⟩ : ∃ j : Nat, (j : Int) = ry - 1 := ⟨(ry - 1).toNat, by omega⟩
  obtain ⟨plane, row, v, hp, hr, hv, hat⟩ :=
    imageAt_of_wellFormed hwf hk (by omega : (j : Int) < m.m_naxis2)
      (by omega : (i : Int) < m.m_naxis1)
  refine ⟨i, j, v, by omega, by omega, hat, ?_, ?_⟩
  · have hchk : m.check_energy_index (k : Int) = .ok () := by
      unfold WcsMap2.check_energy_index
      rw [if_neg]
      rintro ⟨-, h | h⟩ <;> omega
    have hin : ¬ ((m.m_isPeriodic = false ∧ (x < 1 / 2 ∨ x > (m.m_naxis1 : K) + 1 / 2))
        ∨ y < 1 / 2 ∨ y > (m.m_naxis2 : K) + 1 / 2) := by
      rintro (⟨-, h | h⟩ | h | h)
      · exact absurd hx1 (not_le.mpr h)
      · exact absurd (le_of_lt hx2) (not_le.mpr h)
      · exact absurd hy1 (not_le.mpr h)
      · exact absurd (le_of_lt hy2) (not_le.mpr h)
    rw [sample_eq_pixelValue m dir (k : Int) hchk hnp hni hin]
    unfold WcsMap2.pixelValue
    simp only [hchk, bind, Except.bind, hrx, hry, ← hi, ← hj]
    rw [if_neg, if_neg (by omega), vecIdx_ok hp]
    · simp only [vecAt_ok hr, vecAt_ok hv]
    · rintro (⟨-, h | h⟩ | h | h) <;> omega
  · intro i' j'
    have e1 : ((i : K) + 1) = (rx : K) := by
      have : ((i : Int) : K) = ((rx - 1 : Int) : K) := by rw [hi]
      push_cast at this
      linarith
    have e2 : ((j : K) + 1) = (ry : K) := by
      have : ((j : Int) : K) = ((ry - 1 : Int) : K) := by rw [hj]
      push_cast at this
      linarith
    rw [e1, e2]
    exact add_le_add (nearest_of_round hrx1 hrx2 i') (nearest_of_round hry1 hry2 j')

/-- Witness of the amended C5: on the 2 x 2 map `[[1, 2], [3, 4]]` the
position `(9/4, 1)` is inside the map and samples to a stored pixel with
nearest centre. -/
theorem sample_nearest_pixel_witness :
    ∃ (i j : Nat) (v : ℚ), (i : Int) < 2 ∧ (j : Int) < 2
      ∧ (squareMap false).imageAt 0 j i = some v
      ∧ (squareMap false).sample (demoDir (9 / 4) 1) ((0 : Nat) : Int) = .ok v
      ∧ ∀ i' j' : Int,
          (((squareMap false).m_proj.project (demoDir (9 / 4) 1)).1 - ((i : ℚ) + 1)) ^ 2
            + (((squareMap false).m_proj.project (demoDir (9 / 4) 1)).2 - ((j : ℚ) + 1)) ^ 2
          ≤ (((squareMap false).m_proj.project (demoDir (9 / 4) 1)).1 - (i' : ℚ)) ^ 2
            + (((squareMap false).m_proj.project (demoDir (9 / 4) 1)).2 - (j' : ℚ)) ^ 2 :=
  sample_nearest_pixel (squareMap false)
    (demoDir (9 / 4) 1) 0 (by simp [WcsMap2.WellFormed, demoMap, squareMap])
    (by simp [demoMap, squareMap])
    rfl rfl (by norm_num [demoMap, squareMap, demoProj, demoDir])
    (by norm_num [demoMap, squareMap, demoProj, demoDir])

/-- C6, counterexample.  On the non-periodic interpolating 2 x 2 map
`[[1, 2], [3, 4]]` the in-map position `(1/2, 1)` samples to `1/2`, which is
below every stored pixel value: the weights there are `3/2` and `-1/2`. -/
theorem sample_extrapolates_near_edge :
    (squareMap true).m_proj.project (demoDir (1 / 2) 1) = (1 / 2, 1)
    ∧ (squareMap true).sample (demoDir (1 / 2) 1) 0 = .ok (1 / 2)
    ∧ ∀ plane ∈ (squareMap true).m_image,
        ∀ row ∈ plane, ∀ v ∈ row, (1 / 2 : ℚ) < v := by
  refine ⟨?_, ?_, ?_⟩
  · norm_num [demoMap, squareMap, demoProj, demoDir]
  · norm_num [WcsMap2.sample, WcsMap2.check_energy_index, demoMap, squareMap,
      demoProj, demoDir, vecIdx, vecAt, castInt, bind, Except.bind, pure, Except.pure]
  · norm_num [demoMap, squareMap]

/-- C6, amended.  With interpolation enabled, for every well-formed
non-periodic image with `naxis1 >= 2` and `naxis2 >= 2`, valid plane `k` and
in-map position (`0.5 <= x <= naxis1 + 0.5`, `0.5 <= y <= naxis2 + 0.5`),
`sample(direction, k)` is the bilinear form
`(1-t)(1-u) y1 + t(1-u) y2 + t u y3 + (1-t) u y4` of the four stored values of
the cell of neighbouring pixels with the 0-based columns `i`, `i+1` and rows
`j`, `j+1`, where `i+1` is the integer part of `x` clamped into
`1 .. naxis1 - 1` and `j+1` is the integer part of `y` clamped into
`1 .. naxis2 - 1`, with `t = x - (i+1)`, `u = y - (j+1)` and weights that sum
to `1`.  For
`1 <= x <= naxis1` and `1 <= y <= naxis2` the four weights are non-negative
and the result lies between the smallest and the largest of the four values;
within half a pixel of the map edge the same form is extrapolated. -/
theorem sample_bilinear (m : WcsMap2 K) (dir : SkyDir K) (k : Nat)
    (hwf : m.WellFormed) (hk : (k : Int) < m.m_naxis3)
    (hnp : m.m_isPeriodic = false) (hint : m.m_interpolate = true)
    (hn1 : 2 ≤ m.m_naxis1) (hn2 : 2 ≤ m.m_naxis2)
    (hx : 1 / 2 ≤ (m.m_proj.project dir).1
      ∧ (m.m_proj.project dir).1 ≤ (m.m_naxis1 : K) + 1 / 2)
    (hy : 1 / 2 ≤ (m.m_proj.project dir).2
      ∧ (m.m_proj.project dir).2 ≤ (m.m_naxis2 : K) + 1 / 2) :
    ∃ (i j : Nat) (y1 y2 y3 y4 t u : K),
      (i : Int) + 1 = min (max ⌊(m.m_proj.project dir).1⌋ 1) (m.m_naxis1 - 1)
      ∧ (j : Int) + 1 = min (max ⌊(m.m_proj.project dir).2⌋ 1) (m.m_naxis2 - 1)
      ∧ (i : Int) + 1 < m.m_naxis1 ∧ (j : Int) + 1 < m.m_naxis2
      ∧ m.imageAt k j i = some y1 ∧ m.imageAt k j (i + 1) = some y2
      ∧ m.imageAt k (j + 1) (i + 1) = some y3 ∧ m.imageAt k (j + 1) i = some y4
      ∧ t = (m.m_proj.project dir).1 - ((i : K) + 1)
      ∧ u = (m.m_proj.project dir).2 - ((j : K) + 1)
      ∧ m.sample dir (k : Int)
          = .ok ((1 - t) * (1 - u) * y1 + t * (1 - u) * y2 + t * u * y3
                  + (1 - t) * u * y4)
      ∧ (1 - t) * (1 - u) + t * (1 - u) + t * u + (1 - t) * u = 1
      ∧ (1 ≤ (m.m_proj.project dir).1 ∧ (m.m_proj.project dir).1 ≤ (m.m_naxis1 : K) →
         1 ≤ (m.m_proj.project dir).2 ∧ (m.m_proj.project dir).2 ≤ (m.m_naxis2 : K) →
          0 ≤ (1 - t) * (1 - u) ∧ 0 ≤ t * (1 - u) ∧ 0 ≤ t * u ∧ 0 ≤ (1 - t) * u
          ∧ min (min y1 y2) (min y3 y4)
              ≤ (1 - t) * (1 - u) * y1 + t * (1 - u) * y2 + t * u * y3
                  + (1 - t) * u * y4
          ∧ (1 - t) * (1 - u) * y1 + t * (1 - u) * y2 + t * u * y3 + (1 - t) * u * y4
              ≤ max (max y1 y2) (max y3 y4)) := by
  obtain ⟨hx1, hx2⟩ := hx
  obtain ⟨hy1, hy2⟩ := hy
  obtain ⟨i, hix, hi, hti⟩ := clamp_cell hn1 hx1
  obtain ⟨j, hiy, hj, htj⟩ := clamp_cell hn2 hy1
  obtain ⟨plane, row0, y1, hp, hr0, h1, hat1⟩ :=
    imageAt_of_wellFormed hwf hk (by omega : (j : Int) < m.m_naxis2)
      (by omega : (i : Int) < m.m_naxis1)
  obtain ⟨plane', row1, y3, hp', hr1, h3, hat3⟩ :=
    imageAt_of_wellFormed hwf hk (by push_cast; omega : ((j + 1 : Nat) : Int) < m.m_naxis2)
      (by push_cast; omega : ((i + 1 : Nat) : Int) < m.m_naxis1)
  obtain ⟨plane2, row0', y2, hp2, hr0', h2, hat2⟩ :=
    imageAt_of_wellFormed hwf hk (by omega : (j : Int) < m.m_naxis2)
      (by push_cast; omega : ((i + 1 : Nat) : Int) < m.m_naxis1)
  obtain ⟨plane4, row1', y4, hp4, hr1', h4, hat4⟩ :=
    imageAt_of_wellFormed hwf hk (by push_cast; omega : ((j + 1 : Nat) : Int) < m.m_naxis2)
      (by omega : (i : Int) < m.m_naxis1)
  have ep' : plane' = plane := by rw [hp] at hp'; exact (Option.some.inj hp').symm
  have ep2 : plane2 = plane := by rw [hp] at hp2; exact (Option.some.inj hp2).symm
  have ep4 : plane4 = plane := by rw [hp] at hp4; exact (Option.some.inj hp4).symm
  subst ep' ep2 ep4
  have er0 : row0' = row0 := by rw [hr0] at hr0'; exact (Option.some.inj hr0').symm
  have er1 : row1' = row1 := by rw [hr1] at hr1'; exact (Option.some.inj hr1').symm
  subst er0 er1
  have hchk : m.check_energy_index (k : Int) = .ok () := by
    unfold WcsMap2.check_energy_index
    rw [if_neg]
    rintro ⟨-, h | h⟩ <;> omega
  have hin : ¬ ((m.m_isPeriodic = false
        ∧ ((m.m_proj.project dir).1 < 1 / 2
          ∨ (m.m_proj.project dir).1 > (m.m_naxis1 : K) + 1 / 2))
      ∨ (m.m_proj.project dir).2 < 1 / 2
      ∨ (m.m_proj.project dir).2 > (m.m_naxis2 : K) + 1 / 2) := by
    rintro (⟨-, h | h⟩ | h | h)
    · exact absurd hx1 (not_le.mpr h)
    · exact absurd hx2 (not_le.mpr h)
    · exact absurd hy1 (not_le.mpr h)
    · exact absurd hy2 (not_le.mpr h)
  have hci : (i : Int) + 1 = min (max ⌊(m.m_proj.project dir).1⌋ 1) (m.m_naxis1 - 1) := by
    rw [← hix]
    exact clamp_eq_min_max (le_trans (by norm_num) hx1)
  have hcj : (j : Int) + 1 = min (max ⌊(m.m_proj.project dir).2⌋ 1) (m.m_naxis2 - 1) := by
    rw [← hiy]
    exact clamp_eq_min_max (le_trans (by norm_num) hy1)
  refine ⟨i, j, y1, y2, y3, y4, _, _, hci, hcj, hi, hj, hat1, hat2, hat3, hat4, rfl, rfl,
    sample_eq_bilinear m dir k hchk hnp hint hin i j hix hiy _ _ _ y1 y2 y3 y4
      hp hr0 hr1 h1 h2 h3 h4, by ring, ?_⟩
  intro hxi hyi
  obtain ⟨t0, t1⟩ := hti hxi.1 hxi.2
  obtain ⟨u0, u1⟩ := htj hyi.1 hyi.2
  refine ⟨mul_nonneg (by linarith) (by linarith), mul_nonneg t0 (by linarith),
    mul_nonneg t0 u0, mul_nonneg (by linarith) u0, ?_⟩
  exact bilinear_between t0 t1 u0 u1

/-- Witness of the amended C6: on the interpolating 2 x 2 map
`[[1, 2], [3, 4]]` the position `(3/2, 5/4)` is inside the map, away from the
edge by more than half a pixel, and samples to a bilinear combination of the
four stored values. -/
theorem sample_bilinear_witness :
    ∃ (i j : Nat) (y1 y2 y3 y4 t u : ℚ),
      (i : Int) + 1
          = min (max ⌊((squareMap true).m_proj.project (demoDir (3 / 2) (5 / 4))).1⌋ 1)
              ((squareMap true).m_naxis1 - 1)
      ∧ (j : Int) + 1
          = min (max ⌊((squareMap true).m_proj.project (demoDir (3 / 2) (5 / 4))).2⌋ 1)
              ((squareMap true).m_naxis2 - 1)
      ∧ (i : Int) + 1 < 2 ∧ (j : Int) + 1 < 2
      ∧ (squareMap true).imageAt 0 j i = some y1
      ∧ (squareMap true).imageAt 0 j (i + 1) = some y2
      ∧ (squareMap true).imageAt 0 (j + 1) (i + 1) = some y3
      ∧ (squareMap true).imageAt 0 (j + 1) i = some y4
      ∧ t = ((squareMap true).m_proj.project (demoDir (3 / 2) (5 / 4))).1 - ((i : ℚ) + 1)
      ∧ u = ((squareMap true).m_proj.project (demoDir (3 / 2) (5 / 4))).2 - ((j : ℚ) + 1)
      ∧ (squareMap true).sample (demoDir (3 / 2) (5 / 4)) ((0 : Nat) : Int)
          = .ok ((1 - t) * (1 - u) * y1 + t * (1 - u) * y2 + t * u * y3
                  + (1 - t) * u * y4)
      ∧ (1 - t) * (1 - u) + t * (1 - u) + t * u + (1 - t) * u = 1
      ∧ (1 ≤ ((squareMap true).m_proj.project (demoDir (3 / 2) (5 / 4))).1
          ∧ ((squareMap true).m_proj.project (demoDir (3 / 2) (5 / 4))).1 ≤ (2 : ℚ) →
         1 ≤ ((squareMap true).m_proj.project (demoDir (3 / 2) (5 / 4))).2
          ∧ ((squareMap true).m_proj.project (demoDir (3 / 2) (5 / 4))).2 ≤ (2 : ℚ) →
          0 ≤ (1 - t) * (1 - u) ∧ 0 ≤ t * (1 - u) ∧ 0 ≤ t * u ∧ 0 ≤ (1 - t) * u
          ∧ min (min y1 y2) (min y3 y4)
              ≤ (1 - t) * (1 - u) * y1 + t * (1 - u) * y2 + t * u * y3
                  + (1 - t) * u * y4
          ∧ (1 - t) * (1 - u) * y1 + t * (1 - u) * y2 + t * u * y3 + (1 - t) * u * y4
              ≤ max (max y1 y2) (max y3 y4)) :=
  sample_bilinear (squareMap true)
    (demoDir (3 / 2) (5 / 4)) 0 (by simp [WcsMap2.WellFormed, demoMap, squareMap])
    (by simp [demoMap, squareMap]) rfl rfl (by simp [demoMap, squareMap])
    (by simp [demoMap, squareMap])
    (by norm_num [demoMap, squareMap, demoProj, demoDir])
    (by norm_num [demoMap, squareMap, demoProj, demoDir])

/-- C7, the code at the failing input.  On the periodic 4 x 2 map
`[[1, 2, 3, 4], [5, 6, 7, 8]]` the longitudes `-135` and `-135 + 360 = 225`
degrees (latitude `45/2`) are the same sky position; they project to the pixel
positions `(-1, 1)` and `(-1 + naxis1, 1) = (3, 1)`, one full turn apart, with
`y = 1` inside the map.  Sampling at `x = 3` returns the stored value `3`, with
and without interpolation; sampling at `x = -1` fails in both modes with the
`std::out_of_range` of `std::vector::at`, because `fmod(-1, 4) = -1` is not
brought back into the map. -/
theorem sample_periodic_negative_longitude_fails :
    (ringMap false).m_proj.project (demoDir (-135) (45 / 2)) = (-1, 1)
    ∧ (ringMap false).m_proj.project (demoDir (-135 + 360) (45 / 2)) = (-1 + 4, 1)
    ∧ fmod (-1 : ℚ) 4 = -1
    ∧ (ringMap false).sample (demoDir (-135) (45 / 2)) 0 = .error .vectorAt
    ∧ (ringMap false).sample (demoDir (-135 + 360) (45 / 2)) 0 = .ok 3
    ∧ (ringMap true).sample (demoDir (-135) (45 / 2)) 0 = .error .vectorAt
    ∧ (ringMap true).sample (demoDir (-135 + 360) (45 / 2)) 0 = .ok 3 := by
  have e1 : fmod (-1 : ℚ) 4 = -1 := by norm_num [fmod, castInt, Int.ceil_eq_iff]
  have e2 : fmod (3 : ℚ) 4 = 3 := by norm_num [fmod, castInt, Int.floor_eq_iff]
  have e0 : ⌈(-1 : ℚ)⌉ = -1 := by rw [Int.ceil_eq_iff]; norm_num
  have e3 : my_round (-1 : ℚ) = -1 := by norm_num [my_round, castInt, e0]
  have e4 : my_round (1 : ℚ) = 1 := by norm_num [my_round, castInt]
  have e5 : my_round (3 : ℚ) = 3 := by norm_num [my_round, castInt]
  have e6 : castInt (-1 : ℚ) = -1 := by norm_num [castInt, Int.ceil_eq_iff]
  have e7 : castInt (1 : ℚ) = 1 := by norm_num [castInt]
  have e8 : castInt (3 : ℚ) = 3 := by norm_num [castInt]
  have e9 : Int.toNat 2 = 2 := rfl
  have p1 : ∀ b : Bool, (ringMap b).m_proj.project (demoDir (-135) (45 / 2)) = (-1, 1) := by
    intro b
    norm_num [ringMap, demoProj, demoDir]
  have p2 : ∀ b : Bool,
      (ringMap b).m_proj.project (demoDir (-135 + 360) (45 / 2)) = (3, 1) := by
    intro b
    norm_num [ringMap, demoProj, demoDir]
  have p3 : ∀ b : Bool, (ringMap b).m_proj.project (demoDir 225 (45 / 2)) = (3, 1) := by
    intro b
    norm_num [ringMap, demoProj, demoDir]
  have f1 : ∀ b : Bool, (ringMap b).m_naxis1 = 4 := fun _ => rfl
  have f2 : ∀ b : Bool, (ringMap b).m_naxis2 = 2 := fun _ => rfl
  have f3 : ∀ b : Bool, (ringMap b).m_naxis3 = 1 := fun _ => rfl
  have f4 : ∀ b : Bool, (ringMap b).m_naxes = 3 := fun _ => rfl
  have f5 : ∀ b : Bool, (ringMap b).m_isPeriodic = true := fun _ => rfl
  have f6 : ∀ b : Bool, (ringMap b).m_interpolate = b := fun _ => rfl
  have f7 : ∀ b : Bool, (ringMap b).m_image = [[[1, 2, 3, 4], [5, 6, 7, 8]]] := fun _ => rfl
  refine ⟨p1 false, ?_, e1, ?_, ?_, ?_, ?_⟩
  · rw [p2]
    norm_num
  all_goals
    norm_num [WcsMap2.sample, WcsMap2.pixelValue, WcsMap2.check_energy_index, p1, p3, f1,
      f2, f3, f4, f5, f6, f7, vecIdx, vecAt, vecBack, bind, Except.bind, pure,
      Except.pure, e1, e2, e3, e4, e5, e6, e7, e8, e9]

/-- C8, the code at the failing input.  For the 1 x 1 single-plane map
holding `2` (its only pixel has the 1-based centre `(1, 1)`), the integral
cached by `computeMapIntegrals` and returned by `mapIntegral(E[0])` is
`1/1800`: the pixel value times the solid angle evaluated at `(0, 0)`, and not
the pixel value times the solid angle at the pixel's centre `(1, 1)`, which is
`8099/14580000`. -/
theorem computeMapIntegrals_solid_angle_off_by_one :
    ∀ (log exp : ℚ → ℚ),
      (((demoMap [[[(2 : ℚ)]]] 1 1 [100] false false).computeMapIntegrals demoGeom).bind
          (fun m => m.mapIntegral log exp 100)) = .ok (1 / 1800)
      ∧ 2 * (demoMap [[[(2 : ℚ)]]] 1 1 [100] false false).solidAngle demoGeom 0 0
          = 1 / 1800
      ∧ 2 * (demoMap [[[(2 : ℚ)]]] 1 1 [100] false false).solidAngle demoGeom (0 + 1) (0 + 1)
          = 8099 / 14580000 := by
  intro log exp
  have r1 : List.range 1 = [0] := rfl
  have t1 : Int.toNat 1 = 1 := rfl
  refine ⟨?_, ?_, ?_⟩
  · norm_num [WcsMap2.computeMapIntegrals, WcsMap2.integratePlane, WcsMap2.solidAngles,
      WcsMap2.solidAngle, WcsMap2.solidAngleOf, WcsMap2.mapIntegral,
      WcsMap2.upper_bound, demoGeom, demoMap, demoProj, demoDir, vecIdx, vecAt,
      vecFront, vecBack, bind, Except.bind, pure, Except.pure, r1, t1, List.foldlM,
      List.findIdx_cons, List.singleton, abs_of_nonneg, abs_of_neg]
  · norm_num [WcsMap2.solidAngle, WcsMap2.solidAngleOf, demoGeom, demoMap, demoProj,
      abs_of_nonneg, abs_of_neg]
  · norm_num [WcsMap2.solidAngle, WcsMap2.solidAngleOf, demoGeom, demoMap, demoProj,
      abs_of_nonneg, abs_of_neg]

set_option maxHeartbeats 1600000 in
/-- C9, the code at the failing input.  The maps are 1 x 1 with the solid
angle `1/3600`, so that a plane holding `3600 c` has the integral `c`.
(1) With energies `[1, 2]`, plane integrals `[1, 2]` and the requested energy
`3/2` (between the first two planes) `mapIntegral` reads `m_mapIntegrals[-1]`
and `m_energies[-1]`: the call has undefined behaviour.  (2) With energies
`[1, 2, 4]`, plane integrals `[4, 1, 2]` and the requested energy `3`, which
lies between planes 1 and 2 (integrals `1` and `2`), `mapIntegral`
interpolates between planes 0 and 1 and returns `4/9`, a value that is not
between `1` and `2`. -/
theorem mapIntegral_uses_previous_bracket :
    (∀ (log exp : ℚ → ℚ),
      ((demoMap [[[(3600 : ℚ)]], [[7200]]] 1 1 [1, 2] false false).computeMapIntegrals
          demoGeom).bind (fun m => m.mapIntegral log exp (3 / 2))
        = .error .undefinedBehaviour)
    ∧ ((demoMap [[[(14400 : ℝ)]], [[3600]], [[7200]]] 1 1 [1, 2, 4] false
          false).computeMapIntegrals demoGeom).map (fun m => m.m_mapIntegrals)
        = .ok [4, 1, 2]
    ∧ ((demoMap [[[(14400 : ℝ)]], [[3600]], [[7200]]] 1 1 [1, 2, 4] false
          false).computeMapIntegrals demoGeom).bind
          (fun m => m.mapIntegral Real.log Real.exp 3)
        = .ok (4 / 9) := by
  have r1 : List.range 1 = [0] := rfl
  have r2 : List.range 2 = [0, 1] := rfl
  have r3 : List.range 3 = [0, 1, 2] := rfl
  have t1 : Int.toNat 1 = 1 := rfl
  have t2 : Int.toNat 2 = 2 := rfl
  have t3 : Int.toNat 3 = 3 := rfl
  have hwf : (demoMap [[[(14400 : ℝ)]], [[3600]], [[7200]]] 1 1 [1, 2, 4] false
      false).WellFormed := by
    simp [WcsMap2.WellFormed, demoMap]
  have hc : (demoMap [[[(14400 : ℝ)]], [[3600]], [[7200]]] 1 1 [1, 2, 4] false
      false).CacheOk := by
    simp [WcsMap2.CacheOk, demoMap]
  have hsa : (demoMap [[[(14400 : ℝ)]], [[3600]], [[7200]]] 1 1 [1, 2, 4] false
      false).solidAngles demoGeom = [[1 / 3600]] := by
    norm_num [WcsMap2.solidAngles, WcsMap2.solidAngle, WcsMap2.solidAngleOf, demoGeom,
      demoMap, demoProj, r1, t1, abs_of_nonneg, abs_of_neg]
  have hflux : List.map ((demoMap [[[(14400 : ℝ)]], [[3600]], [[7200]]] 1 1 [1, 2, 4]
      false false).planeFlux demoGeom) (List.range 3) = [4, 1, 2] := by
    simp only [r3, List.map_cons, List.map_nil, WcsMap2.planeFlux, hsa]
    norm_num [WcsMap2.tableAt, WcsMap2.imageAt, demoMap, Finset.sum_range_succ, t1]
  refine ⟨?_, ?_, ?_⟩
  · intro log exp
    have hwf2 : (demoMap [[[(3600 : ℚ)]], [[7200]]] 1 1 [1, 2] false false).WellFormed := by
      simp [WcsMap2.WellFormed, demoMap]
    have hc2 : (demoMap [[[(3600 : ℚ)]], [[7200]]] 1 1 [1, 2] false false).CacheOk := by
      simp [WcsMap2.CacheOk, demoMap]
    have hsa2 : (demoMap [[[(3600 : ℚ)]], [[7200]]] 1 1 [1, 2] false false).solidAngles
        demoGeom = [[1 / 3600]] := by
      norm_num [WcsMap2.solidAngles, WcsMap2.solidAngle, WcsMap2.solidAngleOf, demoGeom,
        demoMap, demoProj, r1, t1, abs_of_nonneg, abs_of_neg]
    have hflux2 : List.map ((demoMap [[[(3600 : ℚ)]], [[7200]]] 1 1 [1, 2] false
        false).planeFlux demoGeom) (List.range 2) = [1, 2] := by
      simp only [r2, List.map_cons, List.map_nil, WcsMap2.planeFlux, hsa2]
      norm_num [WcsMap2.tableAt, WcsMap2.imageAt, demoMap, Finset.sum_range_succ, t1]
    rw [computeMapIntegrals_spec demoGeom _ hwf2 hc2]
    refine Eq.trans (mapIntegral_congr log exp (3 / 2) _
      ({ demoMap [[[(3600 : ℚ)]], [[7200]]] 1 1 [1, 2] false false with
          m_mapIntegrals := [1, 2] } : WcsMap2 ℚ) rfl rfl hflux2) ?_
    norm_num [WcsMap2.mapIntegral, WcsMap2.upper_bound, demoMap, vecIdx, vecAt, vecFront,
      vecBack, bind, Except.bind, pure, Except.pure, List.findIdx_cons]
  · rw [computeMapIntegrals_spec demoGeom _ hwf hc]
    exact congrArg Except.ok hflux
  · have h2 : Real.log 2 ≠ 0 := by
      have : (0 : ℝ) < Real.log 2 := Real.log_pos (by norm_num)
      exact ne_of_gt this
    have h4 : Real.log (1 / 4) = -(2 * Real.log 2) := by
      rw [one_div, Real.log_inv]
      have : (4 : ℝ) = 2 ^ 2 := by norm_num
      rw [this, Real.log_pow]
      push_cast
      ring
    have hexp : Real.exp (Real.log 3 / Real.log 2 * Real.log (1 / 4)) = 1 / 9 := by
      rw [h4]
      have : Real.log 3 / Real.log 2 * -(2 * Real.log 2) = -(Real.log 3 + Real.log 3) := by
        field_simp
        ring
      rw [this, Real.exp_neg, Real.exp_add, Real.exp_log (by norm_num)]
      norm_num
    rw [computeMapIntegrals_spec demoGeom _ hwf hc]
    refine Eq.trans (mapIntegral_congr Real.log Real.exp 3 _
      ({ demoMap [[[(14400 : ℝ)]], [[3600]], [[7200]]] 1 1 [1, 2, 4] false false with
          m_mapIntegrals := [4, 1, 2] } : WcsMap2 ℝ) rfl rfl hflux) ?_
    norm_num [WcsMap2.mapIntegral, WcsMap2.upper_bound, demoMap, vecIdx, vecAt, vecFront,
      vecBack, bind, Except.bind, pure, Except.pure, List.findIdx_cons, t1, t2, hexp]

/-- C11, failing inputs.  On the 2 x 1 single-plane map `[[0, 1]]`,
`rebin(1, true)` indexes out of bounds: the averaging loops run `ii` below the
new `naxis2 = 1` and `jj` below the new `naxis1 = 2` and access element
`[jj][ii]`, so `jj = 1` addresses row 1 of arrays that have one row.  On the
square 1 x 1 two-plane map with planes `1` and `2` the loops stay in bounds,
but `rebin(1, true)` returns the planes `3601` and `7202`: the destination
still held the source values when the products were added, so the result is
`(v + v s) / s` with `s = 1/3600`, not the weighted mean `v s / s = v` of the
single source pixel. -/
theorem rebin_average_indexes_out_of_bounds :
    stripMap.rebin demoGeom demoMkSkyProj 1 true = .error .undefinedBehaviour
    ∧ (∃ this, energyMap.rebin demoGeom demoMkSkyProj 1 true
        = .ok (this, WcsMap2.rebinned demoMkSkyProj energyMap 1 [[[3601]], [[7202]]]))
    ∧ energyMap.m_image = [[[1]], [[2]]] := by
  have r1 : List.range 1 = [0] := rfl
  have r2 : List.range 2 = [0, 1] := rfl
  have t1 : Int.toNat 1 = 1 := rfl
  have t2 : Int.toNat 2 = 2 := rfl
  have s1 : WcsMap2.rebinSize 1 1 = 1 := by norm_num [WcsMap2.rebinSize]
  have s2 : WcsMap2.rebinSize 2 1 = 2 := by norm_num [WcsMap2.rebinSize]
  refine ⟨?_, ?_, rfl⟩
  · have hsa : stripMap.solidAngles demoGeom = [[1 / 3600], [1 / 3600]] := by
      norm_num [WcsMap2.solidAngles, WcsMap2.solidAngle, WcsMap2.solidAngleOf, demoGeom,
        demoMap, stripMap, demoProj, r1, r2, t1, t2, abs_of_nonneg, abs_of_neg]
    have h0 : WcsMap2.rebinSolidAngles demoGeom stripMap 1 2 1 true
        = .ok [[1 / 3600, 1 / 3600]] := by
      simp only [WcsMap2.rebinSolidAngles, hsa]
      norm_num [WcsMap2.modifyAt2, demoMap, stripMap, vecIdx, List.replicate,
        bind, Except.bind, pure, Except.pure, r1, r2, t1, t2, List.foldlM]
    have hplane : WcsMap2.rebinPlane demoGeom stripMap 1 2 1 [[1 / 3600, 1 / 3600]] true
        [[[(0 : ℚ), 1]]] 0 = .error .undefinedBehaviour := by
      simp only [WcsMap2.rebinPlane, WcsMap2.rebinAccumulate, WcsMap2.rebinAverage, hsa]
      norm_num [WcsMap2.rebinResize, WcsMap2.vecResize, WcsMap2.modifyAt2, demoMap, stripMap,
        vecIdx, bind, Except.bind, pure, Except.pure, r1, r2, t1, t2, List.foldlM]
    refine rebin_error demoGeom demoMkSkyProj stripMap 1 true (by norm_num)
      [[1 / 3600, 1 / 3600]] _ ?_ ?_
    · show WcsMap2.rebinSolidAngles demoGeom stripMap 1 (WcsMap2.rebinSize 2 1)
        (WcsMap2.rebinSize 1 1) true = _
      rw [s1, s2, h0]
    · show List.foldlM (WcsMap2.rebinPlane demoGeom stripMap 1 (WcsMap2.rebinSize 2 1)
        (WcsMap2.rebinSize 1 1) [[1 / 3600, 1 / 3600]] true) [[[(0 : ℚ), 1]]] (List.range 1) = _
      rw [s1, s2, r1]
      simp only [List.foldlM, bind, Except.bind, hplane]
  · have e : WcsMap2.solidAngleOf demoGeom (demoProj ((0 : ℚ), 0) (0, 0) (1, 1))
        (((0 : Nat) : ℚ)) (((0 : Nat) : ℚ)) = 1 / 3600 := by
      simp only [WcsMap2.solidAngleOf, demoGeom, demoProj]
      norm_num [abs_of_nonneg, abs_of_neg]
    have hsa : energyMap.solidAngles demoGeom = [[1 / 3600]] := by
      show (if ([] : List (List ℚ)).isEmpty = true then
          List.map (fun (i : Nat) => List.map (fun (j : Nat) =>
            WcsMap2.solidAngleOf demoGeom (demoProj ((0 : ℚ), 0) (0, 0) (1, 1)) (i : ℚ) (j : ℚ))
              (List.range (Int.toNat 1)))
            (List.range (Int.toNat 1))
          else []) = _
      rw [t1, r1]
      simp only [List.isEmpty_nil, if_true, List.map_cons, List.map_nil, e]
    have hwf : energyMap.WellFormed := by
      simp [WcsMap2.WellFormed, demoMap, energyMap]
    have hc : energyMap.CacheOk := Or.inl rfl
    have a1 : energyMap.m_naxis1 = 1 := rfl
    have a2 : energyMap.m_naxis2 = 1 := rfl
    have a3 : energyMap.m_naxis3 = 2 := rfl
    have him : energyMap.m_image = [[[1]], [[2]]] := rfl
    have h0 : WcsMap2.rebinSolidAngles demoGeom energyMap 1 1 1 true
        = .ok [[1 / 3600]] := by
      simp only [WcsMap2.rebinSolidAngles, hsa, a1, a2]
      norm_num [WcsMap2.modifyAt2, vecIdx,
        bind, Except.bind, pure, Except.pure, r1, r2, t1, t2, List.foldlM]
    have hp0 : WcsMap2.rebinPlane demoGeom energyMap 1 1 1 [[1 / 3600]] true
        [[[(1 : ℚ)]], [[2]]] 0 = .ok [[[3601]], [[2]]] := by
      simp only [WcsMap2.rebinPlane, WcsMap2.rebinAccumulate, WcsMap2.rebinAverage, hsa, a1, a2,
        him]
      norm_num [WcsMap2.rebinResize, WcsMap2.vecResize, WcsMap2.modifyAt2,
        vecIdx, bind, Except.bind, pure, Except.pure, r1, r2, t1, t2, List.foldlM]
    have hp1 : WcsMap2.rebinPlane demoGeom energyMap 1 1 1 [[1 / 3600]] true
        [[[(3601 : ℚ)]], [[2]]] 1 = .ok [[[3601]], [[7202]]] := by
      simp only [WcsMap2.rebinPlane, WcsMap2.rebinAccumulate, WcsMap2.rebinAverage, hsa, a1, a2,
        him]
      norm_num [WcsMap2.rebinResize, WcsMap2.vecResize, WcsMap2.modifyAt2,
        vecIdx, bind, Except.bind, pure, Except.pure, r1, r2, t1, t2, List.foldlM]
    refine rebin_eq demoGeom demoMkSkyProj energyMap 1 true hwf hc (by norm_num)
      [[1 / 3600]] _ ?_ ?_
    · rw [a1, a2, s1, h0]
    · rw [a1, a2, a3, him, s1, t2, r2]
      simp only [List.foldlM, bind, Except.bind, hp0, hp1, pure, Except.pure]

/-- C12, failing input.  On the 2 x 1 single-plane map `[[0, 1]]`,
`rebin(1, false)` returns the row `[0, 3601/3600]`.  The only source pixel
aggregated into destination pixel (row 0, column 1) is the one of value `1`
with solid angle `1/3600`, so the sum of value x solid angle is `1/3600`; the
returned `3601/3600` is that sum plus the value `1` that the destination array
(a resized copy of the source plane) held before the aggregation. -/
theorem rebin_keeps_stale_pixel_values :
    (∃ this, stripMap.rebin demoGeom demoMkSkyProj 1 false
        = .ok (this, WcsMap2.rebinned demoMkSkyProj stripMap 1 [[[0, 3601 / 3600]]]))
    ∧ stripMap.imageAt 0 0 1 = some 1
    ∧ WcsMap2.tableAt (stripMap.solidAngles demoGeom) 1 0 = 1 / 3600 := by
  have r1 : List.range 1 = [0] := rfl
  have r2 : List.range 2 = [0, 1] := rfl
  have t1 : Int.toNat 1 = 1 := rfl
  have t2 : Int.toNat 2 = 2 := rfl
  have s1 : WcsMap2.rebinSize 1 1 = 1 := by norm_num [WcsMap2.rebinSize]
  have s2 : WcsMap2.rebinSize 2 1 = 2 := by norm_num [WcsMap2.rebinSize]
  have hsa : stripMap.solidAngles demoGeom = [[1 / 3600], [1 / 3600]] := by
    norm_num [WcsMap2.solidAngles, WcsMap2.solidAngle, WcsMap2.solidAngleOf, demoGeom,
      demoMap, stripMap, demoProj, r1, r2, t1, t2, abs_of_nonneg, abs_of_neg]
  have hwf : stripMap.WellFormed := by
    simp [WcsMap2.WellFormed, demoMap, stripMap]
  have hc : stripMap.CacheOk := by
    simp [WcsMap2.CacheOk, demoMap, stripMap]
  have hplane : WcsMap2.rebinPlane demoGeom stripMap 1 2 1 [] false
      [[[(0 : ℚ), 1]]] 0 = .ok [[[0, 3601 / 3600]]] := by
    simp only [WcsMap2.rebinPlane, WcsMap2.rebinAccumulate, hsa]
    norm_num [WcsMap2.rebinResize, WcsMap2.vecResize, WcsMap2.modifyAt2, demoMap, stripMap,
      vecIdx, bind, Except.bind, pure, Except.pure, r1, r2, t1, t2, List.foldlM]
  refine ⟨?_, rfl, ?_⟩
  · refine rebin_eq demoGeom demoMkSkyProj stripMap 1 false hwf hc (by norm_num) [] _ rfl ?_
    show List.foldlM (WcsMap2.rebinPlane demoGeom stripMap 1 (WcsMap2.rebinSize 2 1)
      (WcsMap2.rebinSize 1 1) [] false) [[[(0 : ℚ), 1]]] (List.range 1) = _
    rw [s1, s2, r1]
    simp only [List.foldlM, bind, Except.bind, hplane, pure, Except.pure]
  · rw [hsa]
    norm_num [WcsMap2.tableAt]

/-- C13.  For a well-formed source image with non-negative sizes and every
`factor >= 1`, `rebin(factor, false)` returns, and whenever `rebin(factor,
average)` returns (for either value of `average`) the new map has
`naxis1' = ceil(naxis1 / factor)`, `naxis2' = ceil(naxis2 / factor)`,
`cdelt' = factor x cdelt` and `crpix' = (crpix - 0.5) / factor + 0.5` on both
axes, the reference direction and reference values of the source, and the
projection constructed from these values; for every source pixel coordinate
`p` and `p' = (p - 0.5) / factor + 0.5` the offset from the reference point is
preserved, `(p' - crpix') x cdelt' = (p - crpix) x cdelt`; with `factor = 1`
sizes, pixel scales and reference pixels are those of the source. -/
theorem rebin_header (G : SphereGeom K)
    (mkSkyProj : String → K × K → K × K → K × K → K → Bool → SkyProj K)
    (m : WcsMap2 K) (factor : Nat) (hwf : m.WellFormed) (hc : m.CacheOk)
    (_h1 : 0 ≤ m.m_naxis1) (_h2 : 0 ≤ m.m_naxis2) (hf : 1 ≤ factor) :
    (∃ this my_map, m.rebin G mkSkyProj factor false = .ok (this, my_map))
    ∧ ∀ (average : Bool) (this my_map : WcsMap2 K),
        m.rebin G mkSkyProj factor average = .ok (this, my_map) →
        my_map.m_naxis1 = ⌈(m.m_naxis1 : K) / (factor : K)⌉
        ∧ my_map.m_naxis2 = ⌈(m.m_naxis2 : K) / (factor : K)⌉
        ∧ my_map.m_cdelt1 = (factor : K) * m.m_cdelt1
        ∧ my_map.m_cdelt2 = (factor : K) * m.m_cdelt2
        ∧ my_map.m_crpix1 = (m.m_crpix1 - 1 / 2) / (factor : K) + 1 / 2
        ∧ my_map.m_crpix2 = (m.m_crpix2 - 1 / 2) / (factor : K) + 1 / 2
        ∧ my_map.m_refDir = m.m_refDir
        ∧ my_map.m_crval1 = m.m_crval1
        ∧ my_map.m_crval2 = m.m_crval2
        ∧ my_map.m_proj = mkSkyProj m.m_proj.projType (my_map.m_crpix1, my_map.m_crpix2)
            (if m.m_proj.isGalactic then (m.m_refDir.l, m.m_refDir.b)
              else (m.m_refDir.ra, m.m_refDir.dec))
            (my_map.m_cdelt1, my_map.m_cdelt2) m.m_crota2 m.m_proj.isGalactic
        ∧ (∀ p : K, ((p - 1 / 2) / (factor : K) + 1 / 2 - my_map.m_crpix1) * my_map.m_cdelt1
            = (p - m.m_crpix1) * m.m_cdelt1)
        ∧ (∀ p : K, ((p - 1 / 2) / (factor : K) + 1 / 2 - my_map.m_crpix2) * my_map.m_cdelt2
            = (p - m.m_crpix2) * m.m_cdelt2)
        ∧ (factor = 1 → my_map.m_naxis1 = m.m_naxis1 ∧ my_map.m_naxis2 = m.m_naxis2
            ∧ my_map.m_cdelt1 = m.m_cdelt1 ∧ my_map.m_cdelt2 = m.m_cdelt2
            ∧ my_map.m_crpix1 = m.m_crpix1 ∧ my_map.m_crpix2 = m.m_crpix2) := by
  have hfK : (factor : K) ≠ 0 := by
    have : (0 : K) < (factor : K) := by exact_mod_cast hf
    exact ne_of_gt this
  constructor
  · obtain ⟨image, h1, -⟩ := rebin_planes_spec G m hwf hc factor
      (WcsMap2.rebinSize m.m_naxis1 factor) (WcsMap2.rebinSize m.m_naxis2 factor) []
      (fun j hj => rebin_size_bound m.m_naxis2 factor j hf hj)
      (fun i hi => rebin_size_bound m.m_naxis1 factor i hf hi)
    obtain ⟨this, h3⟩ := rebin_eq G mkSkyProj m factor false hwf hc hf [] image rfl h1
    exact ⟨this, _, h3⟩
  · intro average this my_map h
    obtain ⟨image, rfl⟩ := rebin_result G mkSkyProj m factor average this my_map h
    refine ⟨rebinSize_eq_ceil _ _ hf, rebinSize_eq_ceil _ _ hf, mul_comm _ _, mul_comm _ _,
      rfl, rfl, rfl, rfl, rfl, rfl, ?_, ?_, ?_⟩
    · intro p
      show ((p - 1 / 2) / (factor : K) + 1 / 2 - ((m.m_crpix1 - 1 / 2) / (factor : K) + 1 / 2))
        * (m.m_cdelt1 * (factor : K)) = _
      field_simp
      ring
    · intro p
      show ((p - 1 / 2) / (factor : K) + 1 / 2 - ((m.m_crpix2 - 1 / 2) / (factor : K) + 1 / 2))
        * (m.m_cdelt2 * (factor : K)) = _
      field_simp
      ring
    · intro h1
      subst h1
      refine ⟨?_, ?_, ?_, ?_, ?_, ?_⟩
      · show WcsMap2.rebinSize m.m_naxis1 1 = _
        simp [WcsMap2.rebinSize]
      · show WcsMap2.rebinSize m.m_naxis2 1 = _
        simp [WcsMap2.rebinSize]
      · show m.m_cdelt1 * ((1 : Nat) : K) = _
        simp
      · show m.m_cdelt2 * ((1 : Nat) : K) = _
        simp
      · show (m.m_crpix1 - 1 / 2) / ((1 : Nat) : K) + 1 / 2 = _
        simp
      · show (m.m_crpix2 - 1 / 2) / ((1 : Nat) : K) + 1 / 2 = _
        simp

/-- Witness of C13 on the 2 x 1 map `[[0, 1]]` with `factor = 2`. -/
theorem rebin_header_witness :
    (∃ this my_map, stripMap.rebin demoGeom demoMkSkyProj 2 false = .ok (this, my_map))
    ∧ ∀ (average : Bool) (this my_map : WcsMap2 ℚ),
        stripMap.rebin demoGeom demoMkSkyProj 2 average = .ok (this, my_map) →
        my_map.m_naxis1 = ⌈(stripMap.m_naxis1 : ℚ) / ((2 : Nat) : ℚ)⌉
        ∧ my_map.m_naxis2 = ⌈(stripMap.m_naxis2 : ℚ) / ((2 : Nat) : ℚ)⌉
        ∧ my_map.m_cdelt1 = ((2 : Nat) : ℚ) * stripMap.m_cdelt1
        ∧ my_map.m_cdelt2 = ((2 : Nat) : ℚ) * stripMap.m_cdelt2
        ∧ my_map.m_crpix1 = (stripMap.m_crpix1 - 1 / 2) / ((2 : Nat) : ℚ) + 1 / 2
        ∧ my_map.m_crpix2 = (stripMap.m_crpix2 - 1 / 2) / ((2 : Nat) : ℚ) + 1 / 2
        ∧ my_map.m_refDir = stripMap.m_refDir
        ∧ my_map.m_crval1 = stripMap.m_crval1
        ∧ my_map.m_crval2 = stripMap.m_crval2
        ∧ my_map.m_proj = demoMkSkyProj stripMap.m_proj.projType
            (my_map.m_crpix1, my_map.m_crpix2)
            (if stripMap.m_proj.isGalactic then (stripMap.m_refDir.l, stripMap.m_refDir.b)
              else (stripMap.m_refDir.ra, stripMap.m_refDir.dec))
            (my_map.m_cdelt1, my_map.m_cdelt2) stripMap.m_crota2 stripMap.m_proj.isGalactic
        ∧ (∀ p : ℚ, ((p - 1 / 2) / ((2 : Nat) : ℚ) + 1 / 2 - my_map.m_crpix1) * my_map.m_cdelt1
            = (p - stripMap.m_crpix1) * stripMap.m_cdelt1)
        ∧ (∀ p : ℚ, ((p - 1 / 2) / ((2 : Nat) : ℚ) + 1 / 2 - my_map.m_crpix2) * my_map.m_cdelt2
            = (p - stripMap.m_crpix2) * stripMap.m_cdelt2)
        ∧ (2 = 1 → my_map.m_naxis1 = stripMap.m_naxis1 ∧ my_map.m_naxis2 = stripMap.m_naxis2
            ∧ my_map.m_cdelt1 = stripMap.m_cdelt1 ∧ my_map.m_cdelt2 = stripMap.m_cdelt2
            ∧ my_map.m_crpix1 = stripMap.m_crpix1 ∧ my_map.m_crpix2 = stripMap.m_crpix2) :=
  rebin_header demoGeom demoMkSkyProj stripMap 2
    (by simp [WcsMap2.WellFormed, demoMap, stripMap]) (by simp [WcsMap2.CacheOk, demoMap, stripMap])
    (by norm_num [stripMap, demoMap]) (by norm_num [stripMap, demoMap]) (by norm_num)

/-- C14.  For a well-formed image with `naxis1 >= 0` and a plane index
`k < naxis3`, `convolve(energy, psf, exposure, false, k)` returns an image
with the `naxis1` and `naxis2` of the source and `naxis3 = 1`, whose image
array holds exactly one plane of `naxis2` rows of `naxis1` entries; entry
(row `j`, column `i`) is `image[k][j][i] x exposure(energy, ra, dec)` at the
direction of pixel `(i+1, j+1)` when `testpix2sph(i+1, j+1)` is `0`, and `0`
otherwise.  The member is `const`: the embedding has no way to alter the
source image. -/
theorem convolve_without_convolution {F : Type} [LinearOrderedField F]
    (E : ConvolveEnv F) (m : WcsMap2 F) (energy : F)
    (k : Nat) (hwf : m.WellFormed) (hk : (k : Int) < m.m_naxis3) (h1 : 0 ≤ m.m_naxis1) :
    ∃ my_image counts, m.convolve E energy false (k : Int) = .ok my_image
      ∧ my_image.m_naxis1 = m.m_naxis1
      ∧ my_image.m_naxis2 = m.m_naxis2
      ∧ my_image.m_naxis3 = 1
      ∧ my_image.m_image = [counts]
      ∧ (counts.length : Int) = m.m_naxis2
      ∧ ∀ j : Nat, (j : Int) < m.m_naxis2 →
          ∃ row, counts[j]? = some row ∧ (row.length : Int) = m.m_naxis1
            ∧ ∀ i : Nat, (i : Int) < m.m_naxis1 →
              ∃ v, m.imageAt k j i = some v
                ∧ row[i]? = some
                    (if m.m_proj.testpix2sph ((i : F) + 1) ((j : F) + 1) = 0 then
                      v * E.exposure energy
                        (E.mkSkyDir (m.m_proj.pix2sph ((i : F) + 1) ((j : F) + 1)).1
                          (m.m_proj.pix2sph ((i : F) + 1) ((j : F) + 1)).2 m.m_coordSys).ra
                        (E.mkSkyDir (m.m_proj.pix2sph ((i : F) + 1) ((j : F) + 1)).1
                          (m.m_proj.pix2sph ((i : F) + 1) ((j : F) + 1)).2 m.m_coordSys).dec
                    else 0) := by
  have h2 : 0 ≤ m.m_naxis2 := by
    obtain ⟨h3, hrest⟩ := hwf
    have hk' : k < m.m_image.length := by omega
    have := (hrest _ (List.getElem_mem hk')).1
    omega
  obtain ⟨counts, e1, e2, e3⟩ := fillImage_spec m.m_proj m.m_naxis2 m.m_naxis1
    (WcsMap2.countsValue E m energy (k : Int))
    (fun i j => (m.imageAt k j i).getD 0 * E.exposure energy
      (E.mkSkyDir (m.m_proj.pix2sph ((i : F) + 1) ((j : F) + 1)).1
        (m.m_proj.pix2sph ((i : F) + 1) ((j : F) + 1)).2 m.m_coordSys).ra
      (E.mkSkyDir (m.m_proj.pix2sph ((i : F) + 1) ((j : F) + 1)).1
        (m.m_proj.pix2sph ((i : F) + 1) ((j : F) + 1)).2 m.m_coordSys).dec)
    h2 h1
    (by
      intro i j hi hj _
      obtain ⟨plane, row, v, a1, a2, a3, a4⟩ :=
        imageAt_of_wellFormed hwf hk (by omega : (j : Int) < m.m_naxis2)
          (by omega : (i : Int) < m.m_naxis1)
      unfold WcsMap2.countsValue
      simp only [bind, Except.bind, vecIdx_ok a1, vecAt_ok a2, vecAt_ok a3, a4, pure,
        Except.pure, Option.getD_some])
  refine ⟨{ m.copy with m_image := [counts], m_naxis3 := 1 }, counts, ?_, ?_, ?_, ?_, ?_,
    by omega, ?_⟩
  · unfold WcsMap2.convolve WcsMap2.check_energy_index
    rw [if_neg (by omega)]
    simp only [bind, Except.bind, e1, pure, Except.pure, if_true]
    rfl
  · rfl
  · rfl
  · rfl
  · rfl
  · intro j hj
    obtain ⟨row, b1, b2, b3⟩ := e3 j (by omega)
    refine ⟨row, b1, by omega, ?_⟩
    intro i hi
    obtain ⟨plane, row', v, a1, a2, a3, a4⟩ :=
      imageAt_of_wellFormed hwf hk hj hi
    refine ⟨v, a4, ?_⟩
    rw [b3 i (by omega), a4]
    rfl

/-- Witness of C14 on the 2 x 2 map with rows `[1, 2]` and `[3, 4]`, plane
`0`, energy `10`. -/
theorem convolve_without_convolution_witness :
    ∃ my_image counts,
      (squareMap false).convolve demoConvolveEnv 10 false ((0 : Nat) : Int) = .ok my_image
      ∧ my_image.m_naxis1 = (squareMap false).m_naxis1
      ∧ my_image.m_naxis2 = (squareMap false).m_naxis2
      ∧ my_image.m_naxis3 = 1
      ∧ my_image.m_image = [counts]
      ∧ (counts.length : Int) = (squareMap false).m_naxis2
      ∧ ∀ j : Nat, (j : Int) < (squareMap false).m_naxis2 →
          ∃ row, counts[j]? = some row ∧ (row.length : Int) = (squareMap false).m_naxis1
            ∧ ∀ i : Nat, (i : Int) < (squareMap false).m_naxis1 →
              ∃ v, (squareMap false).imageAt 0 j i = some v
                ∧ row[i]? = some
                    (if (squareMap false).m_proj.testpix2sph ((i : ℚ) + 1) ((j : ℚ) + 1) = 0 then
                      v * (demoConvolveEnv : ConvolveEnv ℚ).exposure 10
                        ((demoConvolveEnv : ConvolveEnv ℚ).mkSkyDir
                          ((squareMap false).m_proj.pix2sph ((i : ℚ) + 1) ((j : ℚ) + 1)).1
                          ((squareMap false).m_proj.pix2sph ((i : ℚ) + 1) ((j : ℚ) + 1)).2
                          (squareMap false).m_coordSys).ra
                        ((demoConvolveEnv : ConvolveEnv ℚ).mkSkyDir
                          ((squareMap false).m_proj.pix2sph ((i : ℚ) + 1) ((j : ℚ) + 1)).1
                          ((squareMap false).m_proj.pix2sph ((i : ℚ) + 1) ((j : ℚ) + 1)).2
                          (squareMap false).m_coordSys).dec
                    else 0) :=
  convolve_without_convolution demoConvolveEnv (squareMap false) 10 0
    (by simp [WcsMap2.WellFormed, demoMap, squareMap]) (by norm_num [demoMap, squareMap])
    (by norm_num [demoMap, squareMap])

/-- C15, failing input.  The event of apparent energy `110` constructed with
energy dispersion has the `100` true energies `60.5, ..., 159.5`; its table
holds the response vector `2 i + 2` (`100` values) under `galactic`.  At the
last grid point `trueEnergies[99] = 159.5` the lookup passes the index test
with `indx = 99` and then reads `m_trueEnergies[100]` (and `resp[100]`), one
element behind the end of both vectors, instead of returning `resp[99] = 200`.
At every other grid point `i < 99` it returns the stored value `resp[i]`. -/
theorem diffuseResponse_reads_past_last_grid_point :
    (edispEvent [("galactic", rampResponse)]).m_trueEnergies.length = 100
    ∧ rampResponse.length = 100
    ∧ (edispEvent [("galactic", rampResponse)]).m_trueEnergies[99]? = some (319 / 2)
    ∧ rampResponse[99]? = some 200
    ∧ (edispEvent [("galactic", rampResponse)]).diffuseResponse true (319 / 2) "galactic"
        = .error .undefinedBehaviour
    ∧ ∀ i : Nat, i < 99 →
        (edispEvent [("galactic", rampResponse)]).diffuseResponse true ((i : ℚ) + 121 / 2)
          "galactic" = .ok (2 * (i : ℚ) + 2) := by
  obtain ⟨hg, hs⟩ := edispEvent_grid [("galactic", rampResponse)]
  have hl : (edispEvent [("galactic", rampResponse)]).m_respDiffuseSrcs.lookup
      (Event.toLower "galactic") = some rampResponse := by
    have e : Event.toLower "galactic" = "galactic" := by decide
    rw [e]
    simp [edispEvent, List.lookup]
  refine ⟨by rw [hg]; simp, by simp [rampResponse], ?_, ?_, ?_, ?_⟩
  · rw [hg, getElem?_map_range _ (by norm_num)]
    norm_num
  · rw [rampResponse, getElem?_map_range _ (by norm_num)]
    norm_num
  · have := diffuseResponse_last _ 100 1 (121 / 2) hg hs one_ne_zero "galactic" rampResponse hl
      99 rfl
    norm_num at this
    exact this
  · intro i hi
    have := diffuseResponse_interior _ 100 1 (121 / 2) hg hs one_ne_zero "galactic" rampResponse
      hl i (by omega) (2 * (i : ℚ) + 2) (2 * ((i + 1 : Nat) : ℚ) + 2)
      (by rw [rampResponse, getElem?_map_range _ (by omega)])
      (by rw [rampResponse, getElem?_map_range _ (by omega)])
    rw [one_mul] at this
    exact this

/-- C16, failing inputs.  For the event of apparent energy `110` constructed
with energy dispersion (first grid point `60.5`, last grid point `159.5`,
step `1`) and the response vector `2 i + 2` under `galactic`: the true energy
`60`, strictly below the first grid point, gives `indx = int(-0.5) = 0` and the
lookup returns the extrapolated value `1`, not `0`; the true energy `160`,
strictly above the last grid point, gives `indx = int(99.5) = 99` and the
lookup reads `m_trueEnergies[100]`, behind the end of the grid.  The lookup
returns `0` for every true energy at least one step below the first grid
point and at least one step above the last one. -/
theorem diffuseResponse_near_grid_is_not_zero :
    (edispEvent [("galactic", rampResponse)]).m_trueEnergies[0]? = some (121 / 2)
    ∧ (edispEvent [("galactic", rampResponse)]).m_trueEnergies.getLast? = some (319 / 2)
    ∧ (edispEvent [("galactic", rampResponse)]).diffuseResponse true 60 "galactic" = .ok 1
    ∧ (edispEvent [("galactic", rampResponse)]).diffuseResponse true 160 "galactic"
        = .error .undefinedBehaviour
    ∧ (∀ e : ℚ, e ≤ 119 / 2 →
        (edispEvent [("galactic", rampResponse)]).diffuseResponse true e "galactic" = .ok 0)
    ∧ (∀ e : ℚ, 321 / 2 ≤ e →
        (edispEvent [("galactic", rampResponse)]).diffuseResponse true e "galactic" = .ok 0) := by
  obtain ⟨hg, hs⟩ := edispEvent_grid [("galactic", rampResponse)]
  have hl : (edispEvent [("galactic", rampResponse)]).m_respDiffuseSrcs.lookup
      (Event.toLower "galactic") = some rampResponse := by
    have e : Event.toLower "galactic" = "galactic" := by decide
    rw [e]
    simp [edispEvent, List.lookup]
  have key := diffuseResponse_edisp _ 100 1 (121 / 2) (by norm_num) hg hs one_ne_zero
  refine ⟨?_, ?_, ?_, ?_, ?_, ?_⟩
  · rw [hg, getElem?_map_range _ (by norm_num)]
    norm_num
  · rw [hg, List.getLast?_eq_getElem?]
    simp only [List.length_map, List.length_range]
    rw [getElem?_map_range _ (by norm_num)]
    norm_num
  · rw [key 60 "galactic", hl]
    have c : castInt ((60 - 121 / 2 : ℚ) / 1) = ((0 : Nat) : Int) := by
      have : ¬ (0 : ℚ) ≤ (60 - 121 / 2) / 1 := by norm_num
      rw [castInt, if_neg this, Int.ceil_eq_iff]
      norm_num
    have c1 : (((0 : Nat) : Int) + 1) = ((1 : Nat) : Int) := rfl
    have g0 : (edispEvent [("galactic", rampResponse)]).m_trueEnergies[0]? = some (121 / 2) := by
      rw [hg, getElem?_map_range _ (by norm_num)]
      norm_num
    have g1 : (edispEvent [("galactic", rampResponse)]).m_trueEnergies[1]? = some (123 / 2) := by
      rw [hg, getElem?_map_range _ (by norm_num)]
      norm_num
    have r0 : rampResponse[0]? = some 2 := by
      rw [rampResponse, getElem?_map_range _ (by norm_num)]
      norm_num
    have r1 : rampResponse[1]? = some 4 := by
      rw [rampResponse, getElem?_map_range _ (by norm_num)]
      norm_num
    rw [c]
    simp only [c1, bind, Except.bind, vecIdx_ok g0, vecIdx_ok g1, vecIdx_ok r0, vecIdx_ok r1,
      pure, Except.pure]
    norm_num
  · rw [key 160 "galactic", hl]
    have c : castInt ((160 - 121 / 2 : ℚ) / 1) = ((99 : Nat) : Int) := by
      have : (0 : ℚ) ≤ (160 - 121 / 2) / 1 := by norm_num
      rw [castInt, if_pos this, Int.floor_eq_iff]
      norm_num
    have c1 : (((99 : Nat) : Int) + 1) = ((100 : Nat) : Int) := rfl
    have g0 : (edispEvent [("galactic", rampResponse)]).m_trueEnergies[99]? = some (319 / 2) := by
      rw [hg, getElem?_map_range _ (by norm_num)]
      norm_num
    have g1 : (edispEvent [("galactic", rampResponse)]).m_trueEnergies[100]? = none := by
      rw [hg, getElem?_map_range_none _ (by norm_num)]
    rw [c]
    simp only [c1, bind, Except.bind, vecIdx_ok g0, vecIdx_none g1]
    norm_num
  · intro e he
    rw [key e "galactic"]
    have hx : (e - 121 / 2) / 1 ≤ ((-1 : Int) : ℚ) := by
      push_cast
      linarith
    have : castInt ((e - 121 / 2) / 1) < 0 := by
      have hneg : ¬ (0 : ℚ) ≤ (e - 121 / 2) / 1 := by
        push_cast at hx
        linarith
      rw [castInt, if_neg hneg]
      have := Int.ceil_le.mpr hx
      omega
    rw [if_pos (Or.inl this)]
  · intro e he
    rw [key e "galactic"]
    have hx : ((100 : Int) : ℚ) ≤ (e - 121 / 2) / 1 := by
      push_cast
      linarith
    have : castInt ((e - 121 / 2) / 1) ≥ ((100 : Nat) : Int) := by
      have hpos : (0 : ℚ) ≤ (e - 121 / 2) / 1 := by
        push_cast at hx
        linarith
      rw [castInt, if_pos hpos]
      have := Int.le_floor.mpr hx
      omega
    rw [if_pos (Or.inr this)]

/-- C17.  With energy dispersion disabled, for every event, every cached
component (its lower-cased name has an entry `resp` in the response table)
whose response vector has an element `0` of value `v`, `diffuseResponse(e,
name)` returns `v` for every true energy `e`; hence `diffuseResponse(e1, name)
= diffuseResponse(e2, name)` for all `e1`, `e2`. -/
theorem diffuseResponse_without_edisp (ev : Event K) (name : String) (resp : List K) (v : K)
    (hl : ev.m_respDiffuseSrcs.lookup (Event.toLower name) = some resp)
    (hv : resp[0]? = some v) :
    (∀ e : K, ev.diffuseResponse false e name = .ok v)
    ∧ ∀ e1 e2 : K, ev.diffuseResponse false e1 name = ev.diffuseResponse false e2 name := by
  have key : ∀ e : K, ev.diffuseResponse false e name = .ok v := by
    intro e
    unfold Event.diffuseResponse
    simp only [bind, Except.bind, pure, Except.pure, hl]
    simp only [Bool.false_eq_true, false_and, if_false]
    exact vecIdx_ok (i := 0) hv
  exact ⟨key, fun e1 e2 => by rw [key e1, key e2]⟩

/-- Witness of C17: the event without energy dispersion that holds `[7]`
under `galactic`, queried as `Galactic`. -/
theorem diffuseResponse_without_edisp_witness :
    (∀ e : ℚ, (plainEvent [("galactic", [7])]).diffuseResponse false e "Galactic" = .ok 7)
    ∧ ∀ e1 e2 : ℚ, (plainEvent [("galactic", [7])]).diffuseResponse false e1 "Galactic"
        = (plainEvent [("galactic", [7])]).diffuseResponse false e2 "Galactic" :=
  diffuseResponse_without_edisp (plainEvent [("galactic", [7])]) "Galactic" [7] 7
    (by
      have e : Event.toLower "Galactic" = "galactic" := by decide
      rw [e]
      simp [plainEvent, List.lookup])
    rfl

/-- C18, counterexample.  The event of apparent energy `110` constructed
with energy dispersion has an empty response table, so `unknown` has no cached
entry; `diffuseResponse(1000, "unknown")` with energy dispersion enabled
returns the number `0` and raises nothing, because the index test on the true
energy precedes the lookup of the name. -/
theorem diffuseResponse_unknown_component_returns_zero :
    (edispEvent []).m_respDiffuseSrcs.lookup (Event.toLower "unknown") = none
    ∧ (edispEvent []).diffuseResponse true 1000 "unknown" = .ok 0 := by
  obtain ⟨hg, hs⟩ := edispEvent_grid []
  refine ⟨rfl, ?_⟩
  rw [diffuseResponse_edisp _ 100 1 (121 / 2) (by norm_num) hg hs one_ne_zero]
  have : castInt ((1000 - 121 / 2 : ℚ) / 1) ≥ ((100 : Nat) : Int) := by
    have hpos : (0 : ℚ) ≤ (1000 - 121 / 2) / 1 := by norm_num
    rw [castInt, if_pos hpos]
    have := Int.le_floor.mpr (by norm_num : ((100 : Int) : ℚ) ≤ (1000 - 121 / 2) / 1)
    omega
  rw [if_pos (Or.inr this)]

/-- C18, amended.  For a component name without a cached entry in the
response table of the event: with energy dispersion disabled
`diffuseResponse` raises the exception for every true energy; with energy
dispersion enabled (first grid point `e0`, step `estep` not `0`) it raises the
exception for every true energy `e` whose index `int((e - e0) / estep)` lies
in `0 .. size - 1`, and returns `0` for every true energy whose index lies
outside that range. -/
theorem diffuseResponse_unknown_component (ev : Event K) (name : String)
    (hl : ev.m_respDiffuseSrcs.lookup (Event.toLower name) = none) :
    (∀ e : K, ev.diffuseResponse false e name = .error .noDiffuseResponse)
    ∧ ∀ e0 estep : K, ev.m_trueEnergies[0]? = some e0 → ev.m_estep = some estep →
        estep ≠ 0 → ∀ e : K,
          ev.diffuseResponse true e name =
            if castInt ((e - e0) / estep) < 0
                ∨ castInt ((e - e0) / estep) ≥ (ev.m_trueEnergies.length : Int) then .ok 0
            else .error .noDiffuseResponse := by
  constructor
  · intro e
    unfold Event.diffuseResponse
    simp only [bind, Except.bind, pure, Except.pure, hl]
    simp only [Bool.false_eq_true, false_and, if_false]
  · intro e0 estep h0 hs hst e
    have hv : vecIdx ev.m_trueEnergies 0 = .ok e0 := vecIdx_ok (i := 0) h0
    unfold Event.diffuseResponse
    simp only [hs, hv, if_true, bind, Except.bind, if_neg hst, pure, Except.pure, true_and, hl]

/-- Witness of the amended C18 on the event of apparent energy `110` with an
empty response table. -/
theorem diffuseResponse_unknown_component_witness :
    (∀ e : ℚ, (edispEvent []).diffuseResponse false e "unknown" = .error .noDiffuseResponse)
    ∧ ∀ e0 estep : ℚ, (edispEvent []).m_trueEnergies[0]? = some e0 →
        (edispEvent []).m_estep = some estep →
        estep ≠ 0 → ∀ e : ℚ,
          (edispEvent []).diffuseResponse true e "unknown" =
            if castInt ((e - e0) / estep) < 0
                ∨ castInt ((e - e0) / estep) ≥ ((edispEvent []).m_trueEnergies.length : Int)
            then .ok 0
            else .error .noDiffuseResponse :=
  diffuseResponse_unknown_component (edispEvent []) "unknown" rfl

/-- C19.  For every event, both settings of energy dispersion, every energy
and all names `n1`, `n2` that differ at most in letter case,
`diffuseResponse(E, n1)` and `diffuseResponse(E, n2)` have the same outcome.
`computeResponse` returns, and afterwards every key of the response table is a
key that the table had before or the lower-cased name of a source of the
list, and (the true-energy grid being non-empty) the lower-cased name of every
source of the list is a key of the table. -/
theorem diffuseResponse_ignores_letter_case (E : EventEnv K) (nmu nphi : Int) (ev : Event K)
    (sr : SourceRegionData K) (srcList : List (DiffuseSource K)) (sr_radius : K) :
    (∀ (useEdisp : Bool) (e : K) (n1 n2 : String), sameUpToCase n1 n2 →
        ev.diffuseResponse useEdisp e n1 = ev.diffuseResponse useEdisp e n2)
    ∧ ∃ ev' sr', Event.computeResponse E nmu nphi ev sr srcList sr_radius = .ok (ev', sr')
      ∧ (∀ name : String, (ev'.m_respDiffuseSrcs.lookup name).isSome = true →
          (ev.m_respDiffuseSrcs.lookup name).isSome = true
          ∨ ∃ src ∈ srcList, name = Event.toLower src.getName)
      ∧ (ev.m_trueEnergies ≠ [] → ∀ src ∈ srcList,
          (ev'.m_respDiffuseSrcs.lookup (Event.toLower src.getName)).isSome = true) := by
  constructor
  · intro useEdisp e n1 n2 h
    unfold Event.diffuseResponse
    rw [toLower_eq_of_sameUpToCase h]
  · obtain ⟨ev', sr', h1, h2, -, h4⟩ := computeResponse_keys E nmu nphi ev sr srcList sr_radius
    exact ⟨ev', sr', h1, h2, h4⟩

/-- Witness of C19: the event without energy dispersion and with an empty
response table, the one-point source-region grid and the source list
`[GalDiffuse]`. -/
theorem diffuseResponse_ignores_letter_case_witness :
    (∀ (useEdisp : Bool) (e : ℚ) (n1 n2 : String), sameUpToCase n1 n2 →
        (plainEvent []).diffuseResponse useEdisp e n1
          = (plainEvent []).diffuseResponse useEdisp e n2)
    ∧ ∃ ev' sr', Event.computeResponse demoEventEnv 2 2 (plainEvent []) demoSourceRegion
          demoSources 10 = .ok (ev', sr')
      ∧ (∀ name : String, (ev'.m_respDiffuseSrcs.lookup name).isSome = true →
          ((plainEvent []).m_respDiffuseSrcs.lookup name).isSome = true
          ∨ ∃ src ∈ (demoSources : List (DiffuseSource ℚ)), name = Event.toLower src.getName)
      ∧ ((plainEvent []).m_trueEnergies ≠ [] → ∀ src ∈ (demoSources : List (DiffuseSource ℚ)),
          (ev'.m_respDiffuseSrcs.lookup (Event.toLower src.getName)).isSome = true) :=
  diffuseResponse_ignores_letter_case demoEventEnv 2 2 (plainEvent []) demoSourceRegion
    demoSources 10

/-- C20.  An event constructed with energy dispersion disabled has the
true-energy grid `[energy]`.  An event constructed with energy dispersion
enabled has a grid of `100` points, the first is `0.55 x energy`, the last is
`1.45 x energy`, point `i` is the first point plus `i` times the fixed step
`(1.45 x energy - 0.55 x energy) / 99`, and for a positive apparent energy the
grid is strictly ascending. -/
theorem construct_true_energy_grid {F : Type} [LinearOrderedField F] (E : EventEnv F)
    (ra dec energy time sc_ra sc_dec muZenith : F) (type : Int) :
    (Event.construct false E ra dec energy time sc_ra sc_dec muZenith type).m_trueEnergies
      = [energy]
    ∧ (Event.construct true E ra dec energy time sc_ra sc_dec muZenith type).m_trueEnergies.length
      = 100
    ∧ (Event.construct true E ra dec energy time sc_ra sc_dec muZenith type).m_trueEnergies[0]?
      = some (0.55 * energy)
    ∧ (Event.construct true E ra dec energy time sc_ra sc_dec muZenith type).m_trueEnergies[99]?
      = some (1.45 * energy)
    ∧ (Event.construct true E ra dec energy time sc_ra sc_dec muZenith
        type).m_trueEnergies.getLast? = some (1.45 * energy)
    ∧ (∀ i : Nat, i < 100 →
        (Event.construct true E ra dec energy time sc_ra sc_dec muZenith type).m_trueEnergies[i]?
          = some (0.55 * energy + (i : F) * ((1.45 * energy - 0.55 * energy) / 99)))
    ∧ (0 < energy →
        (Event.construct true E ra dec energy time sc_ra sc_dec muZenith
          type).m_trueEnergies.Pairwise (fun a b => a < b)) := by
  obtain ⟨hg, -⟩ := construct_edisp E ra dec energy time sc_ra sc_dec muZenith type
  have h99 : (Event.construct true E ra dec energy time sc_ra sc_dec muZenith
      type).m_trueEnergies[99]? = some (1.45 * energy) := by
    rw [hg, getElem?_map_range _ (by norm_num)]
    norm_num
    ring
  refine ⟨rfl, by rw [hg]; simp, ?_, h99, ?_, ?_, ?_⟩
  · rw [hg, getElem?_map_range _ (by norm_num)]
    norm_num
  · rw [List.getLast?_eq_getElem?]
    have : (Event.construct true E ra dec energy time sc_ra sc_dec muZenith
      type).m_trueEnergies.length = 100 := by rw [hg]; simp
    rw [this]
    exact h99
  · intro i hi
    rw [hg, getElem?_map_range _ hi]
    norm_num
    ring
  · intro he
    rw [hg, List.pairwise_map]
    refine List.Pairwise.imp ?_ (List.pairwise_lt_range 100)
    intro a b hab
    have hab' : (a : F) < (b : F) := by exact_mod_cast hab
    have hstep : 0 < energy / 110 := by positivity
    nlinarith

/-- Witness of C20 for the apparent energy `110`. -/
theorem construct_true_energy_grid_witness :
    (Event.construct false (demoEventEnv : EventEnv ℚ) 0 0 110 0 0 0 1 0).m_trueEnergies
      = [110]
    ∧ (Event.construct true (demoEventEnv : EventEnv ℚ) 0 0 110 0 0 0 1 0).m_trueEnergies.length
      = 100
    ∧ (Event.construct true (demoEventEnv : EventEnv ℚ) 0 0 110 0 0 0 1 0).m_trueEnergies[0]?
      = some ((0.55 : ℚ) * 110)
    ∧ (Event.construct true (demoEventEnv : EventEnv ℚ) 0 0 110 0 0 0 1 0).m_trueEnergies[99]?
      = some ((1.45 : ℚ) * 110)
    ∧ (Event.construct true (demoEventEnv : EventEnv ℚ) 0 0 110 0 0 0 1
        0).m_trueEnergies.getLast? = some ((1.45 : ℚ) * 110)
    ∧ (∀ i : Nat, i < 100 →
        (Event.construct true (demoEventEnv : EventEnv ℚ) 0 0 110 0 0 0 1 0).m_trueEnergies[i]?
          = some ((0.55 : ℚ) * 110 + (i : ℚ) * ((1.45 * 110 - 0.55 * 110) / 99)))
    ∧ ((0 : ℚ) < 110 →
        (Event.construct true (demoEventEnv : EventEnv ℚ) 0 0 110 0 0 0 1
          0).m_trueEnergies.Pairwise (fun a b => a < b)) :=
  construct_true_energy_grid (demoEventEnv : EventEnv ℚ) 0 0 110 0 0 0 1 0

/-- C21.  The member `getNewDiffuseSrcs` returns, in list order, exactly the
sources whose lower-cased name is not a key of the response table.  When the
lower-cased name of every source of the list is a key of the table,
`computeResponse` returns with the event and the static data unchanged.  For
every event and every list, also one that mixes cached and new sources,
`computeResponse` returns the event with entries appended to the response
table: the entries that the table held before the call stay as they are, in
place, every key appended is the lower-cased name of a new source, and every
name found in the table before the call is found with the same vector after
it.  The cached sources of the list have no influence on the call: the call
with the new sources alone has the same result.  A second call with the same
list on the event and static data left by the first returns them unchanged. -/
theorem computeResponse_only_new_components {F : Type} [LinearOrderedField F]
    (E : EventEnv F) (nmu nphi : Int) (ev : Event F) (sr : SourceRegionData F)
    (srcList : List (DiffuseSource F)) (sr_radius : F) :
    ev.getNewDiffuseSrcs srcList
        = srcList.filter (fun src => decide (∀ entry ∈ ev.m_respDiffuseSrcs,
            entry.1 ≠ Event.toLower src.getName))
    ∧ (ev.getNewDiffuseSrcs srcList).Sublist srcList
    ∧ ((∀ src ∈ srcList,
          (ev.m_respDiffuseSrcs.lookup (Event.toLower src.getName)).isSome = true) →
        Event.computeResponse E nmu nphi ev sr srcList sr_radius = .ok (ev, sr))
    ∧ (∃ added sr', Event.computeResponse E nmu nphi ev sr srcList sr_radius
          = .ok ({ ev with m_respDiffuseSrcs := ev.m_respDiffuseSrcs ++ added }, sr')
        ∧ (∀ e ∈ added, ∃ src ∈ srcList,
            e.1 = Event.toLower src.getName
            ∧ ∀ entry ∈ ev.m_respDiffuseSrcs, entry.1 ≠ Event.toLower src.getName)
        ∧ ∀ (name : String) (r : List F), ev.m_respDiffuseSrcs.lookup name = some r →
            (ev.m_respDiffuseSrcs ++ added).lookup name = some r)
    ∧ Event.computeResponse E nmu nphi ev sr (ev.getNewDiffuseSrcs srcList) sr_radius
        = Event.computeResponse E nmu nphi ev sr srcList sr_radius
    ∧ ∃ ev1 sr1, Event.computeResponse E nmu nphi ev sr srcList sr_radius = .ok (ev1, sr1)
        ∧ Event.computeResponse E nmu nphi ev1 sr1 srcList sr_radius = .ok (ev1, sr1) := by
  have hfilter : ev.getNewDiffuseSrcs srcList
      = srcList.filter (fun src => decide (∀ entry ∈ ev.m_respDiffuseSrcs,
          entry.1 ≠ Event.toLower src.getName)) := by
    unfold Event.getNewDiffuseSrcs
    apply List.filter_congr
    intro src _
    have key := lookup_none_iff_absent (Event.toLower src.getName) ev.m_respDiffuseSrcs
    cases h : List.lookup (Event.toLower src.getName) ev.m_respDiffuseSrcs with
    | none =>
      rw [h] at key
      rw [decide_eq_true (key.mp rfl)]
      rfl
    | some r =>
      rw [h] at key
      rw [decide_eq_false (fun hall => by cases key.mpr hall)]
      rfl
  refine ⟨hfilter, List.filter_sublist _,
    computeResponse_cached E nmu nphi ev sr srcList sr_radius, ?_,
    computeResponse_new_only E nmu nphi ev sr srcList sr_radius,
    computeResponse_twice E nmu nphi ev sr srcList sr_radius⟩
  obtain ⟨added, sr', h1, h2⟩ := computeResponse_appends E nmu nphi ev sr srcList sr_radius
  refine ⟨added, sr', h1, ?_, fun name r h => lookup_append_some name r _ added h⟩
  intro e he
  obtain ⟨src, hsrc, hk⟩ := h2 e he
  rw [hfilter] at hsrc
  obtain ⟨hs1, hs2⟩ := List.mem_filter.mp hsrc
  exact ⟨src, hs1, hk, of_decide_eq_true hs2⟩

/-- Witness of C21: on the event whose table holds `galdiffuse`, the list
`[GalDiffuse]`, all of whose names are cached, and the list
`[GalDiffuse, Gradient]`, which mixes a cached and a new source: the table
`[(galdiffuse, [5])]` becomes `[(galdiffuse, [5]), (gradient, [0])]`. -/
theorem computeResponse_only_new_components_witness :
    (∀ src ∈ (demoSources : List (DiffuseSource ℚ)),
        ((plainEvent [("galdiffuse", [5])]).m_respDiffuseSrcs.lookup
          (Event.toLower src.getName)).isSome = true)
    ∧ Event.computeResponse demoEventEnv 2 2 (plainEvent [("galdiffuse", [5])])
        demoSourceRegion demoSources 10
        = .ok (plainEvent [("galdiffuse", [5])], demoSourceRegion)
    ∧ (∃ added sr', Event.computeResponse demoEventEnv 2 2 (plainEvent [("galdiffuse", [5])])
          demoSourceRegion (demoSources ++ raSources) 10
          = .ok ({ plainEvent [("galdiffuse", [5])] with
              m_respDiffuseSrcs := (plainEvent [("galdiffuse", [5])]).m_respDiffuseSrcs
                ++ added }, sr')
        ∧ (∀ e ∈ added, ∃ src ∈ (demoSources ++ raSources : List (DiffuseSource ℚ)),
            e.1 = Event.toLower src.getName
            ∧ ∀ entry ∈ (plainEvent [("galdiffuse", [5])]).m_respDiffuseSrcs,
                entry.1 ≠ Event.toLower src.getName)
        ∧ ∀ (name : String) (r : List ℚ),
            (plainEvent [("galdiffuse", [5])]).m_respDiffuseSrcs.lookup name = some r →
            ((plainEvent [("galdiffuse", [5])]).m_respDiffuseSrcs ++ added).lookup name
              = some r)
    ∧ Event.computeResponse demoEventEnv 2 2 (plainEvent [("galdiffuse", [5])])
        demoSourceRegion (demoSources ++ raSources) 10
        = .ok (plainEvent [("galdiffuse", [5]), ("gradient", [0])], demoSourceRegion) :=
  have h : ∀ src ∈ (demoSources : List (DiffuseSource ℚ)),
      ((plainEvent [("galdiffuse", [5])]).m_respDiffuseSrcs.lookup
        (Event.toLower src.getName)).isSome = true := by
    intro src hsrc
    have e : src = { getName := "GalDiffuse", spatialDist := fun _ => 1 } := by
      simpa [demoSources] using hsrc
    subst e
    decide
  ⟨h, (computeResponse_only_new_components demoEventEnv 2 2 (plainEvent [("galdiffuse", [5])])
    demoSourceRegion demoSources 10).2.2.1 h,
   (computeResponse_only_new_components demoEventEnv 2 2 (plainEvent [("galdiffuse", [5])])
    demoSourceRegion (demoSources ++ raSources) 10).2.2.2.1,
   by
    have l1 : Event.toLower "GalDiffuse" = "galdiffuse" := by decide
    have l2 : Event.toLower "Gradient" = "gradient" := by decide
    have r1 : List.range 1 = [0] := rfl
    have b1 : ("gradient" == "galdiffuse") = false := by decide
    norm_num [Event.computeResponse, Event.getNewDiffuseSrcs, plainEvent, demoSources,
      raSources, b1, Event.construct, demoSourceRegion, Event.srcDirs, Event.muIntegrands,
      Event.phiIntegrands, Event.storeResponses, Event.respPushBack, demoEventEnv,
      Event.getCelestialDir, my_acos, demoDir, vecIdx, l1, l2, r1, bind, Except.bind, pure,
      Except.pure, List.replicate, List.zipWith, List.zip, List.lookup]⟩

/-- C22 does not hold as stated.  With the static data not yet prepared and
the region of interest centred at `(0, 0)`, the preparation step builds the grid
`s_mu = [1, 1]`, `s_phi = [0, 6]`, and under the shared rotation `s_eqRot`
every sample of the grid is the direction `(0, 0)`.  `computeResponse` turns
the samples into `(0, 0)` for the event of apparent direction `(0, 0)` and into
`(10, 0)` for the event of apparent direction `(10, 0)`; for the source whose
spatial distribution is the right ascension the two events, which differ in
the apparent direction only, obtain the responses `0` and `4400`. -/
theorem responseDirs_follow_the_event :
    (plainEvent []).m_appDir = demoDir 0 0
    ∧ shiftedEvent.m_appDir = demoDir 10 0
    ∧ (demoEventEnv : EventEnv ℚ).roiCenter = demoDir 0 0
    ∧ (Event.preparedSrData demoEventEnv 2 2 freshRegion 10).s_mu = [1, 1]
    ∧ (Event.preparedSrData demoEventEnv 2 2 freshRegion 10).s_phi = [0, 6]
    ∧ Event.srcDirs demoEventEnv (Event.preparedSrData demoEventEnv 2 2 freshRegion 10)
        (Event.preparedSrData demoEventEnv 2 2 freshRegion 10).s_eqRot
        = [demoDir 0 0, demoDir 0 0, demoDir 0 0, demoDir 0 0]
    ∧ Event.responseDirs demoEventEnv 2 2 (plainEvent []) freshRegion 10
        = [demoDir 0 0, demoDir 0 0, demoDir 0 0, demoDir 0 0]
    ∧ Event.responseDirs demoEventEnv 2 2 shiftedEvent freshRegion 10
        = [demoDir 10 0, demoDir 10 0, demoDir 10 0, demoDir 10 0]
    ∧ Event.computeResponse demoEventEnv 2 2 (plainEvent []) freshRegion raSources 10
        = .ok ({ plainEvent [] with m_respDiffuseSrcs := [("gradient", [0])] },
            Event.preparedSrData demoEventEnv 2 2 freshRegion 10)
    ∧ Event.computeResponse demoEventEnv 2 2 shiftedEvent freshRegion raSources 10
        = .ok ({ shiftedEvent with m_respDiffuseSrcs := [("gradient", [4400])] },
            Event.preparedSrData demoEventEnv 2 2 freshRegion 10) := by
  have r2 : List.range 2 = [0, 1] := rfl
  have t2 : Int.toNat 2 = 2 := rfl
  have hmu : (Event.preparedSrData demoEventEnv 2 2 freshRegion 10).s_mu = [(1 : ℚ), 1] := by
    norm_num [Event.preparedSrData, Event.prepareSrData, freshRegion, demoEventEnv, r2, t2]
  have hphi : (Event.preparedSrData demoEventEnv 2 2 freshRegion 10).s_phi = [(0 : ℚ), 6] := by
    norm_num [Event.preparedSrData, Event.prepareSrData, freshRegion, demoEventEnv, r2, t2]
  have hrot : (Event.preparedSrData demoEventEnv 2 2 freshRegion 10).s_eqRot
      = fun d => demoDir (d.ra + 0) (d.dec + 0) := rfl
  have hdirs : ∀ ra dec : ℚ, Event.srcDirs demoEventEnv
      (Event.preparedSrData demoEventEnv 2 2 freshRegion 10)
      (fun d => demoDir (d.ra + ra) (d.dec + dec))
      = [demoDir ra dec, demoDir ra dec, demoDir ra dec, demoDir ra dec] := by
    intro ra dec
    unfold Event.srcDirs
    rw [hmu, hphi]
    norm_num [Event.getCelestialDir, my_acos, demoEventEnv, demoDir]
  have hd0 : Event.responseDirs demoEventEnv 2 2 (plainEvent []) freshRegion 10
      = [demoDir 0 0, demoDir 0 0, demoDir 0 0, demoDir 0 0] := hdirs 0 0
  have hd1 : Event.responseDirs demoEventEnv 2 2 shiftedEvent freshRegion 10
      = [demoDir 10 0, demoDir 10 0, demoDir 10 0, demoDir 10 0] := hdirs 10 0
  have l1 : Event.toLower "Gradient" = "gradient" := by decide
  have t3 : Int.toNat 3 = 3 := rfl
  have hn0 : (plainEvent []).getNewDiffuseSrcs raSources = raSources := rfl
  have hn1 : shiftedEvent.getNewDiffuseSrcs raSources = raSources := rfl
  refine ⟨rfl, rfl, rfl, hmu, hphi, ?_, hd0, hd1, ?_, ?_⟩
  · rw [hrot]
    exact hdirs 0 0
  · rw [computeResponse_new _ _ _ _ _ _ _ (by rw [hn0]; decide), hn0, hd0]
    unfold Event.muIntegrands Event.phiIntegrands Event.storeResponses
    rw [hmu, hphi]
    norm_num [plainEvent, raSources, Event.construct, Event.respPushBack, demoEventEnv,
      demoDir, vecIdx, l1, r2, t2, t3, bind, Except.bind, pure, Except.pure, List.replicate,
      List.zipWith, List.zip, List.lookup]
  · rw [computeResponse_new _ _ _ _ _ _ _ (by rw [hn1]; decide), hn1, hd1]
    unfold Event.muIntegrands Event.phiIntegrands Event.storeResponses
    rw [hmu, hphi]
    norm_num [shiftedEvent, raSources, Event.construct, Event.respPushBack, demoEventEnv,
      demoDir, vecIdx, l1, r2, t2, t3, bind, Except.bind, pure, Except.pure, List.replicate,
      List.zipWith, List.zip, List.lookup]

/-- C22, amended.  Entry `i * s_phi.size() + j` of the directions of
`computeResponse` is the sample `(s_phi[j], s_mu[i])` of the prepared grid
under the rotation constructed from the apparent direction of the event, and
there is one entry for every pair of the grid.  These directions are the ones
that the loops of `computeResponse` read.  Neither the directions nor the
event that `computeResponse` leaves depend on the shared rotation `s_eqRot`,
and two events with the same apparent direction have the same directions. -/
theorem responseDirs_anchored_at_apparent_direction {F : Type} [LinearOrderedField F]
    (E : EventEnv F) (nmu nphi : Int) (ev : Event F) (sr : SourceRegionData F) (sr_radius : F) :
    (∀ (i j : Nat) (hi : i < (Event.preparedSrData E nmu nphi sr sr_radius).s_mu.length)
        (hj : j < (Event.preparedSrData E nmu nphi sr sr_radius).s_phi.length),
        (Event.responseDirs E nmu nphi ev sr sr_radius)[i
            * (Event.preparedSrData E nmu nphi sr sr_radius).s_phi.length + j]?
          = some (Event.getCelestialDir E
              ((Event.preparedSrData E nmu nphi sr sr_radius).s_phi.get ⟨j, hj⟩)
              ((Event.preparedSrData E nmu nphi sr sr_radius).s_mu.get ⟨i, hi⟩)
              (E.equinoxRotation ev.m_appDir.ra ev.m_appDir.dec)))
    ∧ (Event.responseDirs E nmu nphi ev sr sr_radius).length
        = (Event.preparedSrData E nmu nphi sr sr_radius).s_mu.length
          * (Event.preparedSrData E nmu nphi sr sr_radius).s_phi.length
    ∧ (∀ srcList : List (DiffuseSource F), (ev.getNewDiffuseSrcs srcList).length ≠ 0 →
        Event.computeResponse E nmu nphi ev sr srcList sr_radius
          = (do
              let table ← ev.m_trueEnergies.foldlM (fun table trueEnergy => do
                let mu_integrands ← Event.muIntegrands E ev
                  (Event.preparedSrData E nmu nphi sr sr_radius) (ev.getNewDiffuseSrcs srcList)
                  (Event.responseDirs E nmu nphi ev sr sr_radius) trueEnergy
                pure (Event.storeResponses E (Event.preparedSrData E nmu nphi sr sr_radius)
                  (ev.getNewDiffuseSrcs srcList) mu_integrands table)) ev.m_respDiffuseSrcs
              pure ({ ev with m_respDiffuseSrcs := table },
                Event.preparedSrData E nmu nphi sr sr_radius)))
    ∧ (∀ rot : SkyDir F → SkyDir F,
        Event.responseDirs E nmu nphi ev { sr with s_eqRot := rot } sr_radius
          = Event.responseDirs E nmu nphi ev sr sr_radius)
    ∧ (∀ (rot : SkyDir F → SkyDir F) (srcList : List (DiffuseSource F)),
        (Event.computeResponse E nmu nphi ev { sr with s_eqRot := rot } srcList sr_radius).map
            Prod.fst
          = (Event.computeResponse E nmu nphi ev sr srcList sr_radius).map Prod.fst)
    ∧ (∀ ev2 : Event F, ev2.m_appDir = ev.m_appDir →
        Event.responseDirs E nmu nphi ev2 sr sr_radius
          = Event.responseDirs E nmu nphi ev sr sr_radius) := by
  refine ⟨?_, ?_, ?_, ?_, ?_, ?_⟩
  · intro i j hi hj
    exact srcDirs_getElem E _ _ i j hi hj
  · exact srcDirs_length E _ _
  · intro srcList h
    exact computeResponse_new E nmu nphi ev sr srcList sr_radius h
  · intro rot
    exact responseDirs_rot E nmu nphi ev sr sr_radius rot
  · intro rot srcList
    exact computeResponse_rot E nmu nphi ev sr srcList sr_radius rot
  · intro ev2 h
    unfold Event.responseDirs
    rw [h]

/-- Witness of C22, amended: the event of apparent direction `(10, 0)` on the
one-point grid, and the event that differs from it in the energy only. -/
theorem responseDirs_anchored_at_apparent_direction_witness :
    (Event.responseDirs demoEventEnv 2 2 shiftedEvent demoSourceRegion 10)[0 * 1 + 0]?
        = some (Event.getCelestialDir demoEventEnv 0 1
            ((demoEventEnv : EventEnv ℚ).equinoxRotation 10 0))
    ∧ ({ shiftedEvent with m_energy := 5 } : Event ℚ).m_appDir = shiftedEvent.m_appDir
    ∧ Event.responseDirs demoEventEnv 2 2 ({ shiftedEvent with m_energy := 5 } : Event ℚ)
          demoSourceRegion 10
        = Event.responseDirs demoEventEnv 2 2 shiftedEvent demoSourceRegion 10 :=
  ⟨(responseDirs_anchored_at_apparent_direction demoEventEnv 2 2 shiftedEvent demoSourceRegion
      10).1 0 0 (by decide) (by decide),
    rfl,
    (responseDirs_anchored_at_apparent_direction demoEventEnv 2 2 shiftedEvent demoSourceRegion
      10).2.2.2.2.2 _ rfl⟩

/-- C23.  The image `energyMap` has two planes and an energy axis of length
two.  The member `convolve` returns on it, with and without convolution, and
every image that `convolve` returns on it has one plane and an energy axis of
length two.  The member `rebin` returns on it, and whenever `rebin` returns on
an image whose number of planes is the length of its energy axis, the same
holds for the new map. -/
theorem convolve_keeps_the_energy_axis :
    energyMap.m_image.length = 2 ∧ energyMap.m_energies.length = 2
    ∧ (∃ r, energyMap.convolve demoConvolveEnv 100 false 0 = .ok r)
    ∧ (∃ r, energyMap.convolve demoConvolveEnv 100 true 0 = .ok r)
    ∧ (∀ (performConvolution : Bool) (k : Int) (r : WcsMap2 ℚ),
        energyMap.convolve demoConvolveEnv 100 performConvolution k = .ok r →
        r.m_image.length = 1 ∧ r.m_energies.length = 2)
    ∧ (∃ this my_map, energyMap.rebin demoGeom demoMkSkyProj 1 false = .ok (this, my_map))
    ∧ ∀ (m : WcsMap2 ℚ) (factor : Nat) (average : Bool) (this my_map : WcsMap2 ℚ),
        m.m_image.length = m.m_energies.length →
        m.rebin demoGeom demoMkSkyProj factor average = .ok (this, my_map) →
        my_map.m_image.length = my_map.m_energies.length := by
  have hwf : energyMap.WellFormed := by
    simp [WcsMap2.WellFormed, demoMap, energyMap]
  refine ⟨rfl, rfl, ?_, ?_, ?_, ?_, ?_⟩
  · obtain ⟨counts, h⟩ := convolve_false_ok demoConvolveEnv energyMap 100 0 hwf
      (by norm_num [energyMap, demoMap]) (by norm_num [energyMap, demoMap])
    exact ⟨_, h⟩
  · exact convolve_true_ok demoConvolveEnv energyMap 100 0 hwf
      (by norm_num [energyMap, demoMap]) (by norm_num [energyMap, demoMap])
      (by norm_num [energyMap, demoMap])
  · intro pc k r h
    obtain ⟨h1, -, h3, -, -⟩ := convolve_result demoConvolveEnv energyMap r 100 pc k h
    exact ⟨h1, by rw [h3]; rfl⟩
  · have hc : energyMap.CacheOk := Or.inl rfl
    obtain ⟨image, p1, -⟩ := rebin_planes_spec demoGeom energyMap hwf hc 1
      (WcsMap2.rebinSize energyMap.m_naxis1 1) (WcsMap2.rebinSize energyMap.m_naxis2 1) []
      (fun j hj => rebin_size_bound energyMap.m_naxis2 1 j (le_refl 1) hj)
      (fun i hi => rebin_size_bound energyMap.m_naxis1 1 i (le_refl 1) hi)
    obtain ⟨this, p3⟩ := rebin_eq demoGeom demoMkSkyProj energyMap 1 false hwf hc (le_refl 1)
      [] image rfl p1
    exact ⟨this, _, p3⟩
  · intro m factor average this my_map hm h
    obtain ⟨h1, h2⟩ := rebin_plane_count demoGeom demoMkSkyProj m factor average this my_map h
    rw [h1, h2, hm]

/-- C24.  The file constructor applied to the header of 4 pixels of `-90`
degrees returns an image whose periodic flag is false, although `4 x |-90|`
rounds to `360`: the code rounds `4 x (-90)`, which gives `-360`.  The same
two roundings are shown for the 360-pixel-wide map with `CDELT1 = -1`.  For
every header, the flag of the image that the file constructor returns is true
exactly when `NAXIS1 x CDELT1`, with the sign of `CDELT1`, rounds to `360`. -/
theorem periodic_flag_needs_positive_cdelt1 :
    (∃ m, WcsMap2.fromFile demoGeom demoMkSkyDir ringFile false = .ok m
      ∧ m.m_naxis1 = 4 ∧ m.m_cdelt1 = -90 ∧ m.m_isPeriodic = false)
    ∧ my_round ((4 : ℚ) * |(-90 : ℚ)|) = 360
    ∧ my_round ((4 : ℚ) * (-90)) = -360
    ∧ my_round ((360 : ℚ) * |(-1 : ℚ)|) = 360
    ∧ my_round ((360 : ℚ) * (-1)) = -360
    ∧ ∀ (file : ImageFile ℚ) (interpolate : Bool) (m : WcsMap2 ℚ),
        WcsMap2.fromFile demoGeom demoMkSkyDir file interpolate = .ok m →
        (m.m_isPeriodic = true ↔ my_round ((file.NAXIS1 : ℚ) * file.CDELT1) = 360) := by
  have r1 : List.range 1 = [0] := rfl
  have t1 : Int.toNat 1 = 1 := rfl
  have t4 : Int.toNat 4 = 4 := rfl
  have c1 : castInt (-360 : ℚ) = -360 := by
    have : ¬ (0 : ℚ) ≤ -360 := by norm_num
    rw [castInt, if_neg this, Int.ceil_eq_iff]
    norm_num
  have c2 : castInt (360 : ℚ) = 360 := by
    norm_num [castInt]
  have m1 : my_round (-360 : ℚ) = -360 := by
    simp only [my_round, c1]
    norm_num
  have m2 : my_round (360 : ℚ) = 360 := by
    simp only [my_round, c2]
    norm_num
  have himg : WcsMap2.fromFileImage [(1 : ℚ), 2, 3, 4] 4 1 1 = .ok [[[1, 2, 3, 4]]] := by
    norm_num [WcsMap2.fromFileImage, WcsMap2.resizeInt, WcsMap2.vecResize, List.foldlM, bind,
      Except.bind, pure, Except.pure, r1, t1, t4]
  have hne : ¬ my_round (((4 : Int) : ℚ) * (-90)) = 360 := by
    have : (((4 : Int) : ℚ) * (-90)) = -360 := by norm_num
    rw [this, m1]
    norm_num
  refine ⟨?_, ?_, ?_, ?_, ?_, ?_⟩
  · have hS : WcsMap2.fromFile demoGeom demoMkSkyDir ringFile false
        = (WcsMap2.fromFileMembers demoMkSkyDir ringFile false [100]
            [[[1, 2, 3, 4]]]).computeMapIntegrals demoGeom := by
      unfold WcsMap2.fromFile
      have a1 : ringFile.NAXIS = 2 := rfl
      have a2 : ringFile.NAXIS1 = 4 := rfl
      have a3 : ringFile.NAXIS2 = 1 := rfl
      have a5 : ringFile.pixels = [1, 2, 3, 4] := rfl
      simp only [a1, a2, a3, a5]
      rw [if_neg (by decide : ¬ (2 : Int) = 3), if_neg (by decide : ¬ (1 : Int) > 1)]
      simp only [bind, Except.bind, pure, Except.pure, himg]
    obtain ⟨r, h1, -, -, -, -, -, h4, -, -, h5, -, -⟩ := computeMapIntegrals_shape demoGeom
      (WcsMap2.fromFileMembers demoMkSkyDir ringFile false [100] [[[1, 2, 3, 4]]])
      (by simp [WcsMap2.WellFormed, WcsMap2.fromFileMembers, ringFile]) (Or.inl rfl)
    obtain ⟨c, a, b, hr⟩ := computeMapIntegrals_result demoGeom _ r h1
    refine ⟨r, by rw [hS, h1], h4, by rw [hr]; rfl, ?_⟩
    rw [h5]
    show (if my_round (((4 : Int) : ℚ) * (-90)) = 360 then true else false) = false
    rw [if_neg hne]
  · have : (4 : ℚ) * |(-90 : ℚ)| = 360 := by norm_num [abs_of_neg]
    rw [this, m2]
  · have : (4 : ℚ) * (-90) = -360 := by norm_num
    rw [this, m1]
  · have : (360 : ℚ) * |(-1 : ℚ)| = 360 := by norm_num [abs_of_neg]
    rw [this, m2]
  · have : (360 : ℚ) * (-1) = -360 := by norm_num
    rw [this, m1]
  · intro file interpolate m h
    exact (fromFile_isPeriodic demoGeom demoMkSkyDir file interpolate m h).2.2

/-- C25.  The file constructor applied to the file of the two planes `1` and
`2` at the energies `100` and `200` returns an image whose plane integrals are
`1/3600` and `1/1800`, and `mapIntegral` returns these at the two energies.
On the copy of that image, on the new map of `rebin(1, false)` and on the
image that `convolve` returns, the call `mapIntegral(100)` fails in the checked
access to the empty vector of cached plane integrals. -/
theorem copies_lose_the_plane_integrals :
    ∃ m, WcsMap2.fromFile demoGeom demoMkSkyDir energyFile false = .ok m
      ∧ m.m_energies = [100, 200]
      ∧ m.planeFlux demoGeom 0 = 1 / 3600
      ∧ m.planeFlux demoGeom 1 = 1 / 1800
      ∧ (∀ log exp : ℚ → ℚ, m.mapIntegral log exp 100 = .ok (1 / 3600)
          ∧ m.mapIntegral log exp 200 = .ok (1 / 1800))
      ∧ (∀ log exp : ℚ → ℚ, m.copy.mapIntegral log exp 100 = .error .vectorAt)
      ∧ (∃ this my_map, m.rebin demoGeom demoMkSkyProj 1 false = .ok (this, my_map)
          ∧ ∀ log exp : ℚ → ℚ, my_map.mapIntegral log exp 100 = .error .vectorAt)
      ∧ (∃ r, m.convolve demoConvolveEnv 100 false 0 = .ok r
          ∧ ∀ log exp : ℚ → ℚ, r.mapIntegral log exp 100 = .error .vectorAt) := by
  have r1 : List.range 1 = [0] := rfl
  have r2 : List.range 2 = [0, 1] := rfl
  have t1 : Int.toNat 1 = 1 := rfl
  have t2 : Int.toNat 2 = 2 := rfl
  have himg : WcsMap2.fromFileImage [(1 : ℚ), 2] 1 1 2 = .ok [[[1]], [[2]]] := by
    norm_num [WcsMap2.fromFileImage, WcsMap2.resizeInt, WcsMap2.vecResize, List.foldlM, bind,
      Except.bind, pure, Except.pure, r1, r2, t1, t2]
  have hS : WcsMap2.fromFile demoGeom demoMkSkyDir energyFile false
      = (WcsMap2.fromFileMembers demoMkSkyDir energyFile false [100, 200]
          [[[1]], [[2]]]).computeMapIntegrals demoGeom := by
    unfold WcsMap2.fromFile
    have a1 : energyFile.NAXIS = 3 := rfl
    have a2 : energyFile.NAXIS1 = 1 := rfl
    have a3 : energyFile.NAXIS2 = 1 := rfl
    have a4 : energyFile.NAXIS3 = 2 := rfl
    have a5 : energyFile.pixels = [1, 2] := rfl
    have a6 : energyFile.energies = [100, 200] := rfl
    simp only [a1, a2, a3, a4, a5, a6, if_true]
    rw [if_pos (by decide : (2 : Int) > 1), if_neg (by decide)]
    simp only [bind, Except.bind, pure, Except.pure, himg]
  have hwfS : (WcsMap2.fromFileMembers demoMkSkyDir energyFile false [100, 200]
      [[[1]], [[2]]]).WellFormed := by
    simp [WcsMap2.WellFormed, WcsMap2.fromFileMembers, energyFile]
  obtain ⟨m, h1, hwf, hc, b1, b2, b3, b4, b5, b6, -, b7, b8⟩ := computeMapIntegrals_shape demoGeom
    (WcsMap2.fromFileMembers demoMkSkyDir energyFile false [100, 200] [[[1]], [[2]]])
    hwfS (Or.inl rfl)
  have e : WcsMap2.solidAngleOf demoGeom (demoProj ((0 : ℚ), 0) (0, 0) (1, 1))
      (((0 : Nat) : ℚ)) (((0 : Nat) : ℚ)) = 1 / 3600 := by
    simp only [WcsMap2.solidAngleOf, demoGeom, demoProj]
    norm_num [abs_of_nonneg, abs_of_neg]
  have hsaS : (WcsMap2.fromFileMembers demoMkSkyDir energyFile false [100, 200]
      [[[1]], [[2]]]).solidAngles demoGeom = [[1 / 3600]] := by
    show (if ([] : List (List ℚ)).isEmpty = true then
        List.map (fun (i : Nat) => List.map (fun (j : Nat) =>
          WcsMap2.solidAngleOf demoGeom (demoProj ((0 : ℚ), 0) (0, 0) (1, 1)) (i : ℚ) (j : ℚ))
            (List.range (Int.toNat 1)))
          (List.range (Int.toNat 1))
        else []) = _
    rw [t1, r1]
    simp only [List.isEmpty_nil, if_true, List.map_cons, List.map_nil, e]
  have n3 : (WcsMap2.fromFileMembers demoMkSkyDir energyFile false [100, 200]
      [[[1]], [[2]]]).m_naxis3 = 2 := rfl
  have n2 : (WcsMap2.fromFileMembers demoMkSkyDir energyFile false [100, 200]
      [[[1]], [[2]]]).m_naxis2 = 1 := rfl
  have n1 : (WcsMap2.fromFileMembers demoMkSkyDir energyFile false [100, 200]
      [[[1]], [[2]]]).m_naxis1 = 1 := rfl
  have i0 : (WcsMap2.fromFileMembers demoMkSkyDir energyFile false [100, 200]
      [[[1]], [[2]]]).imageAt 0 0 0 = some 1 := rfl
  have i1 : (WcsMap2.fromFileMembers demoMkSkyDir energyFile false [100, 200]
      [[[1]], [[2]]]).imageAt 1 0 0 = some 2 := rfl
  have f0 : (WcsMap2.fromFileMembers demoMkSkyDir energyFile false [100, 200]
      [[[1]], [[2]]]).planeFlux demoGeom 0 = 1 / 3600 := by
    simp only [WcsMap2.planeFlux, hsaS, n1, n2, t1]
    norm_num [WcsMap2.tableAt, Finset.sum_range_succ, i0]
  have f1 : (WcsMap2.fromFileMembers demoMkSkyDir energyFile false [100, 200]
      [[[1]], [[2]]]).planeFlux demoGeom 1 = 1 / 1800 := by
    simp only [WcsMap2.planeFlux, hsaS, n1, n2, t1]
    norm_num [WcsMap2.tableAt, Finset.sum_range_succ, i1]
  have hmi : m.m_mapIntegrals = [1 / 3600, 1 / 1800] := by
    rw [b7, n3, t2, r2]
    simp only [List.map_cons, List.map_nil, f0, f1]
  have hen : m.m_energies = [100, 200] := b2
  have hnx : m.m_naxes = 3 := b3
  obtain ⟨c, a, b, hr⟩ := computeMapIntegrals_result demoGeom _ m h1
  have hsam : m.solidAngles demoGeom = [[1 / 3600]] := by
    have hcache : m.m_solidAngles = [[1 / 3600]] := by
      rw [b8, if_pos (by rw [n1, n2, n3]; decide), hsaS]
    unfold WcsMap2.solidAngles
    rw [hcache]
    rfl
  have hia : ∀ k j i, m.imageAt k j i = (WcsMap2.fromFileMembers demoMkSkyDir energyFile false
      [100, 200] [[[1]], [[2]]]).imageAt k j i := by
    intro k j i
    unfold WcsMap2.imageAt
    rw [b1]
  refine ⟨m, by rw [hS, h1], hen, ?_, ?_, ?_, ?_, ?_, ?_⟩
  · simp only [WcsMap2.planeFlux, hsam, b4, b5, n1, n2, t1, hia]
    norm_num [WcsMap2.tableAt, Finset.sum_range_succ, i0]
  · simp only [WcsMap2.planeFlux, hsam, b4, b5, n1, n2, t1, hia]
    norm_num [WcsMap2.tableAt, Finset.sum_range_succ, i1]
  · intro log exp
    obtain ⟨k0, k1⟩ := mapIntegral_two_planes log exp m 100 200 hen (by norm_num) hnx
    rw [k0, k1, hmi]
    exact ⟨rfl, rfl⟩
  · intro log exp
    rw [(mapIntegral_two_planes log exp m.copy 100 200 hen (by norm_num) hnx).1]
    rfl
  · obtain ⟨image, p1, -⟩ := rebin_planes_spec demoGeom m hwf hc 1
      (WcsMap2.rebinSize m.m_naxis1 1) (WcsMap2.rebinSize m.m_naxis2 1) []
      (fun j hj => rebin_size_bound m.m_naxis2 1 j (le_refl 1) hj)
      (fun i hi => rebin_size_bound m.m_naxis1 1 i (le_refl 1) hi)
    obtain ⟨this, p3⟩ := rebin_eq demoGeom demoMkSkyProj m 1 false hwf hc (le_refl 1) [] image
      rfl p1
    refine ⟨this, _, p3, ?_⟩
    intro log exp
    rw [(mapIntegral_two_planes log exp (WcsMap2.rebinned demoMkSkyProj m 1 image) 100 200 hen
      (by norm_num) hnx).1]
    rfl
  · obtain ⟨counts, p⟩ := convolve_false_ok demoConvolveEnv m 100 0 hwf
      (by rw [b6, n3]; decide) (by rw [b4, n1]; decide)
    refine ⟨_, p, ?_⟩
    intro log exp
    rw [(mapIntegral_two_planes log exp
      ({ m.copy with m_image := [counts], m_naxis3 := 1 } : WcsMap2 ℚ) 100 200 hen
      (by norm_num) hnx).1]
    rfl

/-- C26.  The names `GalDiffuse` and `GALDIFFUSE` have the same lower-case
form.  On the event without energy dispersion, whose true-energy grid is
`[110]`, and the list of the two sources with these names, `computeResponse`
returns a table whose one vector, under `galdiffuse`, has two values; with the
list `[GalDiffuse]` the vector has one value.  When the new sources of a list
have pairwise different lower-cased names and every vector of the table has
the length of the true-energy grid, `computeResponse` returns a table with the
same property; in particular, on a newly constructed event and a list with
pairwise different lower-cased names every vector has length `100` with
energy dispersion and `1` without. -/
theorem twin_names_double_the_response_vector :
    Event.toLower "GalDiffuse" = Event.toLower "GALDIFFUSE"
    ∧ (plainEvent []).m_trueEnergies = [110]
    ∧ Event.computeResponse demoEventEnv 2 2 (plainEvent []) demoSourceRegion twinSources 10
      = .ok ({ plainEvent [] with m_respDiffuseSrcs := [("galdiffuse", [110, 110])] },
          demoSourceRegion)
    ∧ Event.computeResponse demoEventEnv 2 2 (plainEvent []) demoSourceRegion demoSources 10
      = .ok ({ plainEvent [] with m_respDiffuseSrcs := [("galdiffuse", [110])] },
          demoSourceRegion)
    ∧ (∀ (E : EventEnv ℚ) (nmu nphi : Int) (ev : Event ℚ) (sr : SourceRegionData ℚ)
        (srcList : List (DiffuseSource ℚ)) (sr_radius : ℚ),
        ((ev.getNewDiffuseSrcs srcList).map fun s => Event.toLower s.getName).Nodup →
        (∀ e ∈ ev.m_respDiffuseSrcs, e.2.length = ev.m_trueEnergies.length) →
        ∃ ev' sr', Event.computeResponse E nmu nphi ev sr srcList sr_radius = .ok (ev', sr')
          ∧ ev'.m_trueEnergies = ev.m_trueEnergies
          ∧ ∀ e ∈ ev'.m_respDiffuseSrcs, e.2.length = ev'.m_trueEnergies.length)
    ∧ (∀ (useEdisp : Bool) (E : EventEnv ℚ) (nmu nphi : Int)
        (ra dec energy time sc_ra sc_dec muZenith : ℚ) (type : Int) (sr : SourceRegionData ℚ)
        (srcList : List (DiffuseSource ℚ)) (sr_radius : ℚ),
        (srcList.map fun s => Event.toLower s.getName).Nodup →
        ∃ ev' sr', Event.computeResponse E nmu nphi
            (Event.construct useEdisp E ra dec energy time sc_ra sc_dec muZenith type) sr srcList
            sr_radius = .ok (ev', sr')
          ∧ ev'.m_trueEnergies.length = (if useEdisp then 100 else 1)
          ∧ ∀ e ∈ ev'.m_respDiffuseSrcs, e.2.length = (if useEdisp then 100 else 1)) := by
  have l1 : Event.toLower "GalDiffuse" = "galdiffuse" := by decide
  have l2 : Event.toLower "GALDIFFUSE" = "galdiffuse" := by decide
  have r1 : List.range 1 = [0] := rfl
  refine ⟨by decide, rfl, ?_, ?_, ?_, ?_⟩
  · norm_num [Event.computeResponse, Event.getNewDiffuseSrcs, plainEvent, twinSources,
      Event.construct, demoSourceRegion, Event.srcDirs, Event.muIntegrands, Event.phiIntegrands,
      Event.storeResponses, Event.respPushBack, demoEventEnv, Event.getCelestialDir, my_acos,
      demoDir, vecIdx, l1, l2, r1, bind, Except.bind, pure, Except.pure, List.replicate,
      List.zipWith, List.zip, List.lookup]
  · norm_num [Event.computeResponse, Event.getNewDiffuseSrcs, plainEvent, demoSources,
      Event.construct, demoSourceRegion, Event.srcDirs, Event.muIntegrands, Event.phiIntegrands,
      Event.storeResponses, Event.respPushBack, demoEventEnv, Event.getCelestialDir, my_acos,
      demoDir, vecIdx, l1, l2, r1, bind, Except.bind, pure, Except.pure, List.replicate,
      List.zipWith, List.zip, List.lookup]
  · intro E nmu nphi ev sr srcList sr_radius hnd hold
    obtain ⟨ev', sr', h1, h2, h3⟩ :=
      computeResponse_aligned E nmu nphi ev sr srcList sr_radius hnd hold
    exact ⟨ev', sr', h1, h2, by rw [h2]; exact h3⟩
  · intro useEdisp E nmu nphi ra dec energy time sc_ra sc_dec muZenith type sr srcList
      sr_radius hnd
    have hlen : (Event.construct useEdisp E ra dec energy time sc_ra sc_dec muZenith
        type).m_trueEnergies.length = (if useEdisp then 100 else 1) := by
      cases useEdisp
      · rfl
      · simp [Event.construct]
    have htab : (Event.construct useEdisp E ra dec energy time sc_ra sc_dec muZenith
        type).m_respDiffuseSrcs = [] := by
      cases useEdisp <;> rfl
    obtain ⟨ev', sr', h1, h2, h3⟩ := computeResponse_aligned E nmu nphi
      (Event.construct useEdisp E ra dec energy time sc_ra sc_dec muZenith type) sr srcList
      sr_radius
      (List.Nodup.sublist (List.Sublist.map _ (List.filter_sublist _)) hnd)
      (by rw [htab]; intro e he; cases he)
    exact ⟨ev', sr', h1, by rw [h2, hlen], by rw [← hlen]; exact h3⟩

/-- C27.  Over the reals, `value(x)` of a `LogGaussian` is
`Norm x (-(x - Mean)^2 / (2 Sigma^2) - ln(sqrt(2 pi) Sigma))`.  For `Norm = 1`,
`Mean = 0`, `Sigma = 1` and `x = 1`, `derivByParamImp` returns `0` for `Mean`
while the derivative of the value with respect to `Mean` is `1`, and it returns
`-5/6` for `Sigma` while the derivative with respect to `Sigma` is `0`; for
`Norm` the returned value is the derivative. -/
theorem logGaussian_mean_and_sigma_derivatives :
    (∀ norm mean sigma x : ℝ,
      (LogGaussian.construct Real.log Real.sqrt Real.pi norm mean sigma).value x
        = .ok (norm * (-(x - mean) * (x - mean) / 2 / sigma / sigma
            - Real.log (Real.sqrt (2 * Real.pi) * sigma))))
    ∧ (LogGaussian.construct Real.log Real.sqrt Real.pi 1 0 1).derivByParamImp 1 "Mean" = .ok 0
    ∧ HasDerivAt (fun mean : ℝ => 1 * (-(1 - mean) * (1 - mean) / 2 / 1 / 1
          - Real.log (Real.sqrt (2 * Real.pi) * 1))) 1 0
    ∧ (LogGaussian.construct Real.log Real.sqrt Real.pi 1 0 1).derivByParamImp 1 "Sigma"
        = .ok (-5 / 6)
    ∧ HasDerivAt (fun sigma : ℝ => 1 * (-(1 - 0) * (1 - 0) / 2 / sigma / sigma
          - Real.log (Real.sqrt (2 * Real.pi) * sigma))) 0 1
    ∧ (LogGaussian.construct Real.log Real.sqrt Real.pi 1 0 1).derivByParamImp 1 "Norm"
        = .ok (-1 / 2 - Real.log (Real.sqrt (2 * Real.pi)))
    ∧ HasDerivAt (fun norm : ℝ => norm * (-(1 - 0) * (1 - 0) / 2 / 1 / 1
          - Real.log (Real.sqrt (2 * Real.pi) * 1)))
        (-1 / 2 - Real.log (Real.sqrt (2 * Real.pi))) 1 := by
  obtain ⟨d0, d1, d2⟩ := logGaussian_derivByParamImp Real.log Real.sqrt Real.pi 1 0 1 1
  have hc : 0 < Real.sqrt (2 * Real.pi) := Real.sqrt_pos.mpr (by positivity)
  refine ⟨fun norm mean sigma x => logGaussian_value _ _ _ _ _ _ _, ?_, ?_, ?_, ?_, ?_, ?_⟩
  · rw [d1]
    norm_num
  · have h1 : HasDerivAt (fun mean : ℝ => 1 - mean) (-1) 0 := by
      simpa using (hasDerivAt_id (0 : ℝ)).const_sub 1
    have h2 := (((((h1.neg.mul h1).div_const 2).div_const 1).div_const 1).sub_const
      (Real.log (Real.sqrt (2 * Real.pi) * 1))).const_mul 1
    convert h2 using 1
    norm_num
  · rw [d2]
    norm_num
  · have hs : HasDerivAt (fun sigma : ℝ => sigma) 1 1 := hasDerivAt_id 1
    have hA := ((hasDerivAt_const (1 : ℝ) (-(1 - 0) * (1 - 0) / 2 : ℝ)).div hs
      one_ne_zero).div hs one_ne_zero
    have hB := (hs.const_mul (Real.sqrt (2 * Real.pi))).log (by
      simp only [mul_one]
      exact ne_of_gt hc)
    have h := (hA.sub hB).const_mul 1
    convert h using 1
    field_simp
  · rw [d0]
    norm_num
  · have h := (hasDerivAt_id (1 : ℝ)).mul_const
      (-(1 - 0) * (1 - 0) / 2 / 1 / 1 - Real.log (Real.sqrt (2 * Real.pi) * 1))
    convert h using 1
    norm_num

/-- C28.  The member `checkTimeCuts(cuts1, cuts2, compareGtis)` returns true
for all cut sets and the file-level `checkTimeCuts` never fails:
`gatherTimeCuts` receives the vector of time cuts by value, so the two vectors
that are compared stay empty.  In particular the result is true for the cut
sets `[TIME in 0..10]` and `[TIME in 0..20]`, whose time cuts differ, and for
`[TIME in 0..10]` and the empty set, whose numbers of time cuts differ. -/
theorem checkTimeCuts_always_true :
    (∀ (cutEq : CutBase → CutBase → Bool) (cuts1 cuts2 : List CutBase) (compareGtis : Bool),
      AppHelpers.checkTimeCuts cutEq cuts1 cuts2 compareGtis = true)
    ∧ (∀ (readCuts : String → String → List CutBase) (cutEq : CutBase → CutBase → Bool)
        (file1 ext1 file2 ext2 : String) (compareGtis : Bool),
      AppHelpers.checkTimeCutsFiles readCuts cutEq file1 ext1 file2 ext2 compareGtis = .ok ())
    ∧ AppHelpers.timeCutsOf [timeRange 0 10] false = [timeRange 0 10]
    ∧ AppHelpers.timeCutsOf [timeRange 0 20] false = [timeRange 0 20]
    ∧ AppHelpers.timeCutsOf [] false = []
    ∧ timeRange 0 10 ≠ timeRange 0 20
    ∧ AppHelpers.checkTimeCuts (fun a b => decide (a = b)) [timeRange 0 10] [timeRange 0 20]
        false = true
    ∧ AppHelpers.checkTimeCuts (fun a b => decide (a = b)) [timeRange 0 10] [] false = true := by
  have key : ∀ (cutEq : CutBase → CutBase → Bool) (cuts1 cuts2 : List CutBase)
      (compareGtis : Bool), AppHelpers.checkTimeCuts cutEq cuts1 cuts2 compareGtis = true := by
    intro cutEq cuts1 cuts2 compareGtis
    rfl
  refine ⟨key, ?_, by decide, by decide, by decide, by decide, key _ _ _ _, key _ _ _ _⟩
  intro readCuts cutEq file1 ext1 file2 ext2 compareGtis
  unfold AppHelpers.checkTimeCutsFiles
  rw [key]
  rfl

/-- C29.  On the three-axis image `energyMap` with two planes the plane index
`2` passes `check_energy_index`, and `pixelValue`, `sample` and `convolve`
with this index read `m_image[2]`, which does not exist.  For every three-axis
image and every index `k < 0` or `k > naxis3` the three members raise the
out-of-range error. -/
theorem energy_index_naxis3_is_accepted :
    energyMap.m_naxes = 3 ∧ energyMap.m_naxis3 = 2 ∧ energyMap.m_image.length = 2
    ∧ energyMap.check_energy_index 2 = .ok ()
    ∧ energyMap.pixelValue 1 1 2 = .error .undefinedBehaviour
    ∧ energyMap.sample (demoDir 1 1) 2 = .error .undefinedBehaviour
    ∧ energyMap.convolve demoConvolveEnv 100 false 2 = .error .undefinedBehaviour
    ∧ ∀ (m : WcsMap2 ℚ) (k : Int), m.m_naxes = 3 → (k < 0 ∨ k > m.m_naxis3) →
        ∀ (x y energy : ℚ) (dir : SkyDir ℚ) (performConvolution : Bool),
          m.pixelValue x y k = .error .energyIndexOutOfRange
          ∧ m.sample dir k = .error .energyIndexOutOfRange
          ∧ m.convolve demoConvolveEnv energy performConvolution k
              = .error .energyIndexOutOfRange := by
  have hc : energyMap.check_energy_index 2 = .ok () := by
    simp [WcsMap2.check_energy_index, energyMap, demoMap]
  have hr : my_round (1 : ℚ) = 1 := by
    norm_num [my_round, castInt]
  have hci : castInt (1 : ℚ) = 1 := by norm_num [castInt]
  have hp : energyMap.pixelValue 1 1 2 = .error .undefinedBehaviour := by
    unfold WcsMap2.pixelValue
    rw [hc]
    simp only [bind, Except.bind, hr, hci]
    have t2 : Int.toNat 2 = 2 := rfl
    norm_num [energyMap, demoMap, vecIdx, t2]
  refine ⟨rfl, rfl, rfl, hc, hp, ?_, ?_, ?_⟩
  · unfold WcsMap2.sample
    rw [hc]
    have hproj : energyMap.m_proj.project (demoDir 1 1) = (1, 1) := by
      simp [energyMap, demoMap, demoProj, demoDir]
    simp only [bind, Except.bind, hproj]
    have a1 : energyMap.m_isPeriodic = false := rfl
    have a2 : energyMap.m_interpolate = false := rfl
    have a3 : energyMap.m_naxis1 = 1 := rfl
    have a4 : energyMap.m_naxis2 = 1 := rfl
    simp only [a1, a2, a3, a4]
    norm_num [hp]
  · unfold WcsMap2.convolve
    rw [hc]
    have a3 : energyMap.m_naxis1 = 1 := rfl
    have a4 : energyMap.m_naxis2 = 1 := rfl
    have t1 : Int.toNat 1 = 1 := rfl
    have r1 : List.range 1 = [0] := rfl
    have hf : WcsMap2.fillImage energyMap.m_proj 1 1
        (WcsMap2.countsValue demoConvolveEnv energyMap 100 2) = .error .undefinedBehaviour := by
      have ht : ∀ x y : ℚ, energyMap.m_proj.testpix2sph x y = 0 := fun _ _ => rfl
      have hv : ∀ (i j : Nat) (c : ℚ × ℚ),
          WcsMap2.countsValue demoConvolveEnv energyMap 100 2 i j c
            = .error .undefinedBehaviour := by
        intro i j c
        simp [WcsMap2.countsValue, energyMap, demoMap, vecIdx, bind, Except.bind]
      simp only [WcsMap2.fillImage, WcsMap2.resizeInt, ht, hv, t1, r1]
      norm_num [WcsMap2.vecResize, vecAt, bind, Except.bind, pure, Except.pure, List.foldlM]
    simp only [bind, Except.bind, a3, a4, hf]
  · intro m k h3 hk x y energy dir pc
    have hc' : m.check_energy_index k = .error .energyIndexOutOfRange := by
      unfold WcsMap2.check_energy_index
      rw [if_pos ⟨h3, hk⟩]
    refine ⟨?_, ?_, ?_⟩
    · unfold WcsMap2.pixelValue
      rw [hc']
      rfl
    · unfold WcsMap2.sample
      rw [hc']
      rfl
    · unfold WcsMap2.convolve
      rw [hc']
      rfl

/-- C30.  On the map of 2 x 2 pixels the loops of `minMaxDistPixels` evaluate
the pixel coordinates `(2, 1)`, `(3, 2)`, `(1, 3)`: the second lies in column
`naxis1 + 1` and the third in row `naxis2 + 1`, outside the map, and the
boundary pixels `(2, 2)` and `(1, 2)` are not evaluated.  For the direction
`(3, 2)` the closest direction returned is that of the coordinates `(3, 2)`;
for the direction of pixel `(2, 2)` it is that of pixel `(2, 1)`, at distance
`1`, while pixel `(2, 2)` is at distance `0`. -/
theorem minMaxDistPixels_leaves_the_map :
    (squareMap false).m_naxis1 = 2 ∧ (squareMap false).m_naxis2 = 2
    ∧ (squareMap false).minMaxDistWalk = [(2, 1), (3, 2), (1, 3)]
    ∧ WcsMap2.minMaxDistPixels demoMkSkyDir demoDifference (squareMap false) (demoDir 3 2)
        = ((squareMap false).skyDir demoMkSkyDir 3 2, (squareMap false).skyDir demoMkSkyDir 1 1)
    ∧ WcsMap2.minMaxDistPixels demoMkSkyDir demoDifference (squareMap false) (demoDir 2 2)
        = ((squareMap false).skyDir demoMkSkyDir 2 1, (squareMap false).skyDir demoMkSkyDir 1 1)
    ∧ demoDifference (demoDir 2 2) ((squareMap false).skyDir demoMkSkyDir 2 1) = 1
    ∧ demoDifference (demoDir 2 2) ((squareMap false).skyDir demoMkSkyDir 2 2) = 0 := by
  have hw : (squareMap false).minMaxDistWalk = [(2, 1), (3, 2), (1, 3)] := by decide
  have hs : ∀ x y : ℚ, (squareMap false).skyDir demoMkSkyDir x y = demoDir x y := by
    intro x y
    simp [WcsMap2.skyDir, squareMap, demoMap, demoProj, demoMkSkyDir]
  refine ⟨rfl, rfl, hw, ?_, ?_, ?_, ?_⟩
  · unfold WcsMap2.minMaxDistPixels
    rw [hw]
    simp only [hs, List.foldl]
    norm_num [demoDifference, demoDir, abs_of_nonneg, abs_of_neg]
  · unfold WcsMap2.minMaxDistPixels
    rw [hw]
    simp only [hs, List.foldl]
    norm_num [demoDifference, demoDir, abs_of_nonneg, abs_of_neg]
  · rw [hs]
    norm_num [demoDifference, demoDir]
  · rw [hs]
    norm_num [demoDifference, demoDir]

end Claims

end Likelihood
